import Mathlib

/-!
# Verification of the mbg multi-site news scraping and normalization layer

This file gives a shallow embedding, in Lean 4, of the text/URL/date
normalizers, list- and detail-page parsers, and scrape-orchestrator record
logic of the `mbg` repository (the site extractors
`mbg_news_detik.py`, `mbg_news_kompas.py`, `mbg_news_tribunnews.py`,
`mbg_news_republika.py`, and the classifier wrapper `sentiment_engine.py`),
and proves or refutes the specification claims about them.

Modelling conventions:
* Python strings are Lean `String` / `List Char`; `None`-or-string inputs are
  `Option String`.
* Python regular-expression use is embedded through a small executable
  backtracking engine (`RTok`, `matchToks`, `searchToks`) whose greedy /
  lazy alternative ordering mirrors CPython `re` semantics for the concrete
  patterns appearing in the sources; each source pattern is transcribed
  token by token.
* A rendered HTML document is modelled at the granularity the code consumes
  it: a list page is its sequence of `<a href>` anchors (href attribute and
  extracted text), a detail page is its meta tags, `h1`, and main container
  (paragraph texts plus flattened container text).
* Exceptions are `Except`; functions the code wraps in `try/except` are
  embedded as total functions returning the caught-case value.
* `datetime.fromisoformat` is modelled on the fixed-width dashed grammar the
  sites produce (`YYYY-MM-DD[{T or space}HH:MM[:SS[.digits]][+HH:MM]]`),
  with full range validation; `ZoneInfo("Asia/Jakarta")` is the fixed
  UTC+7 offset it denotes for every instant since 1964 (theorems restrict
  to years 1970..9998 where this is exact and no `OverflowError` occurs).
-/

namespace Mbg

/- ===================================================================
   Python character classes and basic string helpers
   =================================================================== -/

/-- The set of characters matched by Python `\s` (and stripped by
`str.strip()`) on `str` inputs: ASCII whitespace, the C1 separators, and the
Unicode space characters. -/
def pyIsSpace (c : Char) : Bool :=
  c = ' ' || c = '\t' || c = '\n' || c = '\r' ||
  c = Char.ofNat 0x0b || c = Char.ofNat 0x0c ||
  c = Char.ofNat 0x1c || c = Char.ofNat 0x1d ||
  c = Char.ofNat 0x1e || c = Char.ofNat 0x1f ||
  c = Char.ofNat 0x85 || c = Char.ofNat 0xa0 ||
  c = Char.ofNat 0x1680 ||
  (0x2000 ≤ c.toNat && c.toNat ≤ 0x200a) ||
  c = Char.ofNat 0x2028 || c = Char.ofNat 0x2029 ||
  c = Char.ofNat 0x202f || c = Char.ofNat 0x205f ||
  c = Char.ofNat 0x3000

/-- Helper for `collapseRuns`: `inRun` records whether we are inside a run
of class-`p` characters whose replacement space has already been emitted. -/
def collapseAux (p : Char → Bool) (inRun : Bool) : List Char → List Char
  | [] => []
  | c :: cs =>
    if p c then
      if inRun then collapseAux p true cs else ' ' :: collapseAux p true cs
    else c :: collapseAux p false cs

/-- `re.sub(p+, " ", s)` for a character class `p`: every maximal run of
characters satisfying `p` is replaced by a single ASCII space. -/
def collapseRuns (p : Char → Bool) (cs : List Char) : List Char :=
  collapseAux p false cs

/-- Python `str.strip()`: drop leading and trailing whitespace. -/
def pyStrip (cs : List Char) : List Char :=
  ((cs.dropWhile pyIsSpace).reverse.dropWhile pyIsSpace).reverse

/-- `clean_text` as defined identically in `mbg_news_detik.py`,
`mbg_news_kompas.py`, `mbg_news_tribunnews.py` and `mbg_news_tempo.py`:
`re.sub(r"\s+", " ", s or "").strip()`. -/
def clean_text (s : String) : String :=
  ⟨pyStrip (collapseRuns pyIsSpace s.data)⟩

/-- `clean_text` applied to a possibly-`None` argument: the sources guard
with `s or ""`, so `None` (and `""`) become the empty string. -/
def clean_text_opt (s : Option String) : String :=
  clean_text (s.getD "")

/-- `[^\x00-\x7F]`, the non-ASCII class removed by republika `clean_text`. -/
def isNonAscii (c : Char) : Bool := 0x7F < c.toNat

/-- `[\x00-\x1F\x7F-\x9F]`, the control-character class removed by
republika `clean_text`. -/
def isPyControl (c : Char) : Bool :=
  c.toNat ≤ 0x1F || (0x7F ≤ c.toNat && c.toNat ≤ 0x9F)

/-- The character class kept by republika `clean_text` step 4,
([\w\s.,!?;:()\-‚Äî‚Äì"']): word characters, whitespace, listed
punctuation, and the four mojibake characters spelled literally in the
source class.  (By this point of the pipeline all characters are ASCII, so
`\w` reduces to `[A-Za-z0-9_]`.) -/
def republikaAllowed (c : Char) : Bool :=
  c.isAlphanum || c = '_' || pyIsSpace c ||
  c = '.' || c = ',' || c = '!' || c = '?' || c = ';' || c = ':' ||
  c = '(' || c = ')' || c = '-' || c = '"' || c = Char.ofNat 0x27 ||
  c = Char.ofNat 0x201A || c = Char.ofNat 0xC4 ||
  c = Char.ofNat 0xEE || c = Char.ofNat 0xEC

/-- `clean_text` of `mbg_news_republika.py` / `scrap_republika.py`:
collapse whitespace, collapse non-ASCII runs to a space, remove control
characters, remove characters outside the allowed class, collapse
whitespace again, and strip. -/
def clean_text_republika (s : String) : String :=
  if s = "" then "" else
  ⟨pyStrip (collapseRuns pyIsSpace
    (((collapseRuns isNonAscii (collapseRuns pyIsSpace s.data)).filter
        (fun c => !(isPyControl c))).filter republikaAllowed))⟩

/-- republika `clean_text` on a possibly-`None` input (`if not text`). -/
def clean_text_republika_opt (s : Option String) : String :=
  clean_text_republika (s.getD "")

/-- `clean_text` of `mbg_news_pr.py` (Pikiran Rakyat): the same pipeline
as republika's — collapse whitespace, collapse non-ASCII runs to a
space, remove control characters, remove characters outside the allowed
class — but with NO final whitespace collapse before the strip, so the
spaces substituted for non-ASCII runs can sit next to pre-existing
spaces. -/
def clean_text_pr (s : String) : String :=
  if s = "" then "" else
  ⟨pyStrip
    (((collapseRuns isNonAscii (collapseRuns pyIsSpace s.data)).filter
        (fun c => !(isPyControl c))).filter republikaAllowed)⟩

/-- Pikiran Rakyat `clean_text` on a possibly-`None` input
(`if not text`). -/
def clean_text_pr_opt (s : Option String) : String :=
  clean_text_pr (s.getD "")

/- ===================================================================
   Whitespace-normalisation lemmas
   =================================================================== -/

/-- `true` iff the list has two adjacent characters both in class `p`. -/
def hasAdjPair (p : Char → Bool) : List Char → Bool
  | a :: b :: r => (p a && p b) || hasAdjPair p (b :: r)
  | _ => false

/-- `true` iff the list starts or ends with a character in class `p`. -/
def hasEdge (p : Char → Bool) (cs : List Char) : Bool :=
  (match cs.head? with | some a => p a | none => false) ||
  (match cs.getLast? with | some a => p a | none => false)

theorem mem_collapseAux {p : Char → Bool} {c : Char} :
    ∀ {b : Bool} {cs : List Char}, c ∈ collapseAux p b cs →
      c = ' ' ∨ (c ∈ cs ∧ p c = false)
  | _, [], h => by simp [collapseAux] at h
  | b, d :: ds, h => by
    by_cases hd : p d = true
    · rcases hb : b with _ | _
      · rw [collapseAux, if_pos hd, hb] at h
        rcases List.mem_cons.mp h with h | h
        · exact Or.inl h
        · rcases mem_collapseAux h with h | ⟨hm, hp⟩
          · exact Or.inl h
          · exact Or.inr ⟨List.mem_cons_of_mem _ hm, hp⟩
      · rw [collapseAux, if_pos hd, hb] at h
        rcases mem_collapseAux h with h | ⟨hm, hp⟩
        · exact Or.inl h
        · exact Or.inr ⟨List.mem_cons_of_mem _ hm, hp⟩
    · have hd' : p d = false := Bool.of_not_eq_true hd
      rw [collapseAux, if_neg hd] at h
      rcases List.mem_cons.mp h with h | h
      · exact Or.inr ⟨h ▸ List.mem_cons_self _ _, h ▸ hd'⟩
      · rcases mem_collapseAux h with h | ⟨hm, hp⟩
        · exact Or.inl h
        · exact Or.inr ⟨List.mem_cons_of_mem _ hm, hp⟩

theorem mem_collapseRuns {p : Char → Bool} {cs : List Char} {c : Char}
    (h : c ∈ collapseRuns p cs) : c = ' ' ∨ (c ∈ cs ∧ p c = false) :=
  mem_collapseAux h

theorem collapseRuns_cons_neg {p : Char → Bool} {c : Char} (cs : List Char)
    (h : p c = false) : collapseRuns p (c :: cs) = c :: collapseRuns p cs := by
  show collapseAux p false (c :: cs) = c :: collapseAux p false cs
  simp [collapseAux, h]

theorem hasAdjPair_cons_neg {p : Char → Bool} {c : Char} {cs : List Char}
    (h : p c = false) : hasAdjPair p (c :: cs) = hasAdjPair p cs := by
  cases cs with
  | nil => simp [hasAdjPair]
  | cons b r => simp [hasAdjPair, h]

theorem hasAdjPair_tail {p : Char → Bool} {c : Char} {cs : List Char}
    (h : hasAdjPair p (c :: cs) = false) : hasAdjPair p cs = false := by
  cases cs with
  | nil => simp [hasAdjPair]
  | cons b r => simp [hasAdjPair] at h; exact h.2

/-- Combined runs-collapsing invariant: after an emitted run the next
output character is outside the class, and neither mode of the helper
ever emits two adjacent class-`p` characters. -/
theorem collapseAux_good (p : Char → Bool) : ∀ cs : List Char,
    (∀ a, (collapseAux p true cs).head? = some a → p a = false) ∧
    hasAdjPair p (collapseAux p true cs) = false ∧
    hasAdjPair p (collapseAux p false cs) = false := by
  intro cs
  induction cs with
  | nil =>
    refine ⟨fun a ha => ?_, rfl, rfl⟩
    simp [collapseAux] at ha
  | cons c cs ih =>
    obtain ⟨ihH, ihT, ihF⟩ := ih
    by_cases hc : p c = true
    · refine ⟨?_, ?_, ?_⟩
      · intro a ha
        rw [show collapseAux p true (c :: cs) = collapseAux p true cs by
          simp [collapseAux, hc]] at ha
        exact ihH a ha
      · rw [show collapseAux p true (c :: cs) = collapseAux p true cs by
          simp [collapseAux, hc]]
        exact ihT
      · rw [show collapseAux p false (c :: cs) = ' ' :: collapseAux p true cs by
          simp [collapseAux, hc]]
        rcases hh : collapseAux p true cs with _ | ⟨e, es⟩
        · rfl
        · have he := ihH e (by rw [hh]; rfl)
          rw [hh] at ihT
          simp [hasAdjPair, he, ihT]
    · have hc' : p c = false := Bool.of_not_eq_true hc
      have hT : collapseAux p true (c :: cs) = c :: collapseAux p false cs := by
        simp [collapseAux, hc']
      have hF : collapseAux p false (c :: cs) = c :: collapseAux p false cs := by
        simp [collapseAux, hc']
      refine ⟨?_, ?_, ?_⟩
      · intro a ha
        rw [hT] at ha
        simp only [List.head?_cons, Option.some.injEq] at ha
        rw [← ha]; exact hc'
      · rw [hT, hasAdjPair_cons_neg hc']; exact ihF
      · rw [hF, hasAdjPair_cons_neg hc']; exact ihF

/-- Output of `collapseRuns` never has two adjacent class-`p` characters. -/
theorem hasAdjPair_collapseRuns (p : Char → Bool) (cs : List Char) :
    hasAdjPair p (collapseRuns p cs) = false :=
  (collapseAux_good p cs).2.2

/-- Every class-`p` character in the output of `collapseRuns p` is the
plain space that replaced a run. -/
theorem collapseRuns_space {p : Char → Bool} {cs : List Char} {c : Char}
    (hm : c ∈ collapseRuns p cs) (hp : p c = true) : c = ' ' := by
  rcases mem_collapseRuns hm with h | ⟨_, h⟩
  · exact h
  · rw [h] at hp; cases hp

/-- When the first character is outside the class (or the list is empty),
the two modes of the helper agree. -/
theorem collapseAux_true_eq_false {p : Char → Bool} {cs : List Char}
    (h : ∀ a, cs.head? = some a → p a = false) :
    collapseAux p true cs = collapseAux p false cs := by
  cases cs with
  | nil => rfl
  | cons b r =>
    have hb : p b = false := h b rfl
    simp [collapseAux, hb]

/-- `collapseRuns` is the identity on lists with no adjacent class-`p`
pair in which every class-`p` character is already a space. -/
theorem collapseRuns_eq_self {p : Char → Bool} (hsp : p ' ' = true) :
    ∀ {cs : List Char}, hasAdjPair p cs = false →
    (∀ c ∈ cs, p c = true → c = ' ') → collapseRuns p cs = cs
  | [], _, _ => rfl
  | c :: cs, hadj, hsp' => by
    by_cases hc : p c = true
    · have hc' : c = ' ' := hsp' c (List.mem_cons_self _ _) hc
      have hstep : collapseRuns p (c :: cs) = ' ' :: collapseAux p true cs := by
        show collapseAux p false (c :: cs) = ' ' :: collapseAux p true cs
        simp [collapseAux, hc]
      rw [hstep, collapseAux_true_eq_false ?hhd]
      case hhd =>
        intro a ha
        cases cs with
        | nil => cases ha
        | cons b r =>
          simp only [List.head?_cons, Option.some.injEq] at ha
          simp only [hasAdjPair, Bool.or_eq_false_iff, Bool.and_eq_false_iff] at hadj
          rcases hadj.1 with h | h
          · rw [hc] at h; cases h
          · rw [← ha]; exact h
      rw [show collapseAux p false cs = collapseRuns p cs from rfl]
      rw [collapseRuns_eq_self hsp (hasAdjPair_tail hadj)
        (fun x hx => hsp' x (List.mem_cons_of_mem _ hx)), hc']
    · have hc' : p c = false := Bool.of_not_eq_true hc
      rw [collapseRuns_cons_neg _ hc']
      rw [collapseRuns_eq_self hsp (by rwa [hasAdjPair_cons_neg hc'] at hadj)
        (fun x hx => hsp' x (List.mem_cons_of_mem _ hx))]

/-- If no character of the list is in class `p`, there is no adjacent pair. -/
theorem hasAdjPair_of_not_mem {p : Char → Bool} :
    ∀ {cs : List Char}, (∀ c ∈ cs, p c = false) → hasAdjPair p cs = false
  | [], _ => rfl
  | [_], _ => rfl
  | a :: b :: r, h => by
    simp only [hasAdjPair, Bool.or_eq_false_iff, Bool.and_eq_false_iff]
    exact ⟨Or.inl (h a (List.mem_cons_self _ _)),
      hasAdjPair_of_not_mem (fun c hc => h c (List.mem_cons_of_mem _ hc))⟩

theorem hasAdjPair_dropWhile {p : Char → Bool} :
    ∀ {cs : List Char}, hasAdjPair p cs = false →
    hasAdjPair p (cs.dropWhile p) = false
  | [], _ => rfl
  | c :: cs, h => by
    by_cases hc : p c = true
    · rw [List.dropWhile_cons, if_pos hc]
      exact hasAdjPair_dropWhile (hasAdjPair_tail h)
    · rw [List.dropWhile_cons, if_neg hc]
      exact h

/-- Adjacent pairs as infix sublists. -/
theorem hasAdjPair_infix_iff {p : Char → Bool} :
    ∀ {cs : List Char}, hasAdjPair p cs = true ↔
      ∃ a b, p a = true ∧ p b = true ∧ [a, b] <:+: cs
  | [] => by
    simp only [hasAdjPair]
    constructor
    · intro h; cases h
    · rintro ⟨a, b, _, _, h⟩
      have := h.sublist.length_le; simp at this
  | [c] => by
    simp only [hasAdjPair]
    constructor
    · intro h; cases h
    · rintro ⟨a, b, _, _, h⟩
      have := h.sublist.length_le; simp at this
  | a :: b :: r => by
    simp only [hasAdjPair, Bool.or_eq_true, Bool.and_eq_true]
    constructor
    · rintro (⟨ha, hb⟩ | h)
      · exact ⟨a, b, ha, hb, ⟨[], r, by simp⟩⟩
      · rcases hasAdjPair_infix_iff.mp h with ⟨x, y, hx, hy, hinf⟩
        exact ⟨x, y, hx, hy, hinf.trans (List.infix_cons (List.infix_refl _))⟩
    · rintro ⟨x, y, hx, hy, hinf⟩
      rcases List.infix_cons_iff.mp hinf with hpre | hinf'
      · rcases List.cons_prefix_cons.mp hpre with ⟨rfl, hpre'⟩
        rcases List.cons_prefix_cons.mp hpre' with ⟨rfl, _⟩
        exact Or.inl ⟨hx, hy⟩
      · exact Or.inr (hasAdjPair_infix_iff.mpr ⟨x, y, hx, hy, hinf'⟩)

theorem hasAdjPair_reverse (p : Char → Bool) (cs : List Char) :
    hasAdjPair p cs.reverse = hasAdjPair p cs := by
  rw [Bool.eq_iff_iff, hasAdjPair_infix_iff, hasAdjPair_infix_iff]
  constructor
  · rintro ⟨a, b, ha, hb, hinf⟩
    exact ⟨b, a, hb, ha, by
      have : [a, b] <:+: cs.reverse := hinf
      rw [show [a, b] = ([b, a].reverse : List Char) from rfl] at this
      exact List.reverse_infix.mp this⟩
  · rintro ⟨a, b, ha, hb, hinf⟩
    exact ⟨b, a, hb, ha, by
      rw [show [b, a] = ([a, b].reverse : List Char) from rfl]
      exact List.reverse_infix.mpr hinf⟩

theorem hasAdjPair_pyStrip {cs : List Char}
    (h : hasAdjPair pyIsSpace cs = false) :
    hasAdjPair pyIsSpace (pyStrip cs) = false := by
  unfold pyStrip
  rw [hasAdjPair_reverse]
  apply hasAdjPair_dropWhile
  rw [hasAdjPair_reverse]
  exact hasAdjPair_dropWhile h

theorem mem_pyStrip {cs : List Char} {c : Char} (h : c ∈ pyStrip cs) :
    c ∈ cs := by
  unfold pyStrip at h
  rw [List.mem_reverse] at h
  have h1 := (List.dropWhile_sublist pyIsSpace).mem h
  rw [List.mem_reverse] at h1
  exact (List.dropWhile_sublist pyIsSpace).mem h1

/-- A stripped list neither starts nor ends with whitespace. -/
theorem hasEdge_pyStrip (cs : List Char) :
    hasEdge pyIsSpace (pyStrip cs) = false := by
  unfold hasEdge pyStrip
  simp only [Bool.or_eq_false_iff]
  constructor
  · rw [List.head?_reverse]
    rcases hg : (((cs.dropWhile pyIsSpace).reverse.dropWhile pyIsSpace)).getLast? with _ | a
    · rfl
    · have hne : (cs.dropWhile pyIsSpace).reverse.dropWhile pyIsSpace ≠ [] := by
        intro hnil; rw [hnil] at hg; cases hg
      rcases List.dropWhile_suffix pyIsSpace
          (l := (cs.dropWhile pyIsSpace).reverse) with ⟨t, ht⟩
      have : ((cs.dropWhile pyIsSpace).reverse).getLast? = some a := by
        rw [← ht, List.getLast?_append]
        rw [List.getLast?_eq_getLast _ hne] at hg
        rw [List.getLast?_eq_getLast _ hne, hg]
        rfl
      rw [List.getLast?_reverse] at this
      have h2 := List.head?_dropWhile_not pyIsSpace cs
      rw [this] at h2
      simpa using h2
  · rw [List.getLast?_reverse]
    have h2 := List.head?_dropWhile_not pyIsSpace
      ((cs.dropWhile pyIsSpace).reverse)
    rcases hh : ((cs.dropWhile pyIsSpace).reverse.dropWhile pyIsSpace).head? with _ | a
    · rfl
    · rw [hh] at h2; simpa using h2

/-- Stripping is the identity when neither edge is whitespace. -/
theorem pyStrip_eq_self {cs : List Char}
    (h : hasEdge pyIsSpace cs = false) : pyStrip cs = cs := by
  unfold hasEdge at h
  simp only [Bool.or_eq_false_iff] at h
  obtain ⟨h1, h2⟩ := h
  have hd : cs.dropWhile pyIsSpace = cs := by
    cases cs with
    | nil => rfl
    | cons a l =>
      simp only [List.head?_cons] at h1
      simp [List.dropWhile_cons, h1]
  unfold pyStrip
  rw [hd]
  have hr : cs.reverse.dropWhile pyIsSpace = cs.reverse := by
    cases hrev : cs.reverse with
    | nil => rfl
    | cons a l =>
      have : cs.reverse.head? = some a := by rw [hrev]; rfl
      rw [List.head?_reverse] at this
      rw [this] at h2
      have h2' : pyIsSpace a = false := h2
      rw [List.dropWhile_cons, if_neg (by simp [h2'])]
  rw [hr, List.reverse_reverse]

/-- `collapseRuns` is also the identity when class `p` occurs nowhere. -/
theorem collapseRuns_eq_self_of_not_mem {p : Char → Bool} :
    ∀ {cs : List Char}, (∀ c ∈ cs, p c = false) → collapseRuns p cs = cs
  | [], _ => rfl
  | c :: cs, h => by
    rw [collapseRuns_cons_neg _ (h c (List.mem_cons_self _ _))]
    rw [collapseRuns_eq_self_of_not_mem (fun x hx => h x (List.mem_cons_of_mem _ hx))]

/-- The collapse-then-strip kernel shared by every `clean_text` variant:
its output has no adjacent whitespace, no whitespace at either edge, and
all its whitespace characters are plain spaces. -/
theorem cleanKernel_props (cs : List Char) :
    hasAdjPair pyIsSpace (pyStrip (collapseRuns pyIsSpace cs)) = false ∧
    hasEdge pyIsSpace (pyStrip (collapseRuns pyIsSpace cs)) = false ∧
    ∀ c ∈ pyStrip (collapseRuns pyIsSpace cs), pyIsSpace c = true → c = ' ' :=
  ⟨hasAdjPair_pyStrip (hasAdjPair_collapseRuns pyIsSpace cs),
   hasEdge_pyStrip _,
   fun _ hm hp => collapseRuns_space (mem_pyStrip hm) hp⟩

/-- Re-running the collapse-then-strip kernel on its own output is the
identity. -/
theorem cleanKernel_idem (cs : List Char) :
    pyStrip (collapseRuns pyIsSpace (pyStrip (collapseRuns pyIsSpace cs))) =
    pyStrip (collapseRuns pyIsSpace cs) := by
  obtain ⟨h1, h2, h3⟩ := cleanKernel_props cs
  rw [collapseRuns_eq_self (by decide) h1 h3]
  exact pyStrip_eq_self h2

/- ===================================================================
   Claim C5: clean_text properties
   =================================================================== -/

theorem clean_text_idem (s : String) :
    clean_text (clean_text s) = clean_text s := by
  unfold clean_text
  exact congrArg String.mk (cleanKernel_idem s.data)

theorem clean_text_republika_idem (s : String) :
    clean_text_republika (clean_text_republika s) = clean_text_republika s := by
  by_cases hs : s = ""
  · rw [hs]; rfl
  · unfold clean_text_republika
    rw [if_neg hs]
    by_cases ho : (⟨pyStrip (collapseRuns pyIsSpace
        (((collapseRuns isNonAscii (collapseRuns pyIsSpace s.data)).filter
            (fun c => !(isPyControl c))).filter republikaAllowed))⟩ : String) = ""
    · rw [if_pos ho, ho]
    · rw [if_neg ho]
      set t4 := ((collapseRuns isNonAscii (collapseRuns pyIsSpace s.data)).filter
          (fun c => !(isPyControl c))).filter republikaAllowed with ht4
      set o := pyStrip (collapseRuns pyIsSpace t4) with hodef
      have hmem : ∀ c ∈ o, c = ' ' ∨ c ∈ t4 := by
        intro c hc
        rcases mem_collapseRuns (mem_pyStrip hc) with h | ⟨h, _⟩
        · exact Or.inl h
        · exact Or.inr h
      have hAdj : hasAdjPair pyIsSpace o = false :=
        hasAdjPair_pyStrip (hasAdjPair_collapseRuns pyIsSpace t4)
      have hSp : ∀ c ∈ o, pyIsSpace c = true → c = ' ' :=
        fun _ hm hp => collapseRuns_space (mem_pyStrip hm) hp
      have hEdge : hasEdge pyIsSpace o = false := hasEdge_pyStrip _
      have hNA : ∀ c ∈ o, isNonAscii c = false := by
        intro c hc
        rcases hmem c hc with h | h
        · rw [h]; decide
        · rw [ht4] at h
          have h3 := List.mem_of_mem_filter h
          have h2 := List.mem_of_mem_filter h3
          rcases mem_collapseRuns h2 with h | ⟨_, h⟩
          · rw [h]; decide
          · exact h
      have hCtl : ∀ c ∈ o, (!(isPyControl c)) = true := by
        intro c hc
        rcases hmem c hc with h | h
        · rw [h]; decide
        · rw [ht4] at h
          have h2 : c ∈ (collapseRuns isNonAscii (collapseRuns pyIsSpace s.data)).filter
              (fun c => !(isPyControl c)) := List.mem_of_mem_filter h
          exact List.of_mem_filter (p := fun x => !(isPyControl x)) h2
      have hAll : ∀ c ∈ o, republikaAllowed c = true := by
        intro c hc
        rcases hmem c hc with h | h
        · rw [h]; decide
        · rw [ht4] at h
          exact List.of_mem_filter h
      show (⟨pyStrip (collapseRuns pyIsSpace
        (((collapseRuns isNonAscii (collapseRuns pyIsSpace o)).filter
            (fun c => !(isPyControl c))).filter republikaAllowed))⟩ : String) = ⟨o⟩
      rw [collapseRuns_eq_self (by decide) hAdj hSp]
      rw [collapseRuns_eq_self_of_not_mem hNA]
      rw [List.filter_eq_self.mpr hCtl]
      rw [List.filter_eq_self.mpr hAll]
      rw [collapseRuns_eq_self (by decide) hAdj hSp]
      rw [pyStrip_eq_self hEdge]

/-- C5 counterexample: the Pikiran Rakyat variant collapses whitespace
BEFORE replacing non-ASCII runs with spaces and never collapses again,
so `"a é b"` cleans to `"a   b"` — two (indeed three) consecutive
whitespace characters in the output — and a second application collapses
them to `"a b"`, so the variant is not idempotent. -/
theorem clean_text_pr_counterexample :
    clean_text_pr "a é b" = "a   b" ∧
    hasAdjPair pyIsSpace (clean_text_pr "a é b").data = true ∧
    clean_text_pr (clean_text_pr "a é b") = "a b" ∧
    clean_text_pr (clean_text_pr "a é b") ≠ clean_text_pr "a é b" := by
  refine ⟨by decide, by decide, by decide, by decide⟩

/-- C5 (amended): the shared detik/kompas/tribunnews/tempo `clean_text`
and republika's extended variant map null/absent input to the empty
string, produce output with no two consecutive whitespace characters and
no leading or trailing whitespace, and are idempotent; the Pikiran
Rakyat variant also maps null to empty and never has leading or trailing
whitespace, but it collapses whitespace only before substituting spaces
for non-ASCII runs, so its output can contain consecutive whitespace and
it is not idempotent. -/
theorem clean_text_whitespace_and_idempotent :
    (clean_text_opt none = "" ∧ clean_text_republika_opt none = "" ∧
      clean_text_pr_opt none = "") ∧
    (∀ s : String,
      hasAdjPair pyIsSpace (clean_text s).data = false ∧
      hasEdge pyIsSpace (clean_text s).data = false ∧
      hasAdjPair pyIsSpace (clean_text_republika s).data = false ∧
      hasEdge pyIsSpace (clean_text_republika s).data = false ∧
      hasEdge pyIsSpace (clean_text_pr s).data = false) ∧
    (∀ s : String,
      clean_text (clean_text s) = clean_text s ∧
      clean_text_republika (clean_text_republika s) = clean_text_republika s) := by
  refine ⟨⟨by decide, by decide, by decide⟩, fun s => ?_, fun s =>
    ⟨clean_text_idem s, clean_text_republika_idem s⟩⟩
  refine ⟨(cleanKernel_props s.data).1, (cleanKernel_props s.data).2.1,
    ?_, ?_, ?_⟩
  · unfold clean_text_republika
    by_cases hs : s = ""
    · rw [if_pos hs]; decide
    · rw [if_neg hs]
      exact hasAdjPair_pyStrip (hasAdjPair_collapseRuns pyIsSpace _)
  · unfold clean_text_republika
    by_cases hs : s = ""
    · rw [if_pos hs]; decide
    · rw [if_neg hs]
      exact hasEdge_pyStrip _
  · unfold clean_text_pr
    by_cases hs : s = ""
    · rw [if_pos hs]; decide
    · rw [if_neg hs]
      exact hasEdge_pyStrip _

/- ===================================================================
   URL model: urllib.parse.urlsplit / geturl / urljoin / parse_qsl /
   urlencode, restricted as the sources use them (http(s) URLs, path
   references beginning with "/", token-level query encoding).
   =================================================================== -/

/-- Split a character list at the first occurrence of `t`: the part before
(which never contains `t`) and, if `t` occurs, the part after. -/
def splitFirst (t : Char) : List Char → List Char × Option (List Char)
  | [] => ([], none)
  | c :: cs =>
    if c = t then ([], some cs)
    else
      let r := splitFirst t cs
      (c :: r.1, r.2)

/-- Characters allowed in a URL scheme (`scheme_chars` of `urllib.parse`). -/
def schemeChar (c : Char) : Bool :=
  c.isAlphanum || c = '+' || c = '-' || c = '.'

/-- Characters that terminate the network-location component. -/
def netlocChar (c : Char) : Bool :=
  !(c = '/' || c = '?' || c = '#')

/-- The five URL components of `urllib.parse.urlsplit`.  (`urlparse`
additionally splits `;params` off the last path segment; `geturl` re-joins
them, so for the fragment- and query-editing done by the sources the
five-component form is equivalent.) -/
structure PyUrl where
  scheme : List Char
  netloc : List Char
  path : List Char
  query : List Char
  fragment : List Char

/-- Scheme-extraction stage of `urlsplit`: if the part before the first
":" is a valid scheme (leading ASCII letter, all scheme characters), the
result is the lower-cased scheme and the remainder; otherwise no scheme. -/
def splitScheme (cs : List Char) : List Char × List Char :=
  match splitFirst ':' cs with
  | (pre, some rest) =>
    match pre with
    | [] => ([], cs)
    | c0 :: _ =>
      if c0.toNat ≤ 0x7F && c0.isAlpha && pre.all schemeChar then
        (pre.map Char.toLower, rest)
      else ([], cs)
  | (_, none) => ([], cs)

/-- Netloc-extraction stage of `urlsplit`: after `//`, the network
location runs to the next `/`, `?` or `#`. -/
def splitNetloc (u : List Char) : List Char × List Char :=
  match u with
  | '/' :: '/' :: body => (body.takeWhile netlocChar, body.dropWhile netlocChar)
  | _ => ([], u)

/-- `urllib.parse.urlsplit`: scheme (lower-cased, if the prefix before the
first ":" is a valid scheme), then "//netloc" up to the next "/", "?" or
"#", then fragment after the first "#", then query after the first "?". -/
def urlsplit (cs : List Char) : PyUrl :=
  { scheme := (splitScheme cs).1,
    netloc := (splitNetloc (splitScheme cs).2).1,
    path := (splitFirst '?' (splitFirst '#' (splitNetloc (splitScheme cs).2).2).1).1,
    query := (splitFirst '?'
      (splitFirst '#' (splitNetloc (splitScheme cs).2).2).1).2.getD [],
    fragment := (splitFirst '#' (splitNetloc (splitScheme cs).2).2).2.getD [] }

/-- The `//netloc`-and-path reassembly step of `urlunsplit`. -/
def netPart (p : PyUrl) : List Char :=
  if p.netloc ≠ [] ∨ p.path.take 2 = ['/', '/'] then
    '/' :: '/' :: (p.netloc ++
      (if p.path ≠ [] ∧ p.path.head? ≠ some '/' then '/' :: p.path else p.path))
  else p.path

/-- Prepend `scheme:` when a scheme is present (`urlunsplit`). -/
def addScheme (s u : List Char) : List Char :=
  if s ≠ [] then s ++ ':' :: u else u

/-- Append `?query` when a query is present (`urlunsplit`). -/
def addQuery (q u : List Char) : List Char :=
  if q ≠ [] then u ++ '?' :: q else u

/-- Append `#fragment` when a fragment is present (`urlunsplit`). -/
def addFrag (f u : List Char) : List Char :=
  if f ≠ [] then u ++ '#' :: f else u

/-- `SplitResult.geturl` (`urllib.parse.urlunsplit`). -/
def geturl (p : PyUrl) : List Char :=
  addFrag p.fragment (addQuery p.query (addScheme p.scheme (netPart p)))

/-- `urllib.parse.urljoin(base, u)` for the one case the sources exercise:
`base` is a bare `scheme://netloc` URL and `u` begins with `/`.  A
network-path reference `//host/...` keeps only the base scheme; any other
`/...` reference is resolved against the base scheme and host. -/
def urljoinSlash (scheme netloc : List Char) (u : List Char) : List Char :=
  if u.take 2 = ['/', '/'] then scheme ++ ':' :: u
  else scheme ++ ':' :: '/' :: '/' :: (netloc ++ u)

/-- Split on every occurrence of a separator character. -/
def splitAllAux (t : Char) : List Char → List Char → List (List Char)
  | [], acc => [acc.reverse]
  | c :: cs, acc =>
    if c = t then acc.reverse :: splitAllAux t cs []
    else splitAllAux t cs (c :: acc)

/-- All `t`-separated chunks of a character list. -/
def splitAll (t : Char) (cs : List Char) : List (List Char) :=
  splitAllAux t cs []

/-- `urllib.parse.parse_qsl(query, keep_blank_values=True)`: split the
query on `&`, drop empty chunks, split each chunk at its first `=` (a
chunk without `=` is a blank-valued key).  Percent and plus decoding are
modelled as the identity: the sources only re-encode what they parsed, so
queries are treated at token level. -/
def parse_qsl (q : List Char) : List (List Char × List Char) :=
  (splitAll '&' q).filterMap fun chunk =>
    if chunk = [] then none
    else
      match splitFirst '=' chunk with
      | (k, some v) => some (k, v)
      | (k, none) => some (k, [])

/-- `urllib.parse.urlencode(pairs, doseq=True)` on string pairs — join
`k=v` chunks with `&` — with quoting modelled as the identity
(token-level queries). -/
def urlencode : List (List Char × List Char) → List Char
  | [] => []
  | [kv] => kv.1 ++ '=' :: kv.2
  | kv :: rest => kv.1 ++ '=' :: kv.2 ++ '&' :: urlencode rest

/-- The tracking-parameter test of kompas `normalize_url`:
`lk.startswith("utm_") or lk in {"fbclid", "gclid", "yclid"}` on the
lower-cased key. -/
def isTrackingKey (k : List Char) : Bool :=
  let lk := k.map Char.toLower
  "utm_".data.isPrefixOf lk ||
  lk = "fbclid".data || lk = "gclid".data || lk = "yclid".data

/-- The `u.startswith("/")` join step of detik `normalize_url` against
`BASE = "https://www.detik.com"`. -/
def detikJoined (u : String) : List Char :=
  if u.data.head? = some '/' then
    urljoinSlash "https".data "www.detik.com".data u.data
  else u.data

/-- `normalize_url` of `mbg_news_detik.py`: empty for falsy input, join
leading-`/` references with `BASE`, drop the fragment. -/
def normalize_url_detik (u : String) : String :=
  if u = "" then ""
  else ⟨geturl { urlsplit (detikJoined u) with fragment := [] }⟩

/-- The kept-query computation of kompas `normalize_url`: parse the query,
drop tracking keys, re-encode in the original order. -/
def kompasKeptQuery (q : List Char) : List (List Char × List Char) :=
  (parse_qsl q).filter fun kv => !(isTrackingKey kv.1)

/-- The `u.startswith("/")` join step of kompas `normalize_url` against
`BASE = "https://www.kompas.com"`. -/
def kompasJoined (u : String) : List Char :=
  if u.data.head? = some '/' then
    urljoinSlash "https".data "www.kompas.com".data u.data
  else u.data

/-- The fragment-stripping and (for URLs with a query) tracking-parameter
removal performed by kompas `normalize_url` on the parsed URL. -/
def kompasClean (p : PyUrl) : PyUrl :=
  if p.query ≠ [] then
    { p with fragment := [], query := urlencode (kompasKeptQuery p.query) }
  else { p with fragment := [] }

/-- `normalize_url` of `mbg_news_kompas.py`: like detik's, plus removal of
tracking query parameters (preserving the rest in order) whenever the URL
has a query. -/
def normalize_url_kompas (u : String) : String :=
  if u = "" then ""
  else ⟨geturl (kompasClean (urlsplit (kompasJoined u)))⟩

/- ===================================================================
   URL lemmas
   =================================================================== -/

theorem charOfNat_toNat {n : Nat} (h : n.isValidChar) :
    (Char.ofNat n).toNat = n := by
  simp only [Char.ofNat, Char.toNat, Char.ofNatAux, h, reduceDIte]
  rfl

theorem toLower_eq_hash {c : Char} (h : Char.toLower c = '#') : c = '#' := by
  unfold Char.toLower at h
  simp only at h
  by_cases hr : c.toNat ≥ 65 ∧ c.toNat ≤ 90
  · rw [if_pos hr] at h
    exfalso
    have hv : (c.toNat + 32).isValidChar := by left; omega
    have h2 := congrArg Char.toNat h
    rw [charOfNat_toNat hv] at h2
    have h3 : ('#').toNat = 35 := by decide
    omega
  · rw [if_neg hr] at h
    exact h

theorem splitFirst_fst_not_mem (t : Char) :
    ∀ cs : List Char, t ∉ (splitFirst t cs).1
  | [] => by simp [splitFirst]
  | c :: cs => by
    by_cases hc : c = t
    · simp [splitFirst, hc]
    · simp only [splitFirst, if_neg hc]
      intro h
      rcases List.mem_cons.mp h with h | h
      · exact hc h.symm
      · exact splitFirst_fst_not_mem t cs h

theorem mem_splitFirst_fst {t c : Char} :
    ∀ {cs : List Char}, c ∈ (splitFirst t cs).1 → c ∈ cs
  | [], h => by simp [splitFirst] at h
  | d :: ds, h => by
    by_cases hd : d = t
    · simp [splitFirst, hd] at h
    · simp only [splitFirst, if_neg hd] at h
      rcases List.mem_cons.mp h with h | h
      · exact h ▸ List.mem_cons_self _ _
      · exact List.mem_cons_of_mem _ (mem_splitFirst_fst h)

theorem mem_splitFirst_snd {t c : Char} :
    ∀ {cs r : List Char}, (splitFirst t cs).2 = some r → c ∈ r → c ∈ cs
  | [], r, h, _ => by simp [splitFirst] at h
  | d :: ds, r, h, hm => by
    by_cases hd : d = t
    · simp only [splitFirst, if_pos hd, Option.some.injEq] at h
      exact List.mem_cons_of_mem _ (h ▸ hm)
    · simp only [splitFirst, if_neg hd] at h
      exact List.mem_cons_of_mem _ (mem_splitFirst_snd h hm)

theorem splitFirst_not_mem {t : Char} :
    ∀ {cs : List Char}, t ∉ cs → splitFirst t cs = (cs, none)
  | [], _ => rfl
  | c :: cs, h => by
    have hc : ¬ c = t := fun e => h (e ▸ List.mem_cons_self _ _)
    simp only [splitFirst, if_neg hc,
      splitFirst_not_mem (fun hm => h (List.mem_cons_of_mem _ hm))]

theorem splitFirst_append {t : Char} :
    ∀ {a : List Char} (b : List Char), t ∉ a →
      splitFirst t (a ++ b) =
        ((a ++ (splitFirst t b).1), (splitFirst t b).2)
  | [], b, _ => by simp
  | c :: a, b, h => by
    have hc : ¬ c = t := fun e => h (e ▸ List.mem_cons_self _ _)
    simp only [List.cons_append, splitFirst, if_neg hc]
    rw [show a.append b = a ++ b from rfl,
      splitFirst_append b (fun hm => h (List.mem_cons_of_mem _ hm))]

theorem splitFirst_cons_self (t : Char) (cs : List Char) :
    splitFirst t (t :: cs) = ([], some cs) := by
  simp [splitFirst]

theorem takeWhile_append_all {p : Char → Bool} :
    ∀ {a : List Char} (b : List Char), (∀ c ∈ a, p c = true) →
      (a ++ b).takeWhile p = a ++ b.takeWhile p
  | [], b, _ => by simp
  | c :: a, b, h => by
    simp only [List.cons_append, List.takeWhile_cons,
      h c (List.mem_cons_self _ _), if_true]
    rw [takeWhile_append_all b (fun x hx => h x (List.mem_cons_of_mem _ hx))]

theorem dropWhile_append_all {p : Char → Bool} :
    ∀ {a : List Char} (b : List Char), (∀ c ∈ a, p c = true) →
      (a ++ b).dropWhile p = b.dropWhile p
  | [], b, _ => by simp
  | c :: a, b, h => by
    simp only [List.cons_append, List.dropWhile_cons,
      h c (List.mem_cons_self _ _), if_true]
    exact dropWhile_append_all b (fun x hx => h x (List.mem_cons_of_mem _ hx))

theorem splitScheme_no_hash (cs : List Char) :
    '#' ∉ (splitScheme cs).1 := by
  unfold splitScheme
  rcases hs : splitFirst ':' cs with ⟨pre, rest?⟩
  rcases rest? with _ | rest
  · simp
  · rcases pre with _ | ⟨c0, pre'⟩
    · simp
    · by_cases hg : (c0.toNat ≤ 0x7F && c0.isAlpha &&
          (c0 :: pre').all schemeChar) = true
      · simp only [hg, if_true]
        intro hm
        rcases List.mem_map.mp hm with ⟨c, hc, hl⟩
        simp only [Bool.and_eq_true] at hg
        have hall := List.all_eq_true.mp hg.2 c hc
        rw [toLower_eq_hash hl] at hall
        cases hall
      · simp only [hg, if_false]
        simp

theorem splitNetloc_no_hash (u : List Char) :
    '#' ∉ (splitNetloc u).1 := by
  unfold splitNetloc
  rcases u with _ | ⟨u0, _ | ⟨u1, body⟩⟩
  · simp
  · by_cases h0 : u0 = '/' <;> simp [h0]
  · by_cases h0 : u0 = '/'
    · by_cases h1 : u1 = '/'
      · subst h0; subst h1
        simp only
        intro hm
        have := List.mem_takeWhile_imp hm
        rw [show netlocChar '#' = false by decide] at this
        cases this
      · subst h0; simp [h1]
    · simp [h0]

/-- No component produced by `urlsplit` other than the fragment contains
the `#` character. -/
theorem urlsplit_no_hash (cs : List Char) :
    '#' ∉ (urlsplit cs).scheme ∧ '#' ∉ (urlsplit cs).netloc ∧
    '#' ∉ (urlsplit cs).path ∧ '#' ∉ (urlsplit cs).query := by
  refine ⟨splitScheme_no_hash cs, splitNetloc_no_hash _, ?_, ?_⟩
  · intro hm
    exact splitFirst_fst_not_mem '#' _
      (mem_splitFirst_fst (t := '?') hm)
  · show '#' ∉ (splitFirst '?'
      (splitFirst '#' (splitNetloc (splitScheme cs).2).2).1).2.getD []
    rcases hq : (splitFirst '?'
        (splitFirst '#' (splitNetloc (splitScheme cs).2).2).1).2 with _ | r
    · simp
    · simp only [Option.getD_some]
      intro hm
      exact splitFirst_fst_not_mem '#' _ (mem_splitFirst_snd hq hm)

theorem netPart_no_hash {p : PyUrl} (h2 : '#' ∉ p.netloc)
    (h3 : '#' ∉ p.path) : '#' ∉ netPart p := by
  unfold netPart
  split
  · intro hm
    simp only [List.mem_cons, List.mem_append] at hm
    rcases hm with h | h | h | h
    · cases h
    · cases h
    · exact h2 h
    · revert h
      split
      · intro h
        rcases List.mem_cons.mp h with h | h
        · cases h
        · exact h3 h
      · intro h; exact h3 h
  · exact h3

/-- `geturl` introduces no `#` when the fragment is empty and no other
component contains one. -/
theorem geturl_no_hash {p : PyUrl} (h1 : '#' ∉ p.scheme)
    (h2 : '#' ∉ p.netloc) (h3 : '#' ∉ p.path) (h4 : '#' ∉ p.query)
    (h5 : p.fragment = []) : '#' ∉ geturl p := by
  unfold geturl addFrag addQuery addScheme
  rw [if_neg (by simp [h5])]
  have hu3 : '#' ∉ (if p.scheme ≠ [] then p.scheme ++ ':' :: netPart p
      else netPart p) := by
    split
    · intro hm
      simp only [List.mem_append, List.mem_cons] at hm
      rcases hm with h | h | h
      · exact h1 h
      · cases h
      · exact netPart_no_hash h2 h3 h
    · exact netPart_no_hash h2 h3
  split
  · intro hm
    simp only [List.mem_append, List.mem_cons] at hm
    rcases hm with h | h | h
    · exact hu3 h
    · cases h
    · exact h4 h
  · exact hu3

/-- When the scheme is nonempty, the netloc is nonempty and the path
begins with `/`, the reassembled URL starts with `scheme://netloc`. -/
theorem geturl_isPrefix {p : PyUrl} (hn : p.netloc ≠ [])
    (hs : p.scheme ≠ []) (hp : p.path.head? = some '/') :
    (p.scheme ++ ':' :: '/' :: '/' :: p.netloc) <+: geturl p := by
  unfold geturl addFrag addQuery addScheme netPart
  have hslash : ¬ (p.path ≠ [] ∧ p.path.head? ≠ some '/') := by
    intro h; exact h.2 hp
  rw [if_pos (Or.inl hn), if_neg hslash, if_pos hs]
  have base : (p.scheme ++ ':' :: '/' :: '/' :: p.netloc) <+:
      (p.scheme ++ ':' :: '/' :: '/' :: (p.netloc ++ p.path)) := by
    refine ⟨p.path, ?_⟩
    simp
  have step2 : (p.scheme ++ ':' :: '/' :: '/' :: p.netloc) <+:
      (if p.query ≠ [] then
        (p.scheme ++ ':' :: '/' :: '/' :: (p.netloc ++ p.path)) ++ '?' :: p.query
      else p.scheme ++ ':' :: '/' :: '/' :: (p.netloc ++ p.path)) := by
    split
    · exact base.trans (List.prefix_append _ _)
    · exact base
  split
  · exact step2.trans (List.prefix_append _ _)
  · exact step2

theorem splitScheme_https (rest : List Char) :
    splitScheme ("https".data ++ ':' :: rest) = ("https".data, rest) := by
  unfold splitScheme
  rw [splitFirst_append (':' :: rest) (by decide), splitFirst_cons_self]
  simp only [List.append_nil]
  rw [if_pos (by decide)]
  rfl

theorem splitNetloc_join (n : List Char) (hn : ∀ c ∈ n, netlocChar c = true)
    (u : List Char) :
    splitNetloc ('/' :: '/' :: (n ++ '/' :: u)) = (n, '/' :: u) := by
  show ((n ++ '/' :: u).takeWhile netlocChar,
        (n ++ '/' :: u).dropWhile netlocChar) = (n, '/' :: u)
  rw [takeWhile_append_all _ hn, dropWhile_append_all _ hn]
  rw [show ('/' :: u).takeWhile netlocChar = [] by
    simp [List.takeWhile_cons, netlocChar]]
  rw [show ('/' :: u).dropWhile netlocChar = '/' :: u by
    simp [List.dropWhile_cons, netlocChar]]
  simp

/-- The parse of `https://<netloc></u>` as recovered by `urlsplit`. -/
def joinedParts (n u : List Char) : PyUrl :=
  { scheme := "https".data, netloc := n,
    path := '/' :: (splitFirst '?' (splitFirst '#' u).1).1,
    query := (splitFirst '?' (splitFirst '#' u).1).2.getD [],
    fragment := (splitFirst '#' u).2.getD [] }

/-- `urlsplit` of a URL assembled from the https scheme, a well-formed
netloc and a `/`-leading remainder recovers exactly those parts. -/
theorem urlsplit_join (n : List Char) (hn : ∀ c ∈ n, netlocChar c = true)
    (u : List Char) :
    urlsplit ("https".data ++ ':' :: '/' :: '/' :: (n ++ '/' :: u)) =
      joinedParts n u := by
  unfold urlsplit joinedParts
  rw [splitScheme_https]
  have hsf : splitFirst '#' ('/' :: u) =
      ('/' :: (splitFirst '#' u).1, (splitFirst '#' u).2) := by
    simp [splitFirst]
  have hsq : splitFirst '?' ('/' :: (splitFirst '#' u).1) =
      ('/' :: (splitFirst '?' (splitFirst '#' u).1).1,
       (splitFirst '?' (splitFirst '#' u).1).2) := by
    simp [splitFirst]
  simp only [splitNetloc_join n hn u, hsf, hsq]

theorem splitAllAux_not_mem {t : Char} :
    ∀ {cs acc : List Char}, t ∉ cs →
      splitAllAux t cs acc = [acc.reverse ++ cs]
  | [], acc, _ => by simp [splitAllAux]
  | c :: cs, acc, h => by
    have hc : ¬ c = t := fun e => h (e ▸ List.mem_cons_self _ _)
    simp only [splitAllAux, if_neg hc]
    rw [splitAllAux_not_mem (fun hm => h (List.mem_cons_of_mem _ hm))]
    simp

theorem splitAllAux_append {t : Char} :
    ∀ {a : List Char} (acc b : List Char), t ∉ a →
      splitAllAux t (a ++ t :: b) acc =
        (acc.reverse ++ a) :: splitAll t b
  | [], acc, b, _ => by simp [splitAllAux, splitAll]
  | c :: a, acc, b, h => by
    have hc : ¬ c = t := fun e => h (e ▸ List.mem_cons_self _ _)
    simp only [List.cons_append, splitAllAux, if_neg hc]
    rw [show (a.append (t :: b)) = a ++ t :: b from rfl]
    rw [splitAllAux_append (c :: acc) b (fun hm => h (List.mem_cons_of_mem _ hm))]
    simp

theorem splitAll_not_mem {t : Char} {cs : List Char} (h : t ∉ cs) :
    splitAll t cs = [cs] := by
  unfold splitAll
  rw [splitAllAux_not_mem h]
  rfl

theorem splitAll_append {t : Char} {a : List Char} (b : List Char)
    (h : t ∉ a) : splitAll t (a ++ t :: b) = a :: splitAll t b := by
  unfold splitAll
  rw [splitAllAux_append [] b h]
  rfl

theorem mem_splitAllAux_not {t : Char} :
    ∀ {cs acc ch : List Char}, t ∉ acc → ch ∈ splitAllAux t cs acc →
      t ∉ ch
  | [], acc, ch, ha, hm => by
    simp only [splitAllAux, List.mem_singleton] at hm
    subst hm
    simpa using ha
  | c :: cs, acc, ch, ha, hm => by
    by_cases hc : c = t
    · simp only [splitAllAux, if_pos hc] at hm
      rcases List.mem_cons.mp hm with h | h
      · subst h; simpa using ha
      · exact mem_splitAllAux_not (by simp) h
    · simp only [splitAllAux, if_neg hc] at hm
      exact mem_splitAllAux_not (by
        intro hx
        rcases List.mem_cons.mp hx with h | h
        · exact hc h.symm
        · exact ha h) hm

theorem mem_splitAll_not {t : Char} {cs ch : List Char}
    (hm : ch ∈ splitAll t cs) : t ∉ ch :=
  mem_splitAllAux_not (by simp) hm

theorem mem_mem_splitAllAux {t c : Char} :
    ∀ {cs acc ch : List Char}, ch ∈ splitAllAux t cs acc → c ∈ ch →
      c ∈ acc ∨ c ∈ cs
  | [], acc, ch, hm, hc => by
    simp only [splitAllAux, List.mem_singleton] at hm
    subst hm
    rw [List.mem_reverse] at hc
    exact Or.inl hc
  | d :: ds, acc, ch, hm, hc => by
    by_cases hd : d = t
    · simp only [splitAllAux, if_pos hd] at hm
      rcases List.mem_cons.mp hm with h | h
      · subst h
        rw [List.mem_reverse] at hc
        exact Or.inl hc
      · rcases mem_mem_splitAllAux h hc with h | h
        · simp at h
        · exact Or.inr (List.mem_cons_of_mem _ h)
    · simp only [splitAllAux, if_neg hd] at hm
      rcases mem_mem_splitAllAux hm hc with h | h
      · rcases List.mem_cons.mp h with h | h
        · exact Or.inr (h ▸ List.mem_cons_self _ _)
        · exact Or.inl h
      · exact Or.inr (List.mem_cons_of_mem _ h)

theorem mem_mem_splitAll {t c : Char} {cs ch : List Char}
    (hm : ch ∈ splitAll t cs) (hc : c ∈ ch) : c ∈ cs := by
  rcases mem_mem_splitAllAux hm hc with h | h
  · simp at h
  · exact h

/-- Every pair produced by `parse_qsl` is well formed: no separator in
key or value, no `=` in the key; and its characters come from the query. -/
theorem parse_qsl_wf {q : List Char} {kv : List Char × List Char}
    (h : kv ∈ parse_qsl q) :
    ('&' ∉ kv.1 ∧ '&' ∉ kv.2 ∧ '=' ∉ kv.1) ∧
    (∀ c, (c ∈ kv.1 ∨ c ∈ kv.2) → c ∈ q) := by
  unfold parse_qsl at h
  rcases List.mem_filterMap.mp h with ⟨chunk, hch, hf⟩
  have hamp : '&' ∉ chunk := mem_splitAll_not hch
  by_cases hne : chunk = []
  · rw [if_pos hne] at hf; cases hf
  · rw [if_neg hne] at hf
    rcases hsp : splitFirst '=' chunk with ⟨k, v?⟩
    rcases v? with _ | v
    · rw [hsp] at hf
      simp only [Option.some.injEq] at hf
      subst hf
      refine ⟨⟨?_, by simp, ?_⟩, ?_⟩
      · intro hm
        exact hamp (mem_splitFirst_fst (by rw [hsp]; exact hm))
      · intro hm
        exact splitFirst_fst_not_mem '=' chunk (by rw [hsp]; exact hm)
      · intro c hc
        rcases hc with hc | hc
        · exact mem_mem_splitAll hch (mem_splitFirst_fst (by rw [hsp]; exact hc))
        · simp at hc
    · rw [hsp] at hf
      simp only [Option.some.injEq] at hf
      subst hf
      refine ⟨⟨?_, ?_, ?_⟩, ?_⟩
      · intro hm
        exact hamp (mem_splitFirst_fst (by rw [hsp]; exact hm))
      · intro hm
        exact hamp (mem_splitFirst_snd (by rw [hsp]) hm)
      · intro hm
        exact splitFirst_fst_not_mem '=' chunk (by rw [hsp]; exact hm)
      · intro c hc
        rcases hc with hc | hc
        · exact mem_mem_splitAll hch (mem_splitFirst_fst (by rw [hsp]; exact hc))
        · exact mem_mem_splitAll hch (mem_splitFirst_snd (by rw [hsp]) hc)

/-- Characters of an encoded query are separators, `=`, or characters of
the pairs. -/
theorem mem_urlencode {c : Char} :
    ∀ {ps : List (List Char × List Char)}, c ∈ urlencode ps →
      c = '=' ∨ c = '&' ∨ ∃ kv ∈ ps, c ∈ kv.1 ∨ c ∈ kv.2
  | [], h => by simp [urlencode] at h
  | [kv], h => by
    simp only [urlencode, List.mem_append, List.mem_cons] at h
    rcases h with h | h | h
    · exact Or.inr (Or.inr ⟨kv, List.mem_singleton.mpr rfl, Or.inl h⟩)
    · exact Or.inl h
    · exact Or.inr (Or.inr ⟨kv, List.mem_singleton.mpr rfl, Or.inr h⟩)
  | kv :: r :: rs, h => by
    have h' : c ∈ kv.1 ∨ c = '=' ∨ c ∈ kv.2 ∨ c = '&' ∨
        c ∈ urlencode (r :: rs) := by
      have hu : urlencode (kv :: r :: rs) =
          (kv.1 ++ '=' :: kv.2) ++ '&' :: urlencode (r :: rs) := rfl
      rw [hu] at h
      simpa [List.mem_append, List.mem_cons, or_assoc] using h
    rcases h' with h | h | h | h | h
    · exact Or.inr (Or.inr ⟨kv, List.mem_cons_self _ _, Or.inl h⟩)
    · exact Or.inl h
    · exact Or.inr (Or.inr ⟨kv, List.mem_cons_self _ _, Or.inr h⟩)
    · exact Or.inr (Or.inl h)
    · rcases mem_urlencode h with h | h | ⟨kv2, hm, hc⟩
      · exact Or.inl h
      · exact Or.inr (Or.inl h)
      · exact Or.inr (Or.inr ⟨kv2, List.mem_cons_of_mem _ hm, hc⟩)

/-- Re-parsing an encoded well-formed pair list recovers it exactly. -/
theorem parse_qsl_urlencode :
    ∀ {ps : List (List Char × List Char)},
      (∀ kv ∈ ps, '&' ∉ kv.1 ∧ '&' ∉ kv.2 ∧ '=' ∉ kv.1) →
      parse_qsl (urlencode ps) = ps
  | [], _ => rfl
  | [(k, v)], h => by
    obtain ⟨h1, h2, h3⟩ := h (k, v) (List.mem_singleton.mpr rfl)
    have hamp : '&' ∉ (k ++ '=' :: v) := by
      intro hm
      rcases List.mem_append.mp hm with hm | hm
      · exact h1 hm
      · rcases List.mem_cons.mp hm with hm | hm
        · cases hm
        · exact h2 hm
    show parse_qsl (k ++ '=' :: v) = [(k, v)]
    unfold parse_qsl
    rw [splitAll_not_mem hamp]
    have hne : (k ++ '=' :: v) ≠ [] := by simp
    simp only [List.filterMap, if_neg hne]
    rw [splitFirst_append ('=' :: v) h3, splitFirst_cons_self]
    simp
  | (k, v) :: r :: rs, h => by
    obtain ⟨h1, h2, h3⟩ := h (k, v) (List.mem_cons_self _ _)
    have hamp : '&' ∉ (k ++ '=' :: v) := by
      intro hm
      rcases List.mem_append.mp hm with hm | hm
      · exact h1 hm
      · rcases List.mem_cons.mp hm with hm | hm
        · cases hm
        · exact h2 hm
    have hstep : urlencode ((k, v) :: r :: rs) =
        (k ++ '=' :: v) ++ '&' :: urlencode (r :: rs) := rfl
    rw [hstep]
    show parse_qsl ((k ++ '=' :: v) ++ '&' :: urlencode (r :: rs)) = _
    unfold parse_qsl
    rw [splitAll_append _ hamp]
    have hne : (k ++ '=' :: v) ≠ [] := by simp
    simp only [List.filterMap, if_neg hne]
    rw [splitFirst_append ('=' :: v) h3, splitFirst_cons_self]
    simp only [List.append_nil]
    have := parse_qsl_urlencode (fun kv hm => h kv (List.mem_cons_of_mem _ hm))
    unfold parse_qsl at this
    rw [this]

theorem kompasClean_fields (p : PyUrl) :
    (kompasClean p).scheme = p.scheme ∧ (kompasClean p).netloc = p.netloc ∧
    (kompasClean p).path = p.path ∧ (kompasClean p).fragment = [] := by
  unfold kompasClean
  split <;> exact ⟨rfl, rfl, rfl, rfl⟩

theorem kompasClean_no_hash {cs : List Char} :
    '#' ∉ geturl (kompasClean (urlsplit cs)) := by
  obtain ⟨h1, h2, h3, h4⟩ := urlsplit_no_hash cs
  unfold kompasClean
  split
  · refine geturl_no_hash h1 h2 h3 ?_ rfl
    intro hm
    rcases mem_urlencode hm with h | h | ⟨kv, hkv, hc⟩
    · cases h
    · cases h
    · have hq := (parse_qsl_wf (List.mem_of_mem_filter hkv)).2 '#' hc
      exact h4 hq
  · exact geturl_no_hash h1 h2 h3 h4 rfl

/- ===================================================================
   Claim C6: normalize_url
   =================================================================== -/

/-- C6 counterexample: a protocol-relative reference has a leading `/`,
but joining it keeps only the base scheme — the host comes from the
reference — so the normalized URL does not start with the base
scheme+host. -/
theorem normalize_url_protocol_relative_counterexample :
    normalize_url_kompas "//evil.com/x" = "https://evil.com/x" ∧
    ¬ ("https://www.kompas.com".data <+:
        (normalize_url_kompas "//evil.com/x").data) := by
  exact ⟨by decide, by decide⟩

set_option maxHeartbeats 1000000 in
/-- C6 (amended): `normalize_url` returns the empty string on falsy
input; its result never contains a `#`; a reference with a leading `/`
that is not protocol-relative (no leading `//`) resolves to a URL starting
with the base scheme and host; and on the kompas variant every tracking
query key (`utm_*`, `fbclid`, `gclid`, `yclid`) is dropped while the
remaining pairs are preserved verbatim in stable order. -/
theorem normalize_url_amended :
    (normalize_url_detik "" = "" ∧ normalize_url_kompas "" = "") ∧
    (∀ u : String, '#' ∉ (normalize_url_detik u).data ∧
      '#' ∉ (normalize_url_kompas u).data) ∧
    (∀ u : List Char, u.head? ≠ some '/' →
      "https://www.detik.com".data <+:
        (normalize_url_detik ⟨'/' :: u⟩).data ∧
      "https://www.kompas.com".data <+:
        (normalize_url_kompas ⟨'/' :: u⟩).data) ∧
    (∀ q : List Char,
      (∀ kv ∈ kompasKeptQuery q, isTrackingKey kv.1 = false) ∧
      parse_qsl (urlencode (kompasKeptQuery q)) = kompasKeptQuery q) := by
  refine ⟨⟨rfl, rfl⟩, fun u => ⟨?_, ?_⟩, fun u hh => ⟨?_, ?_⟩, fun q => ⟨?_, ?_⟩⟩
  · unfold normalize_url_detik
    by_cases hu : u = ""
    · rw [if_pos hu]; decide
    · rw [if_neg hu]
      show '#' ∉ geturl { urlsplit (detikJoined u) with fragment := [] }
      obtain ⟨h1, h2, h3, h4⟩ := urlsplit_no_hash (detikJoined u)
      exact geturl_no_hash h1 h2 h3 h4 rfl
  · unfold normalize_url_kompas
    by_cases hu : u = ""
    · rw [if_pos hu]; decide
    · rw [if_neg hu]
      show '#' ∉ geturl (kompasClean (urlsplit (kompasJoined u)))
      exact kompasClean_no_hash
  · have hne : (⟨'/' :: u⟩ : String) ≠ "" := by
      intro h
      have := congrArg String.data h
      simp at this
    have hcond : ¬ (('/' :: u).take 2 = ['/', '/']) := by
      cases u with
      | nil => decide
      | cons c cs =>
        intro h
        simp only [List.take, List.cons.injEq] at h
        exact hh (by simp [h.2.1])
    unfold normalize_url_detik
    rw [if_neg hne]
    show "https://www.detik.com".data <+:
      geturl { urlsplit (detikJoined ⟨'/' :: u⟩) with fragment := [] }
    have hj0 : detikJoined ⟨'/' :: u⟩ =
        urljoinSlash "https".data "www.detik.com".data ('/' :: u) := rfl
    have hj : detikJoined ⟨'/' :: u⟩ =
        "https".data ++ ':' :: '/' :: '/' :: ("www.detik.com".data ++ '/' :: u) := by
      rw [hj0]
      unfold urljoinSlash
      rw [if_neg hcond]
    rw [hj, urlsplit_join "www.detik.com".data (by decide) u]
    rw [show "https://www.detik.com".data =
      "https".data ++ ':' :: '/' :: '/' :: "www.detik.com".data by decide]
    have hpre := geturl_isPrefix
      (p := { joinedParts "www.detik.com".data u with fragment := [] })
      (by show "www.detik.com".data ≠ ([] : List Char); decide)
      (by show "https".data ≠ ([] : List Char); decide) (by rfl)
    exact hpre
  · have hne : (⟨'/' :: u⟩ : String) ≠ "" := by
      intro h
      have := congrArg String.data h
      simp at this
    have hcond : ¬ (('/' :: u).take 2 = ['/', '/']) := by
      cases u with
      | nil => decide
      | cons c cs =>
        intro h
        simp only [List.take, List.cons.injEq] at h
        exact hh (by simp [h.2.1])
    unfold normalize_url_kompas
    rw [if_neg hne]
    show "https://www.kompas.com".data <+:
      geturl (kompasClean (urlsplit (kompasJoined ⟨'/' :: u⟩)))
    have hj0 : kompasJoined ⟨'/' :: u⟩ =
        urljoinSlash "https".data "www.kompas.com".data ('/' :: u) := rfl
    have hj : kompasJoined ⟨'/' :: u⟩ =
        "https".data ++ ':' :: '/' :: '/' :: ("www.kompas.com".data ++ '/' :: u) := by
      rw [hj0]
      unfold urljoinSlash
      rw [if_neg hcond]
    rw [hj, urlsplit_join "www.kompas.com".data (by decide) u]
    obtain ⟨hcs, hcn, hcp, _⟩ :=
      kompasClean_fields (joinedParts "www.kompas.com".data u)
    rw [show "https://www.kompas.com".data =
      "https".data ++ ':' :: '/' :: '/' :: "www.kompas.com".data by decide]
    have hpre := geturl_isPrefix
      (p := kompasClean (joinedParts "www.kompas.com".data u))
      (by rw [hcn]; show "www.kompas.com".data ≠ ([] : List Char); decide)
      (by rw [hcs]; show "https".data ≠ ([] : List Char); decide)
      (by rw [hcp]; rfl)
    rw [hcs, hcn] at hpre
    exact hpre
  · intro kv hm
    have := List.of_mem_filter
      (p := fun kv : List Char × List Char => !(isTrackingKey kv.1)) hm
    simpa using this
  · exact parse_qsl_urlencode
      (fun kv hm => (parse_qsl_wf (List.mem_of_mem_filter hm)).1)

/-- Closed witness instantiating `normalize_url_amended` at a concrete
relative URL with tracking parameters. -/
theorem normalize_url_amended_witness :
    "https://www.kompas.com".data <+:
      (normalize_url_kompas ⟨'/' :: "read/x?utm_a=1&b=2".data⟩).data :=
  (normalize_url_amended.2.2.1 "read/x?utm_a=1&b=2".data (by decide)).2

/- ===================================================================
   A small executable model of CPython `re` for the concrete patterns
   used by the sources: literals, character classes with greedy or lazy
   counted repetition, word-boundary and end-of-string assertions, and
   numbered capture groups.  Greedy alternatives are tried longest first
   and lazy ones shortest first, exactly as CPython backtracks.
   =================================================================== -/

/-- One regex token. -/
inductive RTok where
  /-- A literal character. -/
  | lit : Char → RTok
  /-- A character class repeated between `lo` and `hi` times (`none` =
  unbounded); the final flag is `true` for lazy repetition. -/
  | cls : (Char → Bool) → Nat → Option Nat → Bool → RTok
  /-- A word-boundary assertion `\b` at the current position (only used
  after a word character, so it demands a non-word character or end). -/
  | bnd : RTok
  /-- The `$` end anchor (end of input, or just before a final newline). -/
  | eol : RTok

/-- A token optionally tagged with the capture group it belongs to. -/
def GTok : Type := Option Nat × RTok

/-- Python `\w` on the ASCII inputs these patterns see. -/
def isWordChar (c : Char) : Bool := c.isAlphanum || c = '_'

/-- The longest stretch of class characters one repetition may consume. -/
def runFor (p : Char → Bool) (hi : Option Nat) (cs : List Char) : List Char :=
  match hi with
  | some h => (cs.takeWhile p).take h
  | none => cs.takeWhile p

/-- The admissible consumption lengths of one class repetition. -/
def lensFor (p : Char → Bool) (lo : Nat) (hi : Option Nat)
    (cs : List Char) : List Nat :=
  (List.range ((runFor p hi cs).length + 1)).filter fun i => decide (lo ≤ i)

/-- The `(consumed, rest)` alternatives for one class repetition, in the
order CPython tries them: lazy shortest-first, greedy longest-first. -/
def candidates (p : Char → Bool) (lo : Nat) (hi : Option Nat) (lazy : Bool)
    (cs : List Char) : List (List Char × List Char) :=
  (if lazy then lensFor p lo hi cs else (lensFor p lo hi cs).reverse).map
    fun i => (cs.take i, cs.drop i)

/-- Backtracking matcher: returns the per-token consumed characters and
the unconsumed remainder of the first (CPython-preferred) match. -/
def matchToks : List GTok → List Char → Option (List (Option Nat × List Char) × List Char)
  | [], cs => some ([], cs)
  | (g, RTok.lit c) :: ts, cs =>
    match cs with
    | d :: rest =>
      if d = c then (matchToks ts rest).map fun r => ((g, [c]) :: r.1, r.2)
      else none
    | [] => none
  | (g, RTok.cls p lo hi lz) :: ts, cs =>
    (candidates p lo hi lz cs).findSome? fun cand =>
      (matchToks ts cand.2).map fun r => ((g, cand.1) :: r.1, r.2)
  | (g, RTok.bnd) :: ts, cs =>
    if (match cs.head? with | some c => !(isWordChar c) | none => true) then
      (matchToks ts cs).map fun r => ((g, []) :: r.1, r.2)
    else none
  | (g, RTok.eol) :: ts, cs =>
    if cs = [] ∨ cs = ['\n'] then
      (matchToks ts cs).map fun r => ((g, []) :: r.1, r.2)
    else none

/-- Does the position after `prev` satisfy the pattern-initial `\b`
requirement (`needB`)? -/
def boundaryOK (needB : Bool) (prev : Option Char) : Bool :=
  !needB || (match prev with
    | some c => !(isWordChar c)
    | none => true)

/-- `re.search`: try the pattern at every start position, leftmost first.
`needB` demands a word boundary immediately before the match (`\b` at the
start of the pattern). -/
def searchAux (toks : List GTok) (needB : Bool) :
    Option Char → List Char → Option (List (Option Nat × List Char))
  | prev, [] =>
    if boundaryOK needB prev then (matchToks toks []).map (fun r => r.1)
    else none
  | prev, c :: rest =>
    Option.orElse
      ((if boundaryOK needB prev then matchToks toks (c :: rest)
        else none).map fun r => r.1)
      (fun _ => searchAux toks needB (some c) rest)

/-- `re.search(pattern, s)` returning the capture assignment. -/
def reSearch (toks : List GTok) (needB : Bool) (cs : List Char) :
    Option (List (Option Nat × List Char)) :=
  searchAux toks needB none cs

/-- `m.group(g)`: concatenation of the characters consumed by the tokens
of group `g`. -/
def getGrp (us : List (Option Nat × List Char)) (g : Nat) : List Char :=
  (us.filterMap fun u => if u.1 = some g then some u.2 else none).flatten

/- ===================================================================
   Date/time model: civil date-times, proleptic-Gregorian epoch
   arithmetic (`datetime` semantics), `datetime.fromisoformat` on the
   fixed-width dashed grammar the sites produce, `strftime` rendering,
   and `astimezone(ZoneInfo("Asia/Jakarta"))` as the fixed UTC+7 offset
   that zone has had since 1964.
   =================================================================== -/

/-- A civil date-time (no timezone attached). -/
structure CivilDT where
  y : Int
  mo : Nat
  d : Nat
  hh : Nat
  mi : Nat
  ss : Nat
deriving DecidableEq, Repr

/-- Gregorian leap year, as `calendar.isleap` / `datetime`. -/
def isLeap (y : Int) : Bool :=
  (y % 4 == 0 && !(y % 100 == 0)) || y % 400 == 0

/-- days in a month (`datetime` validation). -/
def daysInMonth (y : Int) (m : Nat) : Nat :=
  match m with
  | 1 => 31 | 2 => if isLeap y then 29 else 28 | 3 => 31 | 4 => 30
  | 5 => 31 | 6 => 30 | 7 => 31 | 8 => 31 | 9 => 30 | 10 => 31
  | 11 => 30 | 12 => 31
  | _ => 0

/-- The `datetime` range/validity check (year 1..9999 and field ranges). -/
def validCivil (y : Int) (mo d hh mi ss : Nat) : Bool :=
  1 ≤ y && y ≤ 9999 && 1 ≤ mo && mo ≤ 12 && 1 ≤ d &&
  d ≤ daysInMonth y mo && hh ≤ 23 && mi ≤ 59 && ss ≤ 59

/-- `validCivil` of a packaged value. -/
def ValidDT (dt : CivilDT) : Bool :=
  validCivil dt.y dt.mo dt.d dt.hh dt.mi dt.ss

/-- Days from civil date to days since 1970-01-01 (proleptic Gregorian,
the arithmetic underlying `datetime.toordinal`). -/
def daysFromCivil (y : Int) (m d : Nat) : Int :=
  let y' : Int := if m ≤ 2 then y - 1 else y
  let era : Int := Int.fdiv y' 400
  let yoe : Nat := (y' - era * 400).toNat
  let mp : Nat := if 2 < m then m - 3 else m + 9
  let doy : Nat := (153 * mp + 2) / 5 + (d - 1)
  let doe : Nat := yoe * 365 + yoe / 4 - yoe / 100 + doy
  era * 146097 + (doe : Int) - 719468

/-- Inverse of `daysFromCivil`. -/
def civilFromDays (z : Int) : Int × Nat × Nat :=
  let z' := z + 719468
  let era := Int.fdiv z' 146097
  let doe : Nat := (z' - era * 146097).toNat
  let yoe : Nat := (doe - doe / 1460 + doe / 36524 - doe / 146096) / 365
  let doy : Nat := doe - (365 * yoe + yoe / 4 - yoe / 100)
  let mp : Nat := (5 * doy + 2) / 153
  let d : Nat := doy - (153 * mp + 2) / 5 + 1
  let m : Nat := if mp < 10 then mp + 3 else mp - 9
  ((yoe : Int) + era * 400 + (if m ≤ 2 then 1 else 0), m, d)

/-- Seconds since the epoch of a civil date-time read as UTC. -/
def toEpochSecs (dt : CivilDT) : Int :=
  daysFromCivil dt.y dt.mo dt.d * 86400 +
    ((dt.hh * 3600 + dt.mi * 60 + dt.ss : Nat) : Int)

/-- Civil date-time (read as UTC) of an epoch second count. -/
def fromEpochSecs (t : Int) : CivilDT :=
  let days := Int.fdiv t 86400
  let secs : Nat := (t - days * 86400).toNat
  let c := civilFromDays days
  { y := c.1, mo := c.2.1, d := c.2.2,
    hh := secs / 3600, mi := secs % 3600 / 60, ss := secs % 60 }

/-- `dt.astimezone(WIB)` for an aware datetime whose offset is
`offMinutes`: shift the civil fields to Asia/Jakarta (UTC+7) through
absolute time. -/
def astimezoneWIB (dt : CivilDT) (offMinutes : Int) : CivilDT :=
  fromEpochSecs (toEpochSecs dt - offMinutes * 60 + 420 * 60)

/-- The numeral character of a decimal digit. -/
def digitChar (n : Nat) : Char := Char.ofNat (48 + n)

/-- Two-digit zero-padded rendering (`%m`, `%d`, `%H`, `%M`, `%S`). -/
def pad2 (n : Nat) : List Char := [digitChar (n / 10), digitChar (n % 10)]

/-- Four-digit zero-padded rendering (`%Y` for years up to 9999). -/
def pad4 (n : Nat) : List Char :=
  [digitChar (n / 1000), digitChar (n / 100 % 10),
   digitChar (n / 10 % 10), digitChar (n % 10)]

/-- `strftime("%Y-%m-%d")`. -/
def renderDate (dt : CivilDT) : List Char :=
  pad4 dt.y.toNat ++ '-' :: pad2 dt.mo ++ '-' :: pad2 dt.d

/-- `strftime("%H:%M:%S")`. -/
def renderTime (dt : CivilDT) : List Char :=
  pad2 dt.hh ++ ':' :: pad2 dt.mi ++ ':' :: pad2 dt.ss

/-- `strftime("%Y-%m-%d %H:%M:%S")`, the canonical timestamp format. -/
def renderCanon (dt : CivilDT) : List Char :=
  renderDate dt ++ ' ' :: renderTime dt

/-- ISO rendering with a `T` separator. -/
def renderIsoT (dt : CivilDT) : List Char :=
  renderDate dt ++ 'T' :: renderTime dt

/-- The numeric value of a decimal digit character. -/
def digitVal (c : Char) : Option Nat :=
  if c.isDigit then some (c.toNat - 48) else none

/-- Parse two decimal digits. -/
def digit2 (a b : Char) : Option Nat :=
  match digitVal a, digitVal b with
  | some x, some y => some (10 * x + y)
  | _, _ => none

/-- Parse four decimal digits. -/
def digit4 (a b c d : Char) : Option Nat :=
  match digitVal a, digitVal b, digitVal c, digitVal d with
  | some w, some x, some y, some z =>
    some (1000 * w + 100 * x + 10 * y + z)
  | _, _, _, _ => none

/-- Parse the optional `±HH:MM` timezone suffix of `fromisoformat`
(offset in minutes; hours up to 23, minutes up to 59 as `timezone`
accepts). -/
def parseOffsetTail (cs : List Char) : Option (Option Int) :=
  match cs with
  | [] => some none
  | sign :: o1 :: o2 :: ':' :: p1 :: p2 :: [] =>
    match digit2 o1 o2, digit2 p1 p2 with
    | some oh, some om =>
      if oh ≤ 23 && om ≤ 59 then
        if sign = '+' then some (some ((oh * 60 + om : Nat) : Int))
        else if sign = '-' then some (some (-((oh * 60 + om : Nat) : Int)))
        else none
      else none
    | _, _ => none
  | _ => none

/-- Parse `[:SS[.ffff]][±HH:MM]` after `HH:MM`. -/
def parseSecondsTail (cs : List Char) :
    Option (Nat × Option Int) :=
  match cs with
  | ':' :: s1 :: s2 :: rest =>
    match digit2 s1 s2 with
    | some ss =>
      match rest with
      | '.' :: frac =>
        let ds := frac.takeWhile Char.isDigit
        if ds = [] then none
        else (parseOffsetTail (frac.dropWhile Char.isDigit)).map fun o => (ss, o)
      | _ => (parseOffsetTail rest).map fun o => (ss, o)
    | none => none
  | _ => (parseOffsetTail cs).map fun o => (0, o)

/-- `datetime.fromisoformat` on the grammar the sites produce:
`YYYY-MM-DD`, optionally followed by a separator (`T` or space) and
`HH:MM[:SS[.ffff]][±HH:MM]`, with full `datetime` range validation.
Returns the civil fields and the explicit offset in minutes, if any. -/
def fromisoformat (cs : List Char) : Option (CivilDT × Option Int) :=
  match cs with
  | y1 :: y2 :: y3 :: y4 :: '-' :: a1 :: a2 :: '-' :: b1 :: b2 :: rest =>
    match digit4 y1 y2 y3 y4, digit2 a1 a2, digit2 b1 b2 with
    | some y, some mo, some d =>
      match rest with
      | [] =>
        if validCivil y mo d 0 0 0 then
          some (⟨y, mo, d, 0, 0, 0⟩, none)
        else none
      | sep :: t =>
        if sep = 'T' || sep = ' ' then
          match t with
          | h1 :: h2 :: ':' :: m1 :: m2 :: t2 =>
            match digit2 h1 h2, digit2 m1 m2 with
            | some hh, some mi =>
              match parseSecondsTail t2 with
              | some (ss, off) =>
                if validCivil y mo d hh mi ss then
                  some (⟨y, mo, d, hh, mi, ss⟩, off)
                else none
              | none => none
            | _, _ => none
          | _ => none
        else none
    | _, _, _ => none
  | _ => none

/- ===================================================================
   Site date normalizers
   =================================================================== -/

/-- `int()` on a captured digit group. -/
def natOfDigits (ds : List Char) : Nat :=
  ds.foldl (fun a c => 10 * a + (c.toNat - 48)) 0

/-- The `Z`-rewriting step of `iso_to_wib`:
`if s.endswith("Z"): s = s[:-1] + "+00:00"`. -/
def zToOffset (t0 : List Char) : List Char :=
  if t0.getLast? = some 'Z' then t0.dropLast ++ "+00:00".data else t0

/-- `iso_to_wib` as defined in `mbg_news_detik.py` / `mbg_news_kompas.py`
(`suffix = " WIB"`) and `mbg_news_tribunnews.py` (`suffix = ""`): empty
on falsy input; strip; rewrite a trailing `Z` to `+00:00`; parse with
`fromisoformat`; treat a missing timezone as UTC; convert to Asia/Jakarta
and format — any parse or range error is caught and yields `""`. -/
def iso_to_wib_core (s : String) (suffix : List Char) : String :=
  if s = "" then ""
  else
    match fromisoformat (zToOffset (pyStrip s.data)) with
    | none => ""
    | some (dt, off?) =>
      if 1 ≤ (astimezoneWIB dt (off?.getD 0)).y ∧
          (astimezoneWIB dt (off?.getD 0)).y ≤ 9999 then
        ⟨renderCanon (astimezoneWIB dt (off?.getD 0)) ++ suffix⟩
      else ""

/-- detik (and kompas) `iso_to_wib`, format `"%Y-%m-%d %H:%M:%S WIB"`. -/
def iso_to_wib (s : String) : String := iso_to_wib_core s " WIB".data

/-- tribunnews `iso_to_wib`, format `"%Y-%m-%d %H:%M:%S"`. -/
def iso_to_wib_tribun (s : String) : String := iso_to_wib_core s []

/-- kompas fallback pattern 1:
`(\d{2})/(\d{2})/(\d{4}),\s*(\d{2}):(\d{2})\s*WIB`. -/
def kompasP1 : List GTok :=
  [(some 1, RTok.cls Char.isDigit 2 (some 2) false),
   (none, RTok.lit '/'),
   (some 2, RTok.cls Char.isDigit 2 (some 2) false),
   (none, RTok.lit '/'),
   (some 3, RTok.cls Char.isDigit 4 (some 4) false),
   (none, RTok.lit ','),
   (none, RTok.cls pyIsSpace 0 none false),
   (some 4, RTok.cls Char.isDigit 2 (some 2) false),
   (none, RTok.lit ':'),
   (some 5, RTok.cls Char.isDigit 2 (some 2) false),
   (none, RTok.cls pyIsSpace 0 none false),
   (none, RTok.lit 'W'), (none, RTok.lit 'I'), (none, RTok.lit 'B')]

/-- ASCII letter class `[A-Za-z]`. -/
def isAsciiLetter (c : Char) : Bool := c.isAlpha

/-- Case-insensitive literal under `re.I` (ASCII). -/
def litCI (c : Char) : RTok := RTok.cls (fun d => d.toUpper = c) 1 (some 1) false

/-- kompas fallback pattern 2 (with `re.I`):
`(\d{1,2})\s+([A-Za-z]+)\s+(\d{4}).*?(\d{2}):(\d{2})\s*WIB`. -/
def kompasP2 : List GTok :=
  [(some 1, RTok.cls Char.isDigit 1 (some 2) false),
   (none, RTok.cls pyIsSpace 1 none false),
   (some 2, RTok.cls isAsciiLetter 1 none false),
   (none, RTok.cls pyIsSpace 1 none false),
   (some 3, RTok.cls Char.isDigit 4 (some 4) false),
   (none, RTok.cls (fun c => !(c = '\n')) 0 none true),
   (some 4, RTok.cls Char.isDigit 2 (some 2) false),
   (none, RTok.lit ':'),
   (some 5, RTok.cls Char.isDigit 2 (some 2) false),
   (none, RTok.cls pyIsSpace 0 none false),
   (none, litCI 'W'), (none, litCI 'I'), (none, litCI 'B')]

/-- The kompas lower-cased month-name table (full names and common
abbreviations). -/
def kompasBulanMap : List (List Char × Nat) :=
  [("januari".data, 1), ("jan".data, 1), ("februari".data, 2), ("feb".data, 2),
   ("maret".data, 3), ("mar".data, 3), ("april".data, 4), ("apr".data, 4),
   ("mei".data, 5), ("juni".data, 6), ("jun".data, 6), ("juli".data, 7),
   ("jul".data, 7), ("agustus".data, 8), ("agu".data, 8),
   ("september".data, 9), ("sep".data, 9), ("oktober".data, 10),
   ("okt".data, 10), ("november".data, 11), ("nov".data, 11),
   ("desember".data, 12), ("des".data, 12)]

/-- `bulan_map.get(mon.lower(), 0)`. -/
def kompasMonthLookup (key : List Char) : Nat :=
  ((kompasBulanMap.find? fun kv => kv.1 = key).map fun kv => kv.2).getD 0

/-- `parse_kompas_time_text_to_wib` of `mbg_news_kompas.py`.  The result
is `Except`: `.error ()` models the uncaught `ValueError` the `datetime`
constructor raises when a pattern matches but the digits are out of
range (the function has no try/except); `.ok ""` is the no-match
fallthrough. -/
def parse_kompas_time_text_to_wib (text : String) : Except Unit String :=
  if text = "" then .ok ""
  else
    let s := (clean_text text).data
    match reSearch kompasP1 false s with
    | some us =>
      let dd := natOfDigits (getGrp us 1)
      let mm := natOfDigits (getGrp us 2)
      let yyyy := natOfDigits (getGrp us 3)
      let hh := natOfDigits (getGrp us 4)
      let mi := natOfDigits (getGrp us 5)
      if validCivil yyyy mm dd hh mi 0 then
        .ok ⟨renderCanon ⟨yyyy, mm, dd, hh, mi, 0⟩⟩
      else .error ()
    | none =>
      match reSearch kompasP2 false s with
      | some us =>
        let dd := natOfDigits (getGrp us 1)
        let mon := getGrp us 2
        let yyyy := natOfDigits (getGrp us 3)
        let hh := natOfDigits (getGrp us 4)
        let mi := natOfDigits (getGrp us 5)
        let monNum := kompasMonthLookup (mon.map Char.toLower)
        if monNum = 0 then .ok ""
        else if validCivil yyyy monNum dd hh mi 0 then
          .ok ⟨renderCanon ⟨yyyy, monNum, dd, hh, mi, 0⟩⟩
        else .error ()
      | none => .ok ""

/-- republika pattern 1: `(\d{1,2})\s+(\w+)\s+(\d{4}),?\s+(\d{1,2}):(\d{2})`. -/
def republikaP1 : List GTok :=
  [(some 1, RTok.cls Char.isDigit 1 (some 2) false),
   (none, RTok.cls pyIsSpace 1 none false),
   (some 2, RTok.cls isWordChar 1 none false),
   (none, RTok.cls pyIsSpace 1 none false),
   (some 3, RTok.cls Char.isDigit 4 (some 4) false),
   (none, RTok.cls (fun c => c = ',') 0 (some 1) false),
   (none, RTok.cls pyIsSpace 1 none false),
   (some 4, RTok.cls Char.isDigit 1 (some 2) false),
   (none, RTok.lit ':'),
   (some 5, RTok.cls Char.isDigit 2 (some 2) false)]

/-- republika pattern 2 (ISO-shaped):
`(\d{4})-(\d{2})-(\d{2})[T\s](\d{2}):(\d{2}):(\d{2})`. -/
def republikaP2 : List GTok :=
  [(some 1, RTok.cls Char.isDigit 4 (some 4) false),
   (none, RTok.lit '-'),
   (some 2, RTok.cls Char.isDigit 2 (some 2) false),
   (none, RTok.lit '-'),
   (some 3, RTok.cls Char.isDigit 2 (some 2) false),
   (none, RTok.cls (fun c => c = 'T' || pyIsSpace c) 1 (some 1) false),
   (some 4, RTok.cls Char.isDigit 2 (some 2) false),
   (none, RTok.lit ':'),
   (some 5, RTok.cls Char.isDigit 2 (some 2) false),
   (none, RTok.lit ':'),
   (some 6, RTok.cls Char.isDigit 2 (some 2) false)]

/-- The republika month table: exact capitalized full names. -/
def republikaMonths : List (List Char × Nat) :=
  [("Januari".data, 1), ("Februari".data, 2), ("Maret".data, 3),
   ("April".data, 4), ("Mei".data, 5), ("Juni".data, 6), ("Juli".data, 7),
   ("Agustus".data, 8), ("September".data, 9), ("Oktober".data, 10),
   ("November".data, 11), ("Desember".data, 12)]

/-- `months.get(month_str)` — case-sensitive, no default. -/
def republikaMonthLookup (key : List Char) : Option Nat :=
  (republikaMonths.find? fun kv => kv.1 = key).map fun kv => kv.2

/-- The try-block body of republika `parse_indo_date`: pattern 1 (falling
through to pattern 2 when the month name is unknown), then pattern 2;
`.error ()` models a `ValueError` from the `datetime` constructor, which
the enclosing `except` turns into `None`. -/
def parseIndoDateRepublikaTry2 (cs : List Char) : Except Unit (Option CivilDT) :=
  match reSearch republikaP2 false cs with
  | some us =>
    let year := natOfDigits (getGrp us 1)
    let month := natOfDigits (getGrp us 2)
    let day := natOfDigits (getGrp us 3)
    let hour := natOfDigits (getGrp us 4)
    let minute := natOfDigits (getGrp us 5)
    let second := natOfDigits (getGrp us 6)
    if validCivil year month day hour minute second then
      .ok (some ⟨year, month, day, hour, minute, second⟩)
    else .error ()
  | none => .ok none

/-- Pattern-1 stage of republika `parse_indo_date` (see
`parseIndoDateRepublikaTry2`). -/
def parseIndoDateRepublikaTry (cs : List Char) : Except Unit (Option CivilDT) :=
  match reSearch republikaP1 false cs with
  | some us =>
    let day := natOfDigits (getGrp us 1)
    let monthStr := getGrp us 2
    let year := natOfDigits (getGrp us 3)
    let hour := natOfDigits (getGrp us 4)
    let minute := natOfDigits (getGrp us 5)
    match republikaMonthLookup monthStr with
    | some m =>
      if validCivil year m day hour minute 0 then
        .ok (some ⟨year, m, day, hour, minute, 0⟩)
      else .error ()
    | none => parseIndoDateRepublikaTry2 cs
  | none => parseIndoDateRepublikaTry2 cs

/-- `parse_indo_date` of `mbg_news_republika.py`: parse an Indonesian or
ISO-shaped date text into a `datetime` whose civil fields are the matched
digits, tagged `tzinfo=WIB` via `.replace` — the wall clock is NOT
shifted, any `Z`/offset text after the match is ignored, and any internal
error yields `None`. -/
def parse_indo_date_republika (date_text : String) : Option CivilDT :=
  if date_text = "" then none
  else
    match parseIndoDateRepublikaTry date_text.data with
    | .ok r => r
    | .error () => none

/- ===================================================================
   Digit / rendering lemmas
   =================================================================== -/

theorem digitChar_mem {k : Nat} (hk : k < 10) :
    digitChar k ∈ ['0', '1', '2', '3', '4', '5', '6', '7', '8', '9'] := by
  interval_cases k <;> decide

theorem isDigit_digitChar {k : Nat} (hk : k < 10) :
    (digitChar k).isDigit = true := by
  interval_cases k <;> decide

theorem pyIsSpace_digitChar {k : Nat} (hk : k < 10) :
    pyIsSpace (digitChar k) = false := by
  interval_cases k <;> decide

theorem digitChar_ne_Z {k : Nat} (hk : k < 10) : digitChar k ≠ 'Z' := by
  interval_cases k <;> decide

theorem upper_digitChar_ne_W {k : Nat} (hk : k < 10) :
    (digitChar k).toUpper ≠ 'W' := by
  interval_cases k <;> decide

theorem digitVal_digitChar {k : Nat} (hk : k < 10) :
    digitVal (digitChar k) = some k := by
  interval_cases k <;> decide

theorem digit2_pad2 {n : Nat} (hn : n ≤ 99) :
    digit2 (digitChar (n / 10)) (digitChar (n % 10)) = some n := by
  unfold digit2
  rw [digitVal_digitChar (by omega), digitVal_digitChar (by omega)]
  simp only
  congr 1
  omega

theorem digit4_pad4 {n : Nat} (hn : n ≤ 9999) :
    digit4 (digitChar (n / 1000)) (digitChar (n / 100 % 10))
      (digitChar (n / 10 % 10)) (digitChar (n % 10)) = some n := by
  unfold digit4
  rw [digitVal_digitChar (by omega), digitVal_digitChar (by omega),
    digitVal_digitChar (by omega), digitVal_digitChar (by omega)]
  simp only
  congr 1
  omega

theorem mem_pad2 {n : Nat} {c : Char} (hn : n ≤ 99) (h : c ∈ pad2 n) :
    ∃ k, k < 10 ∧ c = digitChar k := by
  unfold pad2 at h
  rcases List.mem_cons.mp h with h | h
  · exact ⟨n / 10, by omega, h⟩
  · rcases List.mem_cons.mp h with h | h
    · exact ⟨n % 10, by omega, h⟩
    · simp at h

theorem mem_pad4 {n : Nat} {c : Char} (hn : n ≤ 9999) (h : c ∈ pad4 n) :
    ∃ k, k < 10 ∧ c = digitChar k := by
  unfold pad4 at h
  simp only [List.mem_cons, List.not_mem_nil, or_false] at h
  rcases h with h | h | h | h
  · exact ⟨n / 1000, by omega, h⟩
  · exact ⟨n / 100 % 10, by omega, h⟩
  · exact ⟨n / 10 % 10, by omega, h⟩
  · exact ⟨n % 10, by omega, h⟩

theorem natOfDigits_pad2 {n : Nat} (hn : n ≤ 99) :
    natOfDigits (pad2 n) = n := by
  unfold natOfDigits pad2 digitChar
  have h1 : (Char.ofNat (48 + n / 10)).toNat = 48 + n / 10 :=
    charOfNat_toNat (by left; omega)
  have h2 : (Char.ofNat (48 + n % 10)).toNat = 48 + n % 10 :=
    charOfNat_toNat (by left; omega)
  simp only [List.foldl, h1, h2]
  omega

theorem daysInMonth_le31 (y : Int) (m : Nat) : daysInMonth y m ≤ 31 := by
  unfold daysInMonth
  split <;> first | omega | (split <;> omega)

theorem validDT_bounds {dt : CivilDT} (h : ValidDT dt = true) :
    1 ≤ dt.y ∧ dt.y ≤ 9999 ∧ 1 ≤ dt.mo ∧ dt.mo ≤ 12 ∧ 1 ≤ dt.d ∧
    dt.d ≤ 31 ∧ dt.hh ≤ 23 ∧ dt.mi ≤ 59 ∧ dt.ss ≤ 59 := by
  unfold ValidDT validCivil at h
  simp only [Bool.and_eq_true, decide_eq_true_eq] at h
  obtain ⟨⟨⟨⟨⟨⟨⟨⟨h1, h2⟩, h3⟩, h4⟩, h5⟩, h6⟩, h7⟩, h8⟩, h9⟩ := h
  exact ⟨h1, h2, h3, h4, h5, Nat.le_trans h6 (daysInMonth_le31 _ _),
    h7, h8, h9⟩

theorem renderDate_eq (dt : CivilDT) :
    renderDate dt =
      digitChar (dt.y.toNat / 1000) :: digitChar (dt.y.toNat / 100 % 10) ::
      digitChar (dt.y.toNat / 10 % 10) :: digitChar (dt.y.toNat % 10) ::
      '-' :: digitChar (dt.mo / 10) :: digitChar (dt.mo % 10) ::
      '-' :: digitChar (dt.d / 10) :: digitChar (dt.d % 10) :: [] := rfl

theorem renderTime_eq (dt : CivilDT) :
    renderTime dt =
      digitChar (dt.hh / 10) :: digitChar (dt.hh % 10) ::
      ':' :: digitChar (dt.mi / 10) :: digitChar (dt.mi % 10) ::
      ':' :: digitChar (dt.ss / 10) :: digitChar (dt.ss % 10) :: [] := rfl

/-- Parsing the rendered date-time (no timezone suffix) recovers the
civil fields with no offset. -/
theorem fromisoformat_render_naive {dt : CivilDT} (hv : ValidDT dt = true)
    {sep : Char} (hsep : sep = 'T' ∨ sep = ' ') :
    fromisoformat (renderDate dt ++ sep :: renderTime dt) = some (dt, none) := by
  obtain ⟨h1, h2, h3, h4, h5, h6, h7, h8, h9⟩ := validDT_bounds hv
  obtain ⟨y, mo, d, hh, mi, ss⟩ := dt
  simp only at h1 h2 h3 h4 h5 h6 h7 h8 h9
  rw [renderDate_eq, renderTime_eq]
  simp only [List.cons_append, List.nil_append]
  simp only [fromisoformat]
  rw [digit4_pad4 (by omega), digit2_pad2 (by omega), digit2_pad2 (by omega)]
  simp only
  rw [if_pos (by rcases hsep with h | h <;> simp [h])]
  rw [digit2_pad2 (by omega), digit2_pad2 (by omega)]
  simp only
  simp only [parseSecondsTail]
  rw [digit2_pad2 (by omega)]
  simp only [parseOffsetTail, Option.map_some']
  have hy : ((y.toNat : Int)) = y := Int.toNat_of_nonneg (by omega)
  rw [hy]
  rw [show validCivil y mo d hh mi ss = true from hv]
  simp

/- ===================================================================
   Generic matcher lemmas
   =================================================================== -/

theorem mem_take_of_le_takeWhile {p : Char → Bool} :
    ∀ {cs : List Char} {i : Nat} {c : Char},
      i ≤ (cs.takeWhile p).length → c ∈ cs.take i → p c = true
  | [], i, c, _, hm => by simp at hm
  | d :: ds, i, c, hle, hm => by
    by_cases hd : p d = true
    · rcases i with _ | j
      · simp at hm
      · rw [List.take_succ_cons] at hm
        rcases List.mem_cons.mp hm with h | h
        · rw [h]; exact hd
        · rw [List.takeWhile_cons, if_pos hd, List.length_cons] at hle
          exact mem_take_of_le_takeWhile (Nat.le_of_succ_le_succ hle) h
    · rw [List.takeWhile_cons, if_neg hd] at hle
      simp only [List.length_nil, Nat.le_zero] at hle
      subst hle
      simp at hm

theorem findSome?_some {α β : Type} {f : α → Option β} :
    ∀ {l : List α} {b : β}, l.findSome? f = some b → ∃ a ∈ l, f a = some b
  | [], b, h => by simp [List.findSome?] at h
  | x :: xs, b, h => by
    rw [List.findSome?] at h
    rcases hx : f x with _ | c
    · rw [hx] at h
      rcases findSome?_some h with ⟨a, ha, hfa⟩
      exact ⟨a, List.mem_cons_of_mem _ ha, hfa⟩
    · rw [hx] at h
      cases h
      exact ⟨x, List.mem_cons_self _ _, hx⟩

/-- Every alternative offered by `candidates` is a take/drop split of the
input at an index between `lo` and the class run length. -/
theorem runFor_length_le {p : Char → Bool} {hi : Option Nat}
    {cs : List Char} : (runFor p hi cs).length ≤ (cs.takeWhile p).length := by
  unfold runFor
  rcases hi with _ | h
  · exact Nat.le_refl _
  · rw [List.length_take]
    exact Nat.min_le_right _ _

theorem candidates_mem {p : Char → Bool} {lo : Nat} {hi : Option Nat}
    {lz : Bool} {cs : List Char} {cand : List Char × List Char}
    (h : cand ∈ candidates p lo hi lz cs) :
    ∃ i, lo ≤ i ∧ i ≤ (cs.takeWhile p).length ∧
      cand = (cs.take i, cs.drop i) := by
  unfold candidates at h
  have h2 : ∃ i ∈ lensFor p lo hi cs, (cs.take i, cs.drop i) = cand := by
    rcases hlz : lz with _ | _
    · rw [hlz, if_neg (by simp)] at h
      rcases List.mem_map.mp h with ⟨i, hi2, he⟩
      exact ⟨i, List.mem_reverse.mp hi2, he⟩
    · rw [hlz, if_pos rfl] at h
      rcases List.mem_map.mp h with ⟨i, hi2, he⟩
      exact ⟨i, hi2, he⟩
  rcases h2 with ⟨i, hi2, he⟩
  unfold lensFor at hi2
  rcases List.mem_filter.mp hi2 with ⟨hr, hlo⟩
  refine ⟨i, of_decide_eq_true hlo, ?_, he.symm⟩
  exact Nat.le_trans (Nat.lt_succ_iff.mp (List.mem_range.mp hr)) runFor_length_le

/-- A successful match must have consumed every literal it contains, and
for every class token with a positive minimum it must have consumed at
least one class character: both therefore occur in the input. -/
theorem matchToks_requires :
    ∀ {toks : List GTok} {cs : List Char}
      {r : List (Option Nat × List Char) × List Char},
      matchToks toks cs = some r →
      (∀ g c, (g, RTok.lit c) ∈ toks → c ∈ cs) ∧
      (∀ g p lo hi lz, (g, RTok.cls p lo hi lz) ∈ toks → 1 ≤ lo →
        ∃ c ∈ cs, p c = true) := by
  intro toks
  induction toks with
  | nil =>
    intro cs r _
    exact ⟨fun g c hm => absurd hm (by simp),
      fun g p lo hi lz hm _ => absurd hm (by simp)⟩
  | cons gt ts ih =>
    intro cs r h
    rcases gt with ⟨g', tk⟩
    cases tk with
    | lit c' =>
      rcases cs with _ | ⟨d, rest⟩
      · simp [matchToks] at h
      · simp only [matchToks] at h
        by_cases hd : d = c'
        · rw [if_pos hd] at h
          rcases Option.map_eq_some'.mp h with ⟨r', hr', _⟩
          obtain ⟨ihl, ihc⟩ := ih hr'
          subst hd
          constructor
          · intro g c hm
            rcases List.mem_cons.mp hm with hm | hm
            · cases hm
              exact List.mem_cons_self _ _
            · exact List.mem_cons_of_mem _ (ihl g c hm)
          · intro g p lo hi lz hm hlo
            rcases List.mem_cons.mp hm with hm | hm
            · cases hm
            · rcases ihc g p lo hi lz hm hlo with ⟨c, hc, hp⟩
              exact ⟨c, List.mem_cons_of_mem _ hc, hp⟩
        · rw [if_neg hd] at h
          cases h
    | cls p' lo' hi' lz' =>
      simp only [matchToks] at h
      rcases findSome?_some h with ⟨cand, hcand, hf⟩
      rcases Option.map_eq_some'.mp hf with ⟨r', hr', _⟩
      obtain ⟨ihl, ihc⟩ := ih hr'
      rcases candidates_mem hcand with ⟨i, hloi, hle, hce⟩
      have hdropMem : ∀ c, c ∈ cand.2 → c ∈ cs := by
        intro c hc
        rw [hce] at hc
        exact (List.drop_sublist _ _).mem hc
      constructor
      · intro g c hm
        rcases List.mem_cons.mp hm with hm | hm
        · cases hm
        · exact hdropMem c (ihl g c hm)
      · intro g p lo hi lz hm hlo
        rcases List.mem_cons.mp hm with hm | hm
        · cases hm
          have hi1 : 1 ≤ i := Nat.le_trans hlo hloi
          have h2 : i ≤ cs.length :=
            Nat.le_trans hle (List.takeWhile_sublist _).length_le
          have hlen : (cs.take i).length = i := by
            rw [List.length_take]
            omega
          rcases htake : cs.take i with _ | ⟨c0, tl⟩
          · rw [htake] at hlen
            simp at hlen
            omega
          · have hc0 : c0 ∈ cs.take i := htake ▸ List.mem_cons_self _ _
            exact ⟨c0, (List.take_sublist _ _).mem hc0,
              mem_take_of_le_takeWhile hle hc0⟩
        · rcases ihc g p lo hi lz hm hlo with ⟨c, hc, hp⟩
          exact ⟨c, hdropMem c hc, hp⟩
    | bnd =>
      simp only [matchToks] at h
      split at h
      · rcases Option.map_eq_some'.mp h with ⟨r', hr', _⟩
        obtain ⟨ihl, ihc⟩ := ih hr'
        constructor
        · intro g c hm
          rcases List.mem_cons.mp hm with hm | hm
          · cases hm
          · exact ihl g c hm
        · intro g p lo hi lz hm hlo
          rcases List.mem_cons.mp hm with hm | hm
          · cases hm
          · exact ihc g p lo hi lz hm hlo
      · cases h
    | eol =>
      simp only [matchToks] at h
      split at h
      · rcases Option.map_eq_some'.mp h with ⟨r', hr', _⟩
        obtain ⟨ihl, ihc⟩ := ih hr'
        constructor
        · intro g c hm
          rcases List.mem_cons.mp hm with hm | hm
          · cases hm
          · exact ihl g c hm
        · intro g p lo hi lz hm hlo
          rcases List.mem_cons.mp hm with hm | hm
          · cases hm
          · exact ihc g p lo hi lz hm hlo
      · cases h

theorem searchAux_some {toks : List GTok} {needB : Bool} {cs : List Char} :
    ∀ {prev : Option Char} {us : List (Option Nat × List Char)},
      searchAux toks needB prev cs = some us →
      ∃ t rest, t <:+ cs ∧ matchToks toks t = some (us, rest) := by
  induction cs with
  | nil =>
    intro prev us h
    rw [searchAux] at h
    split at h
    · rcases Option.map_eq_some'.mp h with ⟨r, hr, he⟩
      exact ⟨[], r.2, List.suffix_refl _, by rw [hr, ← he]⟩
    · cases h
  | cons c rest ih =>
    intro prev us h
    rw [searchAux] at h
    rcases hfst : ((if boundaryOK needB prev then matchToks toks (c :: rest)
        else none).map fun r => r.1) with _ | us2
    · rw [hfst] at h
      simp only [Option.orElse] at h
      rcases ih h with ⟨t, rest2, hsuf, hm⟩
      exact ⟨t, rest2, hsuf.trans (List.suffix_cons _ _), hm⟩
    · rw [hfst] at h
      simp only [Option.orElse] at h
      cases h
      rcases Option.map_eq_some'.mp hfst with ⟨r, hr, he⟩
      split at hr
      · exact ⟨c :: rest, r.2, List.suffix_refl _, by rw [hr, ← he]⟩
      · cases hr

theorem reSearch_eq_none {toks : List GTok} {needB : Bool} {cs : List Char}
    (h : ∀ t, t <:+ cs → matchToks toks t = none) :
    reSearch toks needB cs = none := by
  rcases hr : reSearch toks needB cs with _ | us
  · rfl
  · rcases searchAux_some hr with ⟨t, rest, hsuf, hm⟩
    rw [h t hsuf] at hm
    cases hm

theorem natOfDigits_pad4 {n : Nat} (hn : n ≤ 9999) :
    natOfDigits (pad4 n) = n := by
  unfold natOfDigits pad4 digitChar
  have h1 : (Char.ofNat (48 + n / 1000)).toNat = 48 + n / 1000 :=
    charOfNat_toNat (by left; omega)
  have h2 : (Char.ofNat (48 + n / 100 % 10)).toNat = 48 + n / 100 % 10 :=
    charOfNat_toNat (by left; omega)
  have h3 : (Char.ofNat (48 + n / 10 % 10)).toNat = 48 + n / 10 % 10 :=
    charOfNat_toNat (by left; omega)
  have h4 : (Char.ofNat (48 + n % 10)).toNat = 48 + n % 10 :=
    charOfNat_toNat (by left; omega)
  simp only [List.foldl, h1, h2, h3, h4]
  omega

/-- Parsing the rendered date-time followed by an explicit `±HH:MM`
offset recovers the civil fields and the signed offset in minutes. -/
theorem fromisoformat_render_off {dt : CivilDT} (hv : ValidDT dt = true)
    {sep : Char} (hsep : sep = 'T' ∨ sep = ' ')
    {sign : Char} (hsign : sign = '+' ∨ sign = '-')
    {oh om : Nat} (hoh : oh ≤ 23) (hom : om ≤ 59) :
    fromisoformat (renderDate dt ++ sep ::
        (renderTime dt ++ sign :: (pad2 oh ++ ':' :: pad2 om))) =
      some (dt, some (if sign = '+' then ((oh * 60 + om : Nat) : Int)
        else -((oh * 60 + om : Nat) : Int))) := by
  obtain ⟨h1, h2, h3, h4, h5, h6, h7, h8, h9⟩ := validDT_bounds hv
  obtain ⟨y, mo, d, hh, mi, ss⟩ := dt
  simp only at h1 h2 h3 h4 h5 h6 h7 h8 h9
  rw [renderDate_eq, renderTime_eq]
  simp only [pad2, List.cons_append, List.nil_append]
  simp only [fromisoformat]
  rw [digit4_pad4 (by omega), digit2_pad2 (by omega), digit2_pad2 (by omega)]
  simp only
  rw [if_pos (by rcases hsep with h | h <;> simp [h])]
  rw [digit2_pad2 (by omega), digit2_pad2 (by omega)]
  simp only
  have hy : ((y.toNat : Int)) = y := Int.toNat_of_nonneg (by omega)
  rcases hsign with rfl | rfl <;>
  · simp only [parseSecondsTail]
    rw [digit2_pad2 (by omega)]
    simp only [parseOffsetTail]
    rw [digit2_pad2 (by omega), digit2_pad2 (by omega)]
    simp [hoh, hom, hy, hv]
    exact hv

/-- A list none of whose characters satisfy `p` has no `p`-edge. -/
theorem hasEdge_false_of_all {p : Char → Bool} {cs : List Char}
    (h : ∀ c ∈ cs, p c = false) : hasEdge p cs = false := by
  cases cs with
  | nil => rfl
  | cons a l =>
    have ha := h a (List.mem_cons_self _ _)
    have hb := h ((a :: l).getLast (by simp))
      (List.getLast_mem (by simp))
    unfold hasEdge
    rw [List.getLast?_eq_getLast _ (by simp)]
    simp [ha, hb]

/-- The last element of an appended list with a nonempty right part. -/
theorem getLast?_append_some {b : List Char} {c : Char}
    (a : List Char) (h : b.getLast? = some c) :
    (a ++ b).getLast? = some c := by
  have hb : b ≠ [] := by rintro rfl; simp at h
  rw [List.getLast?_append_of_ne_nil a hb]
  exact h

/-- Only `k` survives the `lo ≤ i` filter over `range (k + 1)` when
`lo = k`. -/
theorem range_filter_ge (k : Nat) :
    (List.range (k + 1)).filter (fun i => decide (k ≤ i)) = [k] := by
  rw [List.range_succ, List.filter_append]
  have h1 : (List.range k).filter (fun i => decide (k ≤ i)) = [] := by
    apply List.filter_eq_nil_iff.mpr
    intro a ha
    simp only [List.mem_range] at ha
    simp only [decide_eq_true_eq]
    omega
  rw [h1]
  simp

/-- A fixed-width class repetition over an input whose prefix is exactly
that many class characters offers exactly the one split. -/
theorem candidates_exact {p : Char → Bool} {k : Nat} {lz : Bool}
    {a rest : List Char} (hlen : a.length = k)
    (hall : ∀ c ∈ a, p c = true) :
    candidates p k (some k) lz (a ++ rest) = [(a, rest)] := by
  subst hlen
  unfold candidates lensFor runFor
  rw [takeWhile_append_all rest hall]
  have hl : ((a ++ rest.takeWhile p).take a.length).length = a.length := by
    rw [List.length_take, List.length_append]
    omega
  rw [hl, range_filter_ge a.length]
  have ht : (a ++ rest).take a.length = a := List.take_left a rest
  have hd : (a ++ rest).drop a.length = rest := List.drop_left a rest
  rcases lz with _ | _ <;> simp [ht, hd]

/-- One matcher step over a fixed-width class token. -/
theorem matchToks_cls_exact {p : Char → Bool} {k : Nat} {lz : Bool}
    {g : Option Nat} {ts : List GTok} {a rest : List Char}
    (hlen : a.length = k) (hall : ∀ c ∈ a, p c = true) :
    matchToks ((g, RTok.cls p k (some k) lz) :: ts) (a ++ rest) =
      (matchToks ts rest).map fun r => ((g, a) :: r.1, r.2) := by
  simp only [matchToks]
  rw [candidates_exact hlen hall]
  rcases hm : matchToks ts rest with _ | r <;> simp [List.findSome?, hm]

/-- One matcher step over a literal token. -/
theorem matchToks_lit {g : Option Nat} {c : Char} {ts : List GTok}
    {rest : List Char} :
    matchToks ((g, RTok.lit c) :: ts) (c :: rest) =
      (matchToks ts rest).map fun r => ((g, [c]) :: r.1, r.2) := by
  simp [matchToks]

/-- One matcher step over a width-one class token. -/
theorem matchToks_cls_one {p : Char → Bool} {lz : Bool} {g : Option Nat}
    {ts : List GTok} {c : Char} {rest : List Char} (hc : p c = true) :
    matchToks ((g, RTok.cls p 1 (some 1) lz) :: ts) (c :: rest) =
      (matchToks ts rest).map fun r => ((g, [c]) :: r.1, r.2) :=
  matchToks_cls_exact (a := [c]) rfl (by
    intro d hd
    rcases List.mem_cons.mp hd with rfl | hd
    · exact hc
    · simp at hd)

/-- Both characters of a two-digit rendering are decimal digits. -/
theorem all_digit_pad2 {n : Nat} (hn : n ≤ 99) :
    ∀ c ∈ pad2 n, Char.isDigit c = true := by
  intro c hc
  rcases mem_pad2 hn hc with ⟨k, hk, rfl⟩
  exact isDigit_digitChar hk

/-- All characters of a four-digit rendering are decimal digits. -/
theorem all_digit_pad4 {n : Nat} (hn : n ≤ 9999) :
    ∀ c ∈ pad4 n, Char.isDigit c = true := by
  intro c hc
  rcases mem_pad4 hn hc with ⟨k, hk, rfl⟩
  exact isDigit_digitChar hk

/-- Every character of the ISO rendering is a digit, `-`, `:` or `T`. -/
theorem mem_renderIsoT {dt : CivilDT} {c : Char} (hv : ValidDT dt = true)
    (hc : c ∈ renderIsoT dt) :
    (∃ k, k < 10 ∧ c = digitChar k) ∨ c = '-' ∨ c = ':' ∨ c = 'T' := by
  obtain ⟨h1, h2, h3, h4, h5, h6, h7, h8, h9⟩ := validDT_bounds hv
  unfold renderIsoT at hc
  rcases List.mem_append.mp hc with hc | hc
  · unfold renderDate at hc
    rcases List.mem_append.mp hc with hc | hc
    · rcases List.mem_append.mp hc with hc | hc
      · exact Or.inl (mem_pad4 (by omega) hc)
      · rcases List.mem_cons.mp hc with rfl | hc
        · exact Or.inr (Or.inl rfl)
        · exact Or.inl (mem_pad2 (by omega) hc)
    · rcases List.mem_cons.mp hc with rfl | hc
      · exact Or.inr (Or.inl rfl)
      · exact Or.inl (mem_pad2 (by omega) hc)
  · rcases List.mem_cons.mp hc with rfl | hc
    · exact Or.inr (Or.inr (Or.inr rfl))
    · unfold renderTime at hc
      rcases List.mem_append.mp hc with hc | hc
      · rcases List.mem_append.mp hc with hc | hc
        · exact Or.inl (mem_pad2 (by omega) hc)
        · rcases List.mem_cons.mp hc with rfl | hc
          · exact Or.inr (Or.inr (Or.inl rfl))
          · exact Or.inl (mem_pad2 (by omega) hc)
      · rcases List.mem_cons.mp hc with rfl | hc
        · exact Or.inr (Or.inr (Or.inl rfl))
        · exact Or.inl (mem_pad2 (by omega) hc)

/-- The ISO rendering contains no whitespace character. -/
theorem no_space_renderIsoT {dt : CivilDT} (hv : ValidDT dt = true) :
    ∀ c ∈ renderIsoT dt, pyIsSpace c = false := by
  intro c hc
  rcases mem_renderIsoT hv hc with ⟨k, hk, rfl⟩ | rfl | rfl | rfl
  · exact pyIsSpace_digitChar hk
  · decide
  · decide
  · decide

/-- A match at the very first position wins `re.search`. -/
theorem reSearch_head_match {toks : List GTok} {c : Char} {cs rest : List Char}
    {us : List (Option Nat × List Char)}
    (h : matchToks toks (c :: cs) = some (us, rest)) :
    reSearch toks false (c :: cs) = some us := by
  unfold reSearch
  rw [searchAux]
  rw [show boundaryOK false (none : Option Char) = true from rfl]
  rw [if_pos rfl, h]
  simp [Option.orElse]

/-- The ISO-shaped republika pattern matches the ISO rendering at the
first position, capturing each rendered field, whatever follows. -/
theorem matchToks_republikaP2 {dt : CivilDT} (hv : ValidDT dt = true)
    (tail : List Char) :
    matchToks republikaP2 (renderIsoT dt ++ tail) =
      some ([(some 1, pad4 dt.y.toNat), (none, ['-']), (some 2, pad2 dt.mo),
             (none, ['-']), (some 3, pad2 dt.d), (none, ['T']),
             (some 4, pad2 dt.hh), (none, [':']), (some 5, pad2 dt.mi),
             (none, [':']), (some 6, pad2 dt.ss)], tail) := by
  obtain ⟨h1, h2, h3, h4, h5, h6, h7, h8, h9⟩ := validDT_bounds hv
  have hshape : renderIsoT dt ++ tail =
      pad4 dt.y.toNat ++ ('-' :: (pad2 dt.mo ++ ('-' :: (pad2 dt.d ++
        ('T' :: (pad2 dt.hh ++ (':' :: (pad2 dt.mi ++
          (':' :: (pad2 dt.ss ++ tail)))))))))) := by
    simp [renderIsoT, renderDate, renderTime, List.append_assoc]
  rw [hshape]
  simp only [republikaP2]
  rw [matchToks_cls_exact (show (pad4 dt.y.toNat).length = 4 from rfl)
    (all_digit_pad4 (by omega))]
  rw [matchToks_lit]
  rw [matchToks_cls_exact (show (pad2 dt.mo).length = 2 from rfl)
    (all_digit_pad2 (by omega))]
  rw [matchToks_lit]
  rw [matchToks_cls_exact (show (pad2 dt.d).length = 2 from rfl)
    (all_digit_pad2 (by omega))]
  rw [matchToks_cls_one (by decide)]
  rw [matchToks_cls_exact (show (pad2 dt.hh).length = 2 from rfl)
    (all_digit_pad2 (by omega))]
  rw [matchToks_lit]
  rw [matchToks_cls_exact (show (pad2 dt.mi).length = 2 from rfl)
    (all_digit_pad2 (by omega))]
  rw [matchToks_lit]
  rw [matchToks_cls_exact (show (pad2 dt.ss).length = 2 from rfl)
    (all_digit_pad2 (by omega))]
  simp [matchToks]

/-- `re.search` of the ISO-shaped republika pattern on the ISO rendering
(with any tail) captures exactly the rendered fields. -/
theorem reSearch_republikaP2_render {dt : CivilDT} (hv : ValidDT dt = true)
    (tail : List Char) :
    reSearch republikaP2 false (renderIsoT dt ++ tail) =
      some [(some 1, pad4 dt.y.toNat), (none, ['-']), (some 2, pad2 dt.mo),
            (none, ['-']), (some 3, pad2 dt.d), (none, ['T']),
            (some 4, pad2 dt.hh), (none, [':']), (some 5, pad2 dt.mi),
            (none, [':']), (some 6, pad2 dt.ss)] := by
  have hm := matchToks_republikaP2 hv tail
  have hcons : renderIsoT dt ++ tail =
      digitChar (dt.y.toNat / 1000) :: (digitChar (dt.y.toNat / 100 % 10) ::
      digitChar (dt.y.toNat / 10 % 10) :: digitChar (dt.y.toNat % 10) ::
      '-' :: digitChar (dt.mo / 10) :: digitChar (dt.mo % 10) ::
      '-' :: digitChar (dt.d / 10) :: digitChar (dt.d % 10) ::
      'T' :: digitChar (dt.hh / 10) :: digitChar (dt.hh % 10) ::
      ':' :: digitChar (dt.mi / 10) :: digitChar (dt.mi % 10) ::
      ':' :: digitChar (dt.ss / 10) :: digitChar (dt.ss % 10) :: tail) := by
    simp [renderIsoT, renderDate, renderTime, pad4, pad2]
  rw [hcons] at hm ⊢
  exact reSearch_head_match hm

/-- republika pattern 1 needs whitespace, so it cannot match a string
that has none. -/
theorem reSearch_republikaP1_none {cs : List Char}
    (h : ∀ c ∈ cs, pyIsSpace c = false) :
    reSearch republikaP1 false cs = none := by
  apply reSearch_eq_none
  intro t hsuf
  rcases hm : matchToks republikaP1 t with _ | r
  · rfl
  · exfalso
    obtain ⟨-, hcls⟩ := matchToks_requires hm
    obtain ⟨c, hc, hp⟩ := hcls none pyIsSpace 1 none false
      (by simp [republikaP1]) (Nat.le_refl 1)
    rw [h c (hsuf.subset hc)] at hp
    exact absurd hp (by simp)

/-- No `p`-edge when both end characters fail `p`. -/
theorem hasEdge_false_of_edges {p : Char → Bool} {cs : List Char} {a b : Char}
    (hh : cs.head? = some a) (hl : cs.getLast? = some b)
    (ha : p a = false) (hb : p b = false) : hasEdge p cs = false := by
  unfold hasEdge
  rw [hh, hl]
  simp [ha, hb]

/-- Evaluation of `iso_to_wib_core` on a string with no whitespace at the
edges, no trailing `Z`, that parses, and whose converted year is in the
`datetime` range. -/
theorem iso_to_wib_core_eval {dt : CivilDT} {off? : Option Int}
    {cs : List Char} (hne : cs ≠ [])
    (hedge : hasEdge pyIsSpace cs = false)
    (hnoZ : cs.getLast? ≠ some 'Z')
    (hparse : fromisoformat cs = some (dt, off?))
    (h1 : 1 ≤ (astimezoneWIB dt (off?.getD 0)).y)
    (h2 : (astimezoneWIB dt (off?.getD 0)).y ≤ 9999)
    (suffix : List Char) :
    iso_to_wib_core ⟨cs⟩ suffix =
      ⟨renderCanon (astimezoneWIB dt (off?.getD 0)) ++ suffix⟩ := by
  have hne' : (⟨cs⟩ : String) ≠ "" := by
    intro h
    have h2' := congrArg String.data h
    simp at h2'
    exact hne h2'
  have hz : zToOffset (pyStrip (⟨cs⟩ : String).data) = cs := by
    show zToOffset (pyStrip cs) = cs
    rw [pyStrip_eq_self hedge]
    unfold zToOffset
    rw [if_neg hnoZ]
  unfold iso_to_wib_core
  rw [if_neg hne', hz, hparse]
  simp only
  rw [if_pos ⟨h1, h2⟩]

/-- Evaluation of `iso_to_wib_core` on a trailing-`Z` string: the `Z` is
rewritten to `+00:00` before parsing. -/
theorem iso_to_wib_core_eval_Z {dt : CivilDT} {off? : Option Int}
    {base : List Char}
    (hh : ∃ a, base.head? = some a ∧ pyIsSpace a = false)
    (hparse : fromisoformat (base ++ "+00:00".data) = some (dt, off?))
    (h1 : 1 ≤ (astimezoneWIB dt (off?.getD 0)).y)
    (h2 : (astimezoneWIB dt (off?.getD 0)).y ≤ 9999)
    (suffix : List Char) :
    iso_to_wib_core ⟨base ++ ['Z']⟩ suffix =
      ⟨renderCanon (astimezoneWIB dt (off?.getD 0)) ++ suffix⟩ := by
  obtain ⟨a, hha, hpa⟩ := hh
  have hbne : base ≠ [] := by
    rintro rfl
    simp at hha
  have hne' : (⟨base ++ ['Z']⟩ : String) ≠ "" := by
    intro h
    have h2' := congrArg String.data h
    simp at h2'
  have hlast : (base ++ ['Z']).getLast? = some 'Z' :=
    getLast?_append_some base rfl
  have hhead : (base ++ ['Z']).head? = some a := by
    rcases base with _ | ⟨b, bs⟩
    · simp at hha
    · simpa using hha
  have hedge : hasEdge pyIsSpace (base ++ ['Z']) = false :=
    hasEdge_false_of_edges hhead hlast hpa (by decide)
  have hz : zToOffset (pyStrip (⟨base ++ ['Z']⟩ : String).data) =
      base ++ "+00:00".data := by
    show zToOffset (pyStrip (base ++ ['Z'])) = base ++ "+00:00".data
    rw [pyStrip_eq_self hedge]
    unfold zToOffset
    rw [if_pos hlast]
    rw [show (['Z'] : List Char) = [] ++ ['Z'] from rfl, ← List.append_assoc,
      List.dropLast_concat]
    simp
  unfold iso_to_wib_core
  rw [if_neg hne', hz, hparse]
  simp only
  rw [if_pos ⟨h1, h2⟩]

/-- `iso_to_wib` on a rendered date-time with no timezone suffix: the
wall clock is read as UTC and shifted to Asia/Jakarta. -/
theorem iso_to_wib_core_render_naive {dt : CivilDT} (hv : ValidDT dt = true)
    {sep : Char} (hsep : sep = 'T' ∨ sep = ' ')
    (h1 : 1 ≤ (astimezoneWIB dt 0).y) (h2 : (astimezoneWIB dt 0).y ≤ 9999)
    (suffix : List Char) :
    iso_to_wib_core ⟨renderDate dt ++ sep :: renderTime dt⟩ suffix =
      ⟨renderCanon (astimezoneWIB dt 0) ++ suffix⟩ := by
  obtain ⟨hb1, hb2, hb3, hb4, hb5, hb6, hb7, hb8, hb9⟩ := validDT_bounds hv
  have hcons : renderDate dt ++ sep :: renderTime dt =
      digitChar (dt.y.toNat / 1000) :: digitChar (dt.y.toNat / 100 % 10) ::
      digitChar (dt.y.toNat / 10 % 10) :: digitChar (dt.y.toNat % 10) ::
      '-' :: digitChar (dt.mo / 10) :: digitChar (dt.mo % 10) ::
      '-' :: digitChar (dt.d / 10) :: digitChar (dt.d % 10) ::
      sep :: digitChar (dt.hh / 10) :: digitChar (dt.hh % 10) ::
      ':' :: digitChar (dt.mi / 10) :: digitChar (dt.mi % 10) ::
      ':' :: digitChar (dt.ss / 10) :: digitChar (dt.ss % 10) :: [] := by
    simp [renderDate, renderTime, pad4, pad2]
  have hne : renderDate dt ++ sep :: renderTime dt ≠ [] := by
    rw [hcons]; exact List.cons_ne_nil _ _
  have hhead : (renderDate dt ++ sep :: renderTime dt).head? =
      some (digitChar (dt.y.toNat / 1000)) := by rw [hcons]; rfl
  have hlastv : (renderDate dt ++ sep :: renderTime dt).getLast? =
      some (digitChar (dt.ss % 10)) := by rw [hcons]; rfl
  have hedge := hasEdge_false_of_edges hhead hlastv
    (pyIsSpace_digitChar (by omega)) (pyIsSpace_digitChar (by omega))
  have hnoZ : (renderDate dt ++ sep :: renderTime dt).getLast? ≠
      some 'Z' := by
    rw [hlastv]
    intro h
    exact digitChar_ne_Z (k := dt.ss % 10) (by omega) (by injection h)
  exact iso_to_wib_core_eval hne hedge hnoZ
    (fromisoformat_render_naive hv hsep) h1 h2 suffix

/-- `iso_to_wib` on a rendered date-time with a trailing `Z`: the `Z`
means UTC and the wall clock is shifted to Asia/Jakarta. -/
theorem iso_to_wib_core_render_Z {dt : CivilDT} (hv : ValidDT dt = true)
    (h1 : 1 ≤ (astimezoneWIB dt 0).y) (h2 : (astimezoneWIB dt 0).y ≤ 9999)
    (suffix : List Char) :
    iso_to_wib_core ⟨renderIsoT dt ++ ['Z']⟩ suffix =
      ⟨renderCanon (astimezoneWIB dt 0) ++ suffix⟩ := by
  obtain ⟨hb1, hb2, hb3, hb4, hb5, hb6, hb7, hb8, hb9⟩ := validDT_bounds hv
  have hcons : renderIsoT dt =
      digitChar (dt.y.toNat / 1000) :: digitChar (dt.y.toNat / 100 % 10) ::
      digitChar (dt.y.toNat / 10 % 10) :: digitChar (dt.y.toNat % 10) ::
      '-' :: digitChar (dt.mo / 10) :: digitChar (dt.mo % 10) ::
      '-' :: digitChar (dt.d / 10) :: digitChar (dt.d % 10) ::
      'T' :: digitChar (dt.hh / 10) :: digitChar (dt.hh % 10) ::
      ':' :: digitChar (dt.mi / 10) :: digitChar (dt.mi % 10) ::
      ':' :: digitChar (dt.ss / 10) :: digitChar (dt.ss % 10) :: [] := by
    simp [renderIsoT, renderDate, renderTime, pad4, pad2]
  have hshape : renderIsoT dt ++ "+00:00".data =
      renderDate dt ++ 'T' :: (renderTime dt ++ '+' ::
        (pad2 0 ++ ':' :: pad2 0)) := by
    rw [show ("+00:00".data : List Char) =
      '+' :: (pad2 0 ++ ':' :: pad2 0) from rfl]
    simp [renderIsoT, List.append_assoc]
  have hparse : fromisoformat (renderIsoT dt ++ "+00:00".data) =
      some (dt, some (if '+' = '+' then ((0 * 60 + 0 : Nat) : Int)
        else -((0 * 60 + 0 : Nat) : Int))) := by
    rw [hshape]
    exact fromisoformat_render_off hv (Or.inl rfl) (Or.inl rfl)
      (by omega) (by omega)
  exact iso_to_wib_core_eval_Z
    ⟨digitChar (dt.y.toNat / 1000), by rw [hcons]; rfl,
      pyIsSpace_digitChar (by omega)⟩
    hparse h1 h2 suffix

/-- `iso_to_wib` on a rendered date-time with an explicit `±HH:MM`
offset: the offset is honoured and the instant shifted to Asia/Jakarta. -/
theorem iso_to_wib_core_render_off {dt : CivilDT} (hv : ValidDT dt = true)
    {sign : Char} (hsign : sign = '+' ∨ sign = '-')
    {oh om : Nat} (hoh : oh ≤ 23) (hom : om ≤ 59)
    (h1 : 1 ≤ (astimezoneWIB dt (if sign = '+' then ((oh * 60 + om : Nat) : Int)
      else -((oh * 60 + om : Nat) : Int))).y)
    (h2 : (astimezoneWIB dt (if sign = '+' then ((oh * 60 + om : Nat) : Int)
      else -((oh * 60 + om : Nat) : Int))).y ≤ 9999)
    (suffix : List Char) :
    iso_to_wib_core ⟨renderDate dt ++ 'T' :: (renderTime dt ++ sign ::
        (pad2 oh ++ ':' :: pad2 om))⟩ suffix =
      ⟨renderCanon (astimezoneWIB dt
        (if sign = '+' then ((oh * 60 + om : Nat) : Int)
          else -((oh * 60 + om : Nat) : Int))) ++ suffix⟩ := by
  obtain ⟨hb1, hb2, hb3, hb4, hb5, hb6, hb7, hb8, hb9⟩ := validDT_bounds hv
  have hcons : renderDate dt ++ 'T' :: (renderTime dt ++ sign ::
      (pad2 oh ++ ':' :: pad2 om)) =
      digitChar (dt.y.toNat / 1000) :: digitChar (dt.y.toNat / 100 % 10) ::
      digitChar (dt.y.toNat / 10 % 10) :: digitChar (dt.y.toNat % 10) ::
      '-' :: digitChar (dt.mo / 10) :: digitChar (dt.mo % 10) ::
      '-' :: digitChar (dt.d / 10) :: digitChar (dt.d % 10) ::
      'T' :: digitChar (dt.hh / 10) :: digitChar (dt.hh % 10) ::
      ':' :: digitChar (dt.mi / 10) :: digitChar (dt.mi % 10) ::
      ':' :: digitChar (dt.ss / 10) :: digitChar (dt.ss % 10) ::
      sign :: digitChar (oh / 10) :: digitChar (oh % 10) ::
      ':' :: digitChar (om / 10) :: digitChar (om % 10) :: [] := by
    simp [renderDate, renderTime, pad4, pad2]
  have hne : renderDate dt ++ 'T' :: (renderTime dt ++ sign ::
      (pad2 oh ++ ':' :: pad2 om)) ≠ [] := by
    rw [hcons]; exact List.cons_ne_nil _ _
  have hhead : (renderDate dt ++ 'T' :: (renderTime dt ++ sign ::
      (pad2 oh ++ ':' :: pad2 om))).head? =
      some (digitChar (dt.y.toNat / 1000)) := by rw [hcons]; rfl
  have hlastv : (renderDate dt ++ 'T' :: (renderTime dt ++ sign ::
      (pad2 oh ++ ':' :: pad2 om))).getLast? =
      some (digitChar (om % 10)) := by rw [hcons]; rfl
  have hedge := hasEdge_false_of_edges hhead hlastv
    (pyIsSpace_digitChar (by omega)) (pyIsSpace_digitChar (by omega))
  have hnoZ : (renderDate dt ++ 'T' :: (renderTime dt ++ sign ::
      (pad2 oh ++ ':' :: pad2 om))).getLast? ≠ some 'Z' := by
    rw [hlastv]
    intro h
    exact digitChar_ne_Z (k := om % 10) (by omega) (by injection h)
  exact iso_to_wib_core_eval hne hedge hnoZ
    (fromisoformat_render_off hv (Or.inl rfl) hsign hoh hom) h1 h2 suffix

/-- republika `parse_indo_date` on an ISO rendering (with any
whitespace-free tail, such as a trailing `Z` or offset text): the ISO
pattern matches and the civil fields are returned unchanged — the tail,
and with it any timezone designator, is ignored. -/
theorem parse_indo_date_republika_render {dt : CivilDT}
    (hv : ValidDT dt = true) {tail : List Char}
    (htail : ∀ c ∈ tail, pyIsSpace c = false) :
    parse_indo_date_republika ⟨renderIsoT dt ++ tail⟩ = some dt := by
  obtain ⟨hb1, hb2, hb3, hb4, hb5, hb6, hb7, hb8, hb9⟩ := validDT_bounds hv
  have hnosp : ∀ c ∈ renderIsoT dt ++ tail, pyIsSpace c = false := by
    intro c hc
    rcases List.mem_append.mp hc with hc | hc
    · exact no_space_renderIsoT hv c hc
    · exact htail c hc
  have hcons : renderIsoT dt ++ tail =
      digitChar (dt.y.toNat / 1000) :: (digitChar (dt.y.toNat / 100 % 10) ::
      digitChar (dt.y.toNat / 10 % 10) :: digitChar (dt.y.toNat % 10) ::
      '-' :: digitChar (dt.mo / 10) :: digitChar (dt.mo % 10) ::
      '-' :: digitChar (dt.d / 10) :: digitChar (dt.d % 10) ::
      'T' :: digitChar (dt.hh / 10) :: digitChar (dt.hh % 10) ::
      ':' :: digitChar (dt.mi / 10) :: digitChar (dt.mi % 10) ::
      ':' :: digitChar (dt.ss / 10) :: digitChar (dt.ss % 10) :: tail) := by
    simp [renderIsoT, renderDate, renderTime, pad4, pad2]
  have hne' : (⟨renderIsoT dt ++ tail⟩ : String) ≠ "" := by
    intro h
    have h2' := congrArg String.data h
    simp [hcons] at h2'
  have htry : parseIndoDateRepublikaTry (renderIsoT dt ++ tail) =
      .ok (some dt) := by
    unfold parseIndoDateRepublikaTry
    rw [reSearch_republikaP1_none hnosp]
    show parseIndoDateRepublikaTry2 (renderIsoT dt ++ tail) = .ok (some dt)
    unfold parseIndoDateRepublikaTry2
    rw [reSearch_republikaP2_render hv tail]
    simp only [getGrp, List.filterMap_cons, List.filterMap_nil,
      List.flatten]
    simp only [reduceIte, Option.some.injEq, List.append_nil]
    rw [natOfDigits_pad4 (by omega), natOfDigits_pad2 (by omega),
      natOfDigits_pad2 (by omega), natOfDigits_pad2 (by omega),
      natOfDigits_pad2 (by omega), natOfDigits_pad2 (by omega)]
    rw [Int.toNat_of_nonneg (by omega)]
    rw [show validCivil dt.y dt.mo dt.d dt.hh dt.mi dt.ss = true from hv]
    rfl
  unfold parse_indo_date_republika
  rw [if_neg hne']
  show (match parseIndoDateRepublikaTry (renderIsoT dt ++ tail) with
    | .ok r => r
    | .error () => none) = some dt
  rw [htry]

/- ===================================================================
   Claim C2: timezone conversion of the date normalizers
   =================================================================== -/

/-- C2 counterexample: republika `parse_indo_date` on an ISO timestamp
with a trailing `Z` keeps the UTC wall clock `14:30:00` and merely tags
it WIB, whereas converting that instant to Asia/Jakarta gives
`21:30:00`. -/
theorem date_normalization_counterexample :
    parse_indo_date_republika "2024-03-15T14:30:00Z" =
      some ⟨2024, 3, 15, 14, 30, 0⟩ ∧
    astimezoneWIB ⟨2024, 3, 15, 14, 30, 0⟩ 0 = ⟨2024, 3, 15, 21, 30, 0⟩ ∧
    (⟨2024, 3, 15, 14, 30, 0⟩ : CivilDT) ≠ ⟨2024, 3, 15, 21, 30, 0⟩ := by
  refine ⟨by rfl, by decide, by decide⟩

/-- C2 (amended): for every valid civil date-time, the detik/kompas
`iso_to_wib` treats a timezone-less ISO timestamp (separator `T` or
space) as UTC and converts it to Asia/Jakarta civil time, handles a
trailing `Z` and an explicit `±HH:MM` offset the same way, and formats
the result as the canonical `"YYYY-MM-DD HH:MM:SS"` followed by a
`" WIB"` suffix; the republika `parse_indo_date`, by contrast, returns
the matched wall-clock fields unchanged, ignoring a trailing `Z` rather
than converting from UTC. -/
theorem date_normalization_amended :
    (∀ dt : CivilDT, ∀ sep : Char, ValidDT dt = true →
      (sep = 'T' ∨ sep = ' ') →
      1 ≤ (astimezoneWIB dt 0).y → (astimezoneWIB dt 0).y ≤ 9999 →
      iso_to_wib ⟨renderDate dt ++ sep :: renderTime dt⟩ =
        ⟨renderCanon (astimezoneWIB dt 0) ++ " WIB".data⟩) ∧
    (∀ dt : CivilDT, ValidDT dt = true →
      1 ≤ (astimezoneWIB dt 0).y → (astimezoneWIB dt 0).y ≤ 9999 →
      iso_to_wib ⟨renderIsoT dt ++ ['Z']⟩ =
        ⟨renderCanon (astimezoneWIB dt 0) ++ " WIB".data⟩) ∧
    (∀ dt : CivilDT, ∀ sign : Char, ∀ oh om : Nat, ValidDT dt = true →
      (sign = '+' ∨ sign = '-') → oh ≤ 23 → om ≤ 59 →
      1 ≤ (astimezoneWIB dt (if sign = '+' then ((oh * 60 + om : Nat) : Int)
        else -((oh * 60 + om : Nat) : Int))).y →
      (astimezoneWIB dt (if sign = '+' then ((oh * 60 + om : Nat) : Int)
        else -((oh * 60 + om : Nat) : Int))).y ≤ 9999 →
      iso_to_wib ⟨renderDate dt ++ 'T' :: (renderTime dt ++ sign ::
        (pad2 oh ++ ':' :: pad2 om))⟩ =
        ⟨renderCanon (astimezoneWIB dt
          (if sign = '+' then ((oh * 60 + om : Nat) : Int)
            else -((oh * 60 + om : Nat) : Int))) ++ " WIB".data⟩) ∧
    (∀ dt : CivilDT, ValidDT dt = true →
      parse_indo_date_republika ⟨renderIsoT dt ++ ['Z']⟩ = some dt) := by
  refine ⟨?_, ?_, ?_, ?_⟩
  · intro dt sep hv hsep h1 h2
    exact iso_to_wib_core_render_naive hv hsep h1 h2 _
  · intro dt hv h1 h2
    exact iso_to_wib_core_render_Z hv h1 h2 _
  · intro dt sign oh om hv hsign hoh hom h1 h2
    exact iso_to_wib_core_render_off hv hsign hoh hom h1 h2 _
  · intro dt hv
    exact parse_indo_date_republika_render hv (by decide)

/-- C2 witness: the amended theorem instantiated at
`2025-12-17T01:02:03` with each timezone designator shape. -/
theorem date_normalization_amended_witness :
    iso_to_wib ⟨renderDate ⟨2025, 12, 17, 1, 2, 3⟩ ++ 'T' ::
        renderTime ⟨2025, 12, 17, 1, 2, 3⟩⟩ =
      ⟨renderCanon (astimezoneWIB ⟨2025, 12, 17, 1, 2, 3⟩ 0) ++
        " WIB".data⟩ ∧
    iso_to_wib ⟨renderIsoT ⟨2025, 12, 17, 1, 2, 3⟩ ++ ['Z']⟩ =
      ⟨renderCanon (astimezoneWIB ⟨2025, 12, 17, 1, 2, 3⟩ 0) ++
        " WIB".data⟩ ∧
    iso_to_wib ⟨renderDate ⟨2025, 12, 17, 1, 2, 3⟩ ++ 'T' ::
        (renderTime ⟨2025, 12, 17, 1, 2, 3⟩ ++ '+' ::
          (pad2 5 ++ ':' :: pad2 30))⟩ =
      ⟨renderCanon (astimezoneWIB ⟨2025, 12, 17, 1, 2, 3⟩
        (if '+' = '+' then ((5 * 60 + 30 : Nat) : Int)
          else -((5 * 60 + 30 : Nat) : Int))) ++ " WIB".data⟩ ∧
    parse_indo_date_republika ⟨renderIsoT ⟨2025, 12, 17, 1, 2, 3⟩ ++
        ['Z']⟩ = some ⟨2025, 12, 17, 1, 2, 3⟩ :=
  ⟨date_normalization_amended.1 ⟨2025, 12, 17, 1, 2, 3⟩ 'T' (by decide)
      (Or.inl rfl) (by decide) (by decide),
   date_normalization_amended.2.1 ⟨2025, 12, 17, 1, 2, 3⟩ (by decide)
      (by decide) (by decide),
   date_normalization_amended.2.2.1 ⟨2025, 12, 17, 1, 2, 3⟩ '+' 5 30
      (by decide) (Or.inl rfl) (by decide) (by decide) (by decide)
      (by decide),
   date_normalization_amended.2.2.2 ⟨2025, 12, 17, 1, 2, 3⟩ (by decide)⟩

/- ===================================================================
   Claim C3: the date normalizers on garbage and on canonical input
   =================================================================== -/

/-- C3 counterexample: `iso_to_wib` is not idempotent on an already
canonical `"YYYY-MM-DD HH:MM:SS"` string — it reinterprets it as UTC,
shifts it by +7 hours and appends `" WIB"`; and the kompas fallback
parser raises `ValueError` (no enclosing try/except) when its pattern
matches digits that are out of range. -/
theorem date_parse_failure_counterexample :
    iso_to_wib "2025-12-17 08:02:03" = "2025-12-17 15:02:03 WIB" ∧
    iso_to_wib "2025-12-17 08:02:03" ≠ "2025-12-17 08:02:03" ∧
    parse_kompas_time_text_to_wib "99/99/2025, 10:30 WIB" = .error () := by
  refine ⟨by rfl, by decide, by rfl⟩

/-- C3 (amended): on input matching no known pattern the normalizers
return the empty string without raising and never fabricate a date
(`iso_to_wib` also maps falsy input to `""`); but the kompas fallback can
raise on pattern-matching input with out-of-range fields, and on an
already-canonical `"YYYY-MM-DD HH:MM:SS"` string `iso_to_wib` is not
idempotent: it treats the wall clock as UTC, shifts it to Asia/Jakarta
and appends `" WIB"`. -/
theorem date_parse_failure_amended :
    iso_to_wib "not a date" = "" ∧
    iso_to_wib "" = "" ∧
    parse_kompas_time_text_to_wib "not a date" = .ok "" ∧
    (∀ dt : CivilDT, ValidDT dt = true →
      1 ≤ (astimezoneWIB dt 0).y → (astimezoneWIB dt 0).y ≤ 9999 →
      iso_to_wib ⟨renderCanon dt⟩ =
        ⟨renderCanon (astimezoneWIB dt 0) ++ " WIB".data⟩) := by
  refine ⟨by rfl, by rfl, by rfl, ?_⟩
  intro dt hv h1 h2
  show iso_to_wib ⟨renderDate dt ++ ' ' :: renderTime dt⟩ = _
  exact iso_to_wib_core_render_naive hv (Or.inr rfl) h1 h2 _

/-- C3 witness: the amended theorem instantiated at the canonical string
for `2025-12-17 08:02:03`. -/
theorem date_parse_failure_amended_witness :
    iso_to_wib ⟨renderCanon ⟨2025, 12, 17, 8, 2, 3⟩⟩ =
      ⟨renderCanon (astimezoneWIB ⟨2025, 12, 17, 8, 2, 3⟩ 0) ++
        " WIB".data⟩ :=
  date_parse_failure_amended.2.2.2 ⟨2025, 12, 17, 8, 2, 3⟩ (by decide)
    (by decide) (by decide)

/- ===================================================================
   List-page parsers (claim C4): the `<a href>` scan of
   `parse_tag_news_page` (detik) and `parse_kompas_search_page`,
   modelled over the sequence of anchors the soup yields — each anchor
   is its `href` attribute and its `get_text(" ", strip=True)` text.
   =================================================================== -/

/-- One `<a href="...">` element of the parsed page: the `href`
attribute and the text `get_text(" ", strip=True)` extracts. -/
structure Anchor where
  href : String
  text : String
deriving DecidableEq, Repr

/-- A sequence of literal tokens (an escaped literal regex fragment). -/
def litToks (s : List Char) : List GTok := s.map fun c => (none, RTok.lit c)

/-- detik `is_article_url`: `bool(url) and re.search(r"/d-\d+/", url)`. -/
def detikArticleToks : List GTok :=
  [(none, RTok.lit '/'), (none, RTok.lit 'd'), (none, RTok.lit '-'),
   (none, RTok.cls Char.isDigit 1 none false), (none, RTok.lit '/')]

def is_article_url (url : String) : Bool :=
  !(url = "") && (reSearch detikArticleToks false url.data).isSome

/-- kompas `is_kompas_article_url`:
`bool(url) and re.search(r"kompas\.com/read/\d{4}/\d{2}/\d{2}/\d+", url)`. -/
def kompasArticleToks : List GTok :=
  litToks "kompas.com/read/".data ++
  ([(none, RTok.cls Char.isDigit 4 (some 4) false), (none, RTok.lit '/'),
    (none, RTok.cls Char.isDigit 2 (some 2) false), (none, RTok.lit '/'),
    (none, RTok.cls Char.isDigit 2 (some 2) false), (none, RTok.lit '/'),
    (none, RTok.cls Char.isDigit 1 none false)] : List GTok)

def is_kompas_article_url (url : String) : Bool :=
  !(url = "") && (reSearch kompasArticleToks false url.data).isSome

/-- `re.search` of a `^...$`-anchored pattern: the match must start at
position 0 (the trailing `$` is an `eol` token of the pattern). -/
def reSearchAnchored (toks : List GTok) (cs : List Char) :
    Option (List (Option Nat × List Char)) :=
  (matchToks toks cs).map fun r => r.1

/-- The detik list-item pattern
`^(?P<channel>\S+)\s+(?P<dow>\S+),\s+(?P<date>\d{1,2}\s+\S+\s+\d{4})\s+(?P<time>\d{2}:\d{2})\s+WIB\s+(?P<title>.+)$`
with named groups numbered 1–5 in order. -/
def detikListToks : List GTok :=
  [(some 1, RTok.cls (fun c => !(pyIsSpace c)) 1 none false),
   (none, RTok.cls pyIsSpace 1 none false),
   (some 2, RTok.cls (fun c => !(pyIsSpace c)) 1 none false),
   (none, RTok.lit ','),
   (none, RTok.cls pyIsSpace 1 none false),
   (some 3, RTok.cls Char.isDigit 1 (some 2) false),
   (some 3, RTok.cls pyIsSpace 1 none false),
   (some 3, RTok.cls (fun c => !(pyIsSpace c)) 1 none false),
   (some 3, RTok.cls pyIsSpace 1 none false),
   (some 3, RTok.cls Char.isDigit 4 (some 4) false),
   (none, RTok.cls pyIsSpace 1 none false),
   (some 4, RTok.cls Char.isDigit 2 (some 2) false),
   (some 4, RTok.lit ':'),
   (some 4, RTok.cls Char.isDigit 2 (some 2) false),
   (none, RTok.cls pyIsSpace 1 none false),
   (none, RTok.lit 'W'), (none, RTok.lit 'I'), (none, RTok.lit 'B'),
   (none, RTok.cls pyIsSpace 1 none false),
   (some 5, RTok.cls (fun c => !(c = '\n')) 1 none false),
   (none, RTok.eol)]

/-- One row of the detik list parser. -/
structure ListRow where
  published_wib : String
  title_list : String
  url : String
deriving DecidableEq, Repr

/-- One row of the kompas search parser. -/
structure KListRow where
  title_list : String
  url : String
deriving DecidableEq, Repr

/-- The per-anchor body of the detik list loop: normalize the href, keep
only article urls, require a `"WIB"` marker in the cleaned text, parse
the anchored list pattern, and build the row (`published_wib` re-joined
from the `dow`, `date` and `time` groups, `title_list` re-cleaned). -/
def detikListRow (a : Anchor) : Option ListRow :=
  if is_article_url (normalize_url_detik a.href) = false then none
  else if ¬ ("WIB".data <:+: (clean_text a.text).data) then none
  else
    match reSearchAnchored detikListToks (clean_text a.text).data with
    | none => none
    | some us =>
      some ⟨⟨getGrp us 2 ++ ", ".data ++ getGrp us 3 ++
              ' ' :: (getGrp us 4 ++ " WIB".data)⟩,
            clean_text ⟨getGrp us 5⟩,
            normalize_url_detik a.href⟩

/-- The per-anchor body of the kompas search loop: normalize the href,
keep only article urls, drop titles shorter than 8 characters and
`"baca juga"` callout links. -/
def kompasListRow (a : Anchor) : Option KListRow :=
  if is_kompas_article_url (normalize_url_kompas a.href) = false then none
  else if (clean_text a.text).data.length < 8 then none
  else if "baca juga".data.isPrefixOf
      ((clean_text a.text).data.map Char.toLower) then none
  else some ⟨clean_text a.text, normalize_url_kompas a.href⟩

/-- The `seen`-set dedup loop shared by both list parsers: keep a row
only when its url has not been seen, in input order. -/
def dedupByUrl {α : Type} (key : α → String) :
    List α → List String → List α
  | [], _ => []
  | r :: rs, seen =>
    if key r ∈ seen then dedupByUrl key rs seen
    else r :: dedupByUrl key rs (key r :: seen)

/-- `parse_tag_news_page` of `mbg_news_detik.py` over the page's
anchors. -/
def parse_tag_news_page (anchors : List Anchor) : List ListRow :=
  dedupByUrl (fun r => r.url) (anchors.filterMap detikListRow) []

/-- `parse_kompas_search_page` of `mbg_news_kompas.py` over the page's
anchors. -/
def parse_kompas_search_page (anchors : List Anchor) : List KListRow :=
  dedupByUrl (fun r => r.url) (anchors.filterMap kompasListRow) []

theorem dedupByUrl_sublist {α : Type} (key : α → String) :
    ∀ (rows : List α) (seen : List String),
      List.Sublist (dedupByUrl key rows seen) rows
  | [], _ => by simp [dedupByUrl]
  | r :: rs, seen => by
    unfold dedupByUrl
    by_cases h : key r ∈ seen
    · rw [if_pos h]
      exact List.Sublist.cons _ (dedupByUrl_sublist key rs seen)
    · rw [if_neg h]
      exact List.Sublist.cons₂ _ (dedupByUrl_sublist key rs (key r :: seen))

theorem dedupByUrl_key_not_seen {α : Type} {key : α → String} :
    ∀ {rows : List α} {seen : List String} {r : α},
      r ∈ dedupByUrl key rows seen → key r ∉ seen
  | [], seen, r, h => by simp [dedupByUrl] at h
  | x :: rs, seen, r, h => by
    unfold dedupByUrl at h
    by_cases hx : key x ∈ seen
    · rw [if_pos hx] at h
      exact dedupByUrl_key_not_seen h
    · rw [if_neg hx] at h
      rcases List.mem_cons.mp h with rfl | h
      · exact hx
      · intro hs
        exact dedupByUrl_key_not_seen h (List.mem_cons_of_mem _ hs)

theorem dedupByUrl_nodup {α : Type} (key : α → String) :
    ∀ (rows : List α) (seen : List String),
      ((dedupByUrl key rows seen).map key).Nodup
  | [], _ => by simp [dedupByUrl]
  | r :: rs, seen => by
    unfold dedupByUrl
    by_cases h : key r ∈ seen
    · rw [if_pos h]
      exact dedupByUrl_nodup key rs seen
    · rw [if_neg h]
      simp only [List.map_cons, List.nodup_cons]
      refine ⟨?_, dedupByUrl_nodup key rs (key r :: seen)⟩
      intro hmem
      rcases List.mem_map.mp hmem with ⟨x, hx, he⟩
      exact @dedupByUrl_key_not_seen α key _ _ _ hx
        (by rw [he]; exact List.mem_cons_self _ _)

theorem dedupByUrl_complete {α : Type} {key : α → String} :
    ∀ {rows : List α} {seen : List String} {r : α},
      r ∈ rows → key r ∉ seen →
      key r ∈ (dedupByUrl key rows seen).map key
  | [], _, r, h, _ => by simp at h
  | x :: rs, seen, r, h, hns => by
    unfold dedupByUrl
    by_cases hx : key x ∈ seen
    · rw [if_pos hx]
      rcases List.mem_cons.mp h with rfl | h
      · exact absurd hx hns
      · exact dedupByUrl_complete h hns
    · rw [if_neg hx]
      simp only [List.map_cons]
      by_cases hk : key r = key x
      · rw [hk]
        exact List.mem_cons_self _ _
      · rcases List.mem_cons.mp h with rfl | h
        · exact absurd rfl hk
        · refine List.mem_cons_of_mem _ (dedupByUrl_complete h ?_)
          intro hm
          rcases List.mem_cons.mp hm with he | hm
          · exact hk he
          · exact hns hm

theorem dedupByUrl_first {α : Type} {key : α → String} :
    ∀ {rows : List α} {seen : List String} {r : α},
      r ∈ dedupByUrl key rows seen →
      ∃ pre post, rows = pre ++ r :: post ∧ ∀ x ∈ pre, key x ≠ key r
  | [], _, r, h => by simp [dedupByUrl] at h
  | x :: rs, seen, r, h => by
    unfold dedupByUrl at h
    by_cases hx : key x ∈ seen
    · rw [if_pos hx] at h
      have hns := @dedupByUrl_key_not_seen α key _ _ _ h
      obtain ⟨pre, post, he, hp⟩ := dedupByUrl_first h
      refine ⟨x :: pre, post, by rw [he, List.cons_append], ?_⟩
      intro z hz
      rcases List.mem_cons.mp hz with rfl | hz
      · intro hk
        exact hns (hk ▸ hx)
      · exact hp z hz
    · rw [if_neg hx] at h
      rcases List.mem_cons.mp h with rfl | h
      · exact ⟨[], rs, rfl, by simp⟩
      · have hns := @dedupByUrl_key_not_seen α key _ _ _ h
        have hkr : key r ≠ key x := by
          intro hk
          exact hns (by rw [hk]; exact List.mem_cons_self _ _)
        obtain ⟨pre, post, he, hp⟩ := dedupByUrl_first h
        refine ⟨x :: pre, post, by rw [he, List.cons_append], ?_⟩
        intro z hz
        rcases List.mem_cons.mp hz with rfl | hz
        · exact fun hk => hkr hk.symm
        · exact hp z hz

/-- A detik list row is built only from an article url, namely the
normalized href. -/
theorem detikListRow_url {a : Anchor} {r : ListRow}
    (h : detikListRow a = some r) :
    is_article_url r.url = true ∧ r.url = normalize_url_detik a.href := by
  unfold detikListRow at h
  by_cases h1 : is_article_url (normalize_url_detik a.href) = false
  · rw [if_pos h1] at h
    cases h
  · rw [if_neg h1] at h
    by_cases h2 : ¬ ("WIB".data <:+: (clean_text a.text).data)
    · rw [if_pos h2] at h
      cases h
    · rw [if_neg h2] at h
      rcases hm : reSearchAnchored detikListToks (clean_text a.text).data
        with _ | us
      · rw [hm] at h
        cases h
      · rw [hm] at h
        cases h
        refine ⟨?_, rfl⟩
        rcases hb : is_article_url (normalize_url_detik a.href) with _ | _
        · exact absurd hb h1
        · rfl

/-- A kompas search row is built only from an article url, namely the
normalized href. -/
theorem kompasListRow_url {a : Anchor} {r : KListRow}
    (h : kompasListRow a = some r) :
    is_kompas_article_url r.url = true ∧
      r.url = normalize_url_kompas a.href := by
  unfold kompasListRow at h
  by_cases h1 : is_kompas_article_url (normalize_url_kompas a.href) = false
  · rw [if_pos h1] at h
    cases h
  · rw [if_neg h1] at h
    by_cases h2 : (clean_text a.text).data.length < 8
    · rw [if_pos h2] at h
      cases h
    · rw [if_neg h2] at h
      by_cases h3 : "baca juga".data.isPrefixOf
          ((clean_text a.text).data.map Char.toLower) = true
      · rw [if_pos h3] at h
        cases h
      · rw [if_neg h3] at h
        cases h
        refine ⟨?_, rfl⟩
        rcases hb : is_kompas_article_url (normalize_url_kompas a.href)
          with _ | _
        · exact absurd hb h1
        · rfl

/-- C4: both list-page parsers return only records whose url satisfies
the site's article-url predicate, with urls pairwise distinct, each
output row being the first-seen row of its url, in input order (the
output is an order-preserving sublist of the pre-dedup rows and every
pre-dedup url is represented); and a synthetic detik page with two
distinct article anchors, one duplicate-url anchor and one non-article
anchor yields exactly the two records in first-seen order. -/
theorem list_parser_filter_dedup :
    (∀ anchors : List Anchor,
      (∀ r ∈ parse_tag_news_page anchors, is_article_url r.url = true) ∧
      ((parse_tag_news_page anchors).map (fun r => r.url)).Nodup ∧
      List.Sublist (parse_tag_news_page anchors)
        (anchors.filterMap detikListRow) ∧
      (∀ r ∈ anchors.filterMap detikListRow,
        r.url ∈ (parse_tag_news_page anchors).map (fun r => r.url)) ∧
      (∀ r ∈ parse_tag_news_page anchors, ∃ pre post,
        anchors.filterMap detikListRow = pre ++ r :: post ∧
        ∀ x ∈ pre, x.url ≠ r.url)) ∧
    (∀ anchors : List Anchor,
      (∀ r ∈ parse_kompas_search_page anchors,
        is_kompas_article_url r.url = true) ∧
      ((parse_kompas_search_page anchors).map (fun r => r.url)).Nodup ∧
      List.Sublist (parse_kompas_search_page anchors)
        (anchors.filterMap kompasListRow) ∧
      (∀ r ∈ anchors.filterMap kompasListRow,
        r.url ∈ (parse_kompas_search_page anchors).map (fun r => r.url)) ∧
      (∀ r ∈ parse_kompas_search_page anchors, ∃ pre post,
        anchors.filterMap kompasListRow = pre ++ r :: post ∧
        ∀ x ∈ pre, x.url ≠ r.url)) ∧
    parse_tag_news_page
      [⟨"/d-101/satu", "detikNews Rabu, 17 Des 2025 02:03 WIB Judul Satu"⟩,
       ⟨"https://news.detik.com/d-102/dua",
        "detikFinance Kamis, 18 Des 2025 10:15 WIB Judul Dua"⟩,
       ⟨"/d-101/satu",
        "detikNews Rabu, 17 Des 2025 02:03 WIB Judul Satu Lagi"⟩,
       ⟨"/tag/mbg", "Tag MBG"⟩] =
      [⟨"Rabu, 17 Des 2025 02:03 WIB", "Judul Satu",
        "https://www.detik.com/d-101/satu"⟩,
       ⟨"Kamis, 18 Des 2025 10:15 WIB", "Judul Dua",
        "https://news.detik.com/d-102/dua"⟩] := by
  refine ⟨?_, ?_, by decide⟩
  · intro anchors
    refine ⟨?_, dedupByUrl_nodup _ _ _, dedupByUrl_sublist _ _ _, ?_, ?_⟩
    · intro r hr
      have hmem := (dedupByUrl_sublist (fun r : ListRow => r.url)
        (anchors.filterMap detikListRow) []).mem hr
      rcases List.mem_filterMap.mp hmem with ⟨a, _, ha⟩
      exact (detikListRow_url ha).1
    · intro r hr
      exact dedupByUrl_complete hr (by simp)
    · intro r hr
      exact dedupByUrl_first hr
  · intro anchors
    refine ⟨?_, dedupByUrl_nodup _ _ _, dedupByUrl_sublist _ _ _, ?_, ?_⟩
    · intro r hr
      have hmem := (dedupByUrl_sublist (fun r : KListRow => r.url)
        (anchors.filterMap kompasListRow) []).mem hr
      rcases List.mem_filterMap.mp hmem with ⟨a, _, ha⟩
      exact (kompasListRow_url ha).1
    · intro r hr
      exact dedupByUrl_complete hr (by simp)
    · intro r hr
      exact dedupByUrl_first hr

/-- C4 witness: the universal parts instantiated on one-anchor pages. -/
theorem list_parser_filter_dedup_witness :
    is_article_url (ListRow.url ⟨"Rabu, 17 Des 2025 02:03 WIB",
      "Judul Satu", "https://www.detik.com/d-101/satu"⟩) = true ∧
    is_kompas_article_url (KListRow.url ⟨"Judul Kompas",
      "https://nasional.kompas.com/read/2025/12/17/09463351/judul"⟩) =
      true :=
  ⟨(list_parser_filter_dedup.1
      [⟨"/d-101/satu", "detikNews Rabu, 17 Des 2025 02:03 WIB Judul Satu"⟩]).1
      ⟨"Rabu, 17 Des 2025 02:03 WIB", "Judul Satu",
        "https://www.detik.com/d-101/satu"⟩ (by decide),
   (list_parser_filter_dedup.2.1
      [⟨"https://nasional.kompas.com/read/2025/12/17/09463351/judul",
        "Judul Kompas"⟩]).1
      ⟨"Judul Kompas",
        "https://nasional.kompas.com/read/2025/12/17/09463351/judul"⟩
      (by decide)⟩

/- ===================================================================
   Detail-page title and record title (claim C7): `extract_meta`, the
   og:title/h1 cascade of `parse_detail_page`, and the `judul` field
   each orchestrator writes.  A detail document is modelled by its meta
   tags (keyed by `property`/`name`) and its first `<h1>` text.
   =================================================================== -/

/-- The parsed detail document, as far as titles are concerned: the
`<meta>` tags (key = the `property` or `name` attribute, value = the
`content` attribute) and the text of the first `<h1>`, if any. -/
structure DetailDoc where
  metas : List (String × String)
  h1 : Option String
deriving DecidableEq, Repr

/-- `extract_meta`: the first `<meta>` with the given key whose
`content` is non-empty yields `clean_text(content)`, else `""`. -/
def extract_meta (doc : DetailDoc) (key : String) : String :=
  match doc.metas.find? fun kv => kv.1 = key with
  | some kv => if kv.2 = "" then "" else clean_text kv.2
  | none => ""

/-- The title cascade of `parse_detail_page` (identical in detik,
kompas and tribunnews): `og:title` metadata first, the `<h1>` text only
when the metadata title is empty. -/
def detail_title (doc : DetailDoc) : String :=
  if extract_meta doc "og:title" = "" then
    match doc.h1 with
    | some t => clean_text t
    | none => ""
  else extract_meta doc "og:title"

/-- Python `a or b` on strings (empty is falsy). -/
def py_or (a b : String) : String := if a = "" then b else a

/-- The `judul` field the detik orchestrator writes:
`base.get("title_list", "") or ""` — the list-phase title, with the
detail-phase title unused. -/
def detik_judul (title_detail title_list : String) : String :=
  py_or title_list ""

/-- The `judul` field the kompas orchestrator writes:
`d.get("title_detail") or base.get("title_list") or ""`. -/
def kompas_judul (title_detail title_list : String) : String :=
  py_or title_detail (py_or title_list "")

/-- C7 counterexample: with a non-empty detail-page title and a
different list title, the detik orchestrator emits the list title — the
successfully parsed detail title is ignored, not merely a fallback. -/
theorem record_title_counterexample :
    detik_judul "Judul Detail" "Judul List" = "Judul List" ∧
    detik_judul "Judul Detail" "Judul List" ≠ "Judul Detail" ∧
    detik_judul "Judul Detail" "" = "" ∧
    kompas_judul "Judul Detail" "Judul List" = "Judul Detail" := by
  refine ⟨by decide, by decide, by decide, by decide⟩

/-- C7 (amended): inside `parse_detail_page` structured metadata does
win — a non-empty `og:title` is used and the `<h1>` text is consulted
only when it is empty; and the kompas orchestrator uses the detail title
with the list title only as fallback; but the detik orchestrator always
writes the list-phase title, ignoring the detail title entirely. -/
theorem record_title_amended :
    (∀ doc : DetailDoc, extract_meta doc "og:title" ≠ "" →
      detail_title doc = extract_meta doc "og:title") ∧
    (∀ doc : DetailDoc, extract_meta doc "og:title" = "" →
      detail_title doc =
        (match doc.h1 with | some t => clean_text t | none => "")) ∧
    (∀ td tl : String, td ≠ "" → kompas_judul td tl = td) ∧
    (∀ tl : String, kompas_judul "" tl = py_or tl "") ∧
    (∀ td td2 tl : String, detik_judul td tl = detik_judul td2 tl) ∧
    (∀ td tl : String, detik_judul td tl = py_or tl "") := by
  refine ⟨?_, ?_, ?_, ?_, ?_, ?_⟩
  · intro doc h
    unfold detail_title
    rw [if_neg h]
  · intro doc h
    unfold detail_title
    rw [if_pos h]
  · intro td tl h
    unfold kompas_judul py_or
    rw [if_neg h]
  · intro tl
    unfold kompas_judul
    rw [show py_or "" (py_or tl "") = py_or tl "" from rfl]
  · intro td td2 tl
    rfl
  · intro td tl
    rfl

/-- C7 witness: the amended theorem instantiated at a concrete document
and concrete titles. -/
theorem record_title_amended_witness :
    detail_title ⟨[("og:title", "Judul Meta")], some "Judul H1"⟩ =
      extract_meta ⟨[("og:title", "Judul Meta")], some "Judul H1"⟩
        "og:title" ∧
    kompas_judul "Judul Detail" "Judul List" = "Judul Detail" :=
  ⟨record_title_amended.1 ⟨[("og:title", "Judul Meta")], some "Judul H1"⟩
      (by decide),
   record_title_amended.2.2.1 "Judul Detail" "Judul List" (by decide)⟩

/- ===================================================================
   Detail-page content assembly (claim C8): the paragraph filters and
   whole-container fallback of detik `parse_detail_page` and the
   marker filter of tribunnews `parse_detail_page`.  A container is its
   paragraph texts plus its whole `get_text` text.
   =================================================================== -/

/-- The main content container: the texts of its `<p>` descendants and
its whole-container `get_text(" ", strip=True)` text. -/
structure Container where
  paras : List String
  fullText : String
deriving DecidableEq, Repr

/-- `"\n\n".join(...)`. -/
def joinParas : List (List Char) → List Char
  | [] => []
  | [p] => p
  | p :: rest => p ++ '\n' :: '\n' :: joinParas rest

/-- The detik paragraph filter: drop empties, the exact
`"ADVERTISEMENT"` label, and `"baca juga:"` callouts. -/
def detikKeepPara (t : String) : Bool :=
  !(t = "") && !(t = "ADVERTISEMENT") &&
  !("baca juga:".data.isPrefixOf (t.data.map Char.toLower))

/-- detik content assembly: the filtered cleaned paragraphs joined by
blank lines, falling back to the cleaned whole-container text when
nothing survives. -/
def detik_content (c : Container) : String :=
  if (⟨pyStrip (joinParas
      (((c.paras.map clean_text).filter detikKeepPara).map String.data))⟩ :
      String) = "" then
    clean_text c.fullText
  else
    ⟨pyStrip (joinParas
      (((c.paras.map clean_text).filter detikKeepPara).map String.data))⟩

/-- The tribunnews paragraph filter: drop empties and any paragraph
whose upper-cased text contains `ADVERTISEMENT`, `IKLAN` or
`BACA JUGA`. -/
def tribunKeepPara (p : String) : Bool :=
  !(p = "") &&
  !(decide ("ADVERTISEMENT".data <:+: p.data.map Char.toUpper)) &&
  !(decide ("IKLAN".data <:+: p.data.map Char.toUpper)) &&
  !(decide ("BACA JUGA".data <:+: p.data.map Char.toUpper))

/-- tribunnews content assembly: cleaned paragraphs, marker filter,
blank-line join, final strip — with no whole-container fallback. -/
def tribun_content (paras : List String) : String :=
  ⟨pyStrip (joinParas
    (((paras.map clean_text).filter tribunKeepPara).map String.data))⟩

theorem prefix_append_cons_of_not_mem {c : Char} :
    ∀ {a m b : List Char}, c ∉ m → m <+: a ++ c :: b → m <+: a
  | a, [], b, _, _ => List.nil_prefix
  | [], x :: xs, b, hc, h => by
    obtain ⟨t, ht⟩ := h
    simp only [List.nil_append, List.cons_append, List.cons.injEq] at ht
    cases ht.1
    exact absurd (List.mem_cons_self _ _) hc
  | d :: a', x :: xs, b, hc, h => by
    obtain ⟨t, ht⟩ := h
    simp only [List.cons_append, List.cons.injEq] at ht
    cases ht.1
    have hxs : xs <+: a' ++ c :: b := ⟨t, ht.2⟩
    have := prefix_append_cons_of_not_mem
      (fun hm => hc (List.mem_cons_of_mem _ hm)) hxs
    exact (List.prefix_cons_inj _).mpr this

theorem infix_append_cons_of_not_mem {c : Char} :
    ∀ {a m b : List Char}, c ∉ m → m <:+: a ++ c :: b →
      m <:+: a ∨ m <:+: b
  | [], m, b, hc, h => by
    obtain ⟨s, t, he⟩ := h
    rcases s with _ | ⟨d, s'⟩
    · rcases m with _ | ⟨x, xs⟩
      · exact Or.inl List.nil_infix
      · simp only [List.nil_append, List.cons_append,
          List.cons.injEq] at he
        cases he.1
        exact absurd (List.mem_cons_self _ _) hc
    · simp only [List.nil_append, List.cons_append,
        List.cons.injEq] at he
      exact Or.inr ⟨s', t, he.2⟩
  | e :: a', m, b, hc, h => by
    obtain ⟨s, t, he⟩ := h
    rcases s with _ | ⟨d, s'⟩
    · have hp : m <+: (e :: a') ++ c :: b := ⟨t, by simpa using he⟩
      exact Or.inl (prefix_append_cons_of_not_mem hc hp).isInfix
    · simp only [List.cons_append, List.cons.injEq] at he
      rcases infix_append_cons_of_not_mem (a := a') hc ⟨s', t, he.2⟩
        with h1 | h1
      · exact Or.inl (h1.trans (List.infix_cons (List.infix_refl _)))
      · exact Or.inr h1

/-- A marker that contains no newline and occurs in a blank-line join
occurs in one of the joined paragraphs. -/
theorem infix_joinParas {m : List Char} (hnl : '\n' ∉ m) (hne : m ≠ []) :
    ∀ {ps : List (List Char)}, m <:+: joinParas ps → ∃ p ∈ ps, m <:+: p
  | [], h => by
    unfold joinParas at h
    exact absurd (List.eq_nil_of_infix_nil h) hne
  | [p], h => ⟨p, List.mem_cons_self _ _, by simpa [joinParas] using h⟩
  | p :: q :: rest, h => by
    rw [show joinParas (p :: q :: rest) =
      p ++ '\n' :: '\n' :: joinParas (q :: rest) from rfl] at h
    rcases infix_append_cons_of_not_mem hnl h with h1 | h1
    · exact ⟨p, List.mem_cons_self _ _, h1⟩
    · rcases infix_append_cons_of_not_mem (a := []) hnl
        (by simpa using h1) with h2 | h2
      · exact absurd (List.eq_nil_of_infix_nil h2) hne
      · obtain ⟨p', hp', hm⟩ := @infix_joinParas m hnl hne (q :: rest) h2
        exact ⟨p', List.mem_cons_of_mem _ hp', hm⟩

/-- Stripping only removes edge characters: the result occurs in the
input. -/
theorem pyStrip_infix_self (cs : List Char) : pyStrip cs <:+: cs := by
  unfold pyStrip
  have h1 : (cs.dropWhile pyIsSpace).reverse.dropWhile pyIsSpace <:+
      (cs.dropWhile pyIsSpace).reverse := List.dropWhile_suffix _
  have h2 : ((cs.dropWhile pyIsSpace).reverse.dropWhile pyIsSpace).reverse
      <+: cs.dropWhile pyIsSpace := by
    rw [← List.reverse_suffix]
    simpa using h1
  exact h2.isInfix.trans (List.dropWhile_suffix _).isInfix

/-- C8 counterexample: a container whose only paragraph is the
`"ADVERTISEMENT"` label: the paragraph is filtered out, so zero
paragraphs survive, the whole-container fallback is taken, and the
emitted content is the advertisement label itself. -/
theorem content_boilerplate_counterexample :
    detik_content ⟨["ADVERTISEMENT"], "ADVERTISEMENT"⟩ =
      "ADVERTISEMENT" ∧
    "ADVERTISEMENT".data <:+:
      (detik_content ⟨["ADVERTISEMENT"], "ADVERTISEMENT"⟩).data := by
  refine ⟨by rfl, by decide⟩

/-- C8 (amended): tribunnews content indeed never contains an
`ADVERTISEMENT`, `IKLAN` or `BACA JUGA` marker (even case-insensitively,
and with no fallback path); detik strips the exact advertisement label
and `"baca juga:"` callout paragraphs from the paragraph path; but when
zero paragraphs survive filtering, detik falls back to the raw
whole-container text, which is only cleaned for whitespace and can
retain boilerplate. -/
theorem content_boilerplate_amended :
    (∀ paras : List String, ∀ m : List Char,
      m = "ADVERTISEMENT".data ∨ m = "IKLAN".data ∨ m = "BACA JUGA".data →
      ¬ (m <:+: (tribun_content paras).data)) ∧
    (∀ c : Container, ∀ p ∈ (c.paras.map clean_text).filter detikKeepPara,
      p ≠ "" ∧ p ≠ "ADVERTISEMENT" ∧
      ¬ ("baca juga:".data.isPrefixOf (p.data.map Char.toLower) = true)) ∧
    (∀ c : Container,
      (c.paras.map clean_text).filter detikKeepPara = [] →
      detik_content c = clean_text c.fullText) := by
  refine ⟨?_, ?_, ?_⟩
  · intro paras m hmark h
    have hnl : '\n' ∉ m := by
      rcases hmark with rfl | rfl | rfl <;> decide
    have hne : m ≠ [] := by
      rcases hmark with rfl | rfl | rfl <;> decide
    have hup : m.map Char.toUpper = m := by
      rcases hmark with rfl | rfl | rfl <;> decide
    have hj : m <:+: joinParas
        (((paras.map clean_text).filter tribunKeepPara).map String.data) :=
      h.trans (pyStrip_infix_self _)
    obtain ⟨pd, hpd, hmp⟩ := infix_joinParas hnl hne hj
    rcases List.mem_map.mp hpd with ⟨p, hp, rfl⟩
    have hkeep : tribunKeepPara p = true :=
      List.of_mem_filter (p := tribunKeepPara) hp
    have hupper : m <:+: p.data.map Char.toUpper := by
      rw [← hup]
      exact hmp.map Char.toUpper
    unfold tribunKeepPara at hkeep
    simp only [Bool.and_eq_true, Bool.not_eq_true', decide_eq_false_iff_not]
      at hkeep
    rcases hmark with rfl | rfl | rfl
    · exact hkeep.1.1.2 hupper
    · exact hkeep.1.2 hupper
    · exact hkeep.2 hupper
  · intro c p hp
    have hkeep : detikKeepPara p = true :=
      List.of_mem_filter (p := detikKeepPara) hp
    unfold detikKeepPara at hkeep
    simp only [Bool.and_eq_true, Bool.not_eq_true', decide_eq_false_iff_not]
      at hkeep
    exact ⟨hkeep.1.1, hkeep.1.2, by simp [hkeep.2]⟩
  · intro c hempty
    unfold detik_content
    rw [hempty]
    rw [if_pos (by rfl)]

/-- C8 witness: the amended theorem instantiated on a concrete page. -/
theorem content_boilerplate_amended_witness :
    ¬ ("ADVERTISEMENT".data <:+:
      (tribun_content ["Paragraf biasa.", "ADVERTISEMENT"]).data) ∧
    detik_content ⟨["baca juga: tautan"], "Teks kontainer"⟩ =
      clean_text "Teks kontainer" :=
  ⟨content_boilerplate_amended.1 ["Paragraf biasa.", "ADVERTISEMENT"]
      ("ADVERTISEMENT".data) (Or.inl rfl),
   content_boilerplate_amended.2.2 ⟨["baca juga: tautan"], "Teks kontainer"⟩
      (by decide)⟩

/- ===================================================================
   Sentiment engine (claim C9): `analyze_dual` of `sentiment_engine.py`
   over oracle classifier pipelines.  Each pipeline call is a function
   returning `.error ()` when it raises; the zero-shot topic model
   yields `none` for a falsy/label-less result and `some labels`
   otherwise.  Scores are rationals, rounded as Python `round(x, 4)`
   (banker's rounding).
   =================================================================== -/

/-- One `pipeline(...)[0]` result: the raw label and score. -/
structure ModelOut where
  label : String
  score : ℚ
deriving DecidableEq, Repr

/-- Python `str.upper()` (ASCII). -/
def pyUpper (s : String) : String := ⟨s.data.map Char.toUpper⟩

/-- Python `str.lower()` (ASCII). -/
def pyLower (s : String) : String := ⟨s.data.map Char.toLower⟩

/-- Round half to even (Python `round`). -/
def roundHalfEven (x : ℚ) : ℤ :=
  if x - ⌊x⌋ < 1 / 2 then ⌊x⌋
  else if 1 / 2 < x - ⌊x⌋ then ⌊x⌋ + 1
  else if ⌊x⌋ % 2 = 0 then ⌊x⌋ else ⌊x⌋ + 1

/-- Python `round(x, 4)`. -/
def round4 (x : ℚ) : ℚ := (roundHalfEven (x * 10000) : ℚ) / 10000

/-- The IndoBERT label table of `analyze_dual`. -/
def label_map_indobert : List (String × String) :=
  [("positif", "POSITIVE"), ("positive", "POSITIVE"),
   ("negatif", "NEGATIVE"), ("negative", "NEGATIVE"),
   ("netral", "NEUTRAL"), ("neutral", "NEUTRAL"),
   ("label_0", "NEGATIVE"), ("label_1", "NEUTRAL"),
   ("label_2", "POSITIVE")]

/-- `label_map_indobert.get(label_indobert, "NEUTRAL")`. -/
def mapIndobert (l : String) : String :=
  ((label_map_indobert.find? fun kv => kv.1 = l).map fun kv => kv.2).getD
    "NEUTRAL"

/-- The fail-safe default tuple of `analyze_dual`. -/
def sentimentDefault : String × ℚ × String × ℚ × String :=
  ("NEUTRAL", 0, "NEUTRAL", 0, "Lainnya")

/-- `analyze_dual(text, judul)` over the three pipeline oracles: the
too-short guard, the RoBERTa label upper-cased raw, the IndoBERT label
mapped through the table with `"NEUTRAL"` default, the topic taken from
the first zero-shot label (`"Lainnya"` when the result is falsy or has
no labels key; an empty labels list raises `IndexError`), and any raised
error caught into the default tuple. -/
def analyze_dual (text judul : String)
    (roberta indobert : String → Except Unit ModelOut)
    (topik : String → Except Unit (Option (List String))) :
    String × ℚ × String × ℚ × String :=
  if text = "" ∨ (pyStrip text.data).length < 15 then sentimentDefault
  else
    match roberta ⟨text.data.take 512⟩, indobert ⟨text.data.take 512⟩,
        topik ⟨judul.data.take 200⟩ with
    | .ok r1, .ok r2, .ok t =>
      match t with
      | some [] => sentimentDefault
      | some (l :: _) =>
        (pyUpper r1.label, round4 r1.score,
         mapIndobert (pyLower r2.label), round4 r2.score, l)
      | none =>
        (pyUpper r1.label, round4 r1.score,
         mapIndobert (pyLower r2.label), round4 r2.score, "Lainnya")
    | _, _, _ => sentimentDefault

/-- The IndoBERT mapping lands in the closed label set whatever the raw
label. -/
theorem mapIndobert_closed (l : String) :
    mapIndobert l = "POSITIVE" ∨ mapIndobert l = "NEGATIVE" ∨
    mapIndobert l = "NEUTRAL" := by
  unfold mapIndobert
  rcases hf : label_map_indobert.find? (fun kv => kv.1 = l) with _ | kv
  · rw [hf]
    right; right; rfl
  · rw [hf]
    have hmem := List.mem_of_find?_eq_some hf
    simp only [Option.map_some', Option.getD_some]
    simp only [label_map_indobert, List.mem_cons, List.not_mem_nil,
      or_false] at hmem
    rcases hmem with rfl | rfl | rfl | rfl | rfl | rfl | rfl | rfl | rfl <;>
      simp

/-- Every `analyze_dual` result is either the fail-safe default or the
success tuple of the two classifier outputs. -/
theorem analyze_dual_cases (text judul : String)
    (rob ind : String → Except Unit ModelOut)
    (top : String → Except Unit (Option (List String))) :
    analyze_dual text judul rob ind top = sentimentDefault ∨
    ∃ r1 r2 topicLabel,
      rob ⟨text.data.take 512⟩ = .ok r1 ∧
      ind ⟨text.data.take 512⟩ = .ok r2 ∧
      analyze_dual text judul rob ind top =
        (pyUpper r1.label, round4 r1.score,
         mapIndobert (pyLower r2.label), round4 r2.score, topicLabel) := by
  unfold analyze_dual
  by_cases h : text = "" ∨ (pyStrip text.data).length < 15
  · rw [if_pos h]
    exact Or.inl rfl
  · rw [if_neg h]
    rcases h1 : rob ⟨text.data.take 512⟩ with e | r1
    · exact Or.inl rfl
    · rcases h2 : ind ⟨text.data.take 512⟩ with e | r2
      · exact Or.inl rfl
      · rcases h3 : top ⟨judul.data.take 200⟩ with e | t
        · exact Or.inl rfl
        · rcases t with _ | ⟨_ | ⟨l, ls⟩⟩
          · exact Or.inr ⟨r1, r2, "Lainnya", rfl, rfl, rfl⟩
          · exact Or.inl rfl
          · exact Or.inr ⟨r1, r2, l, rfl, rfl, rfl⟩

/-- C9 counterexample: the RoBERTa label is only upper-cased, never
mapped: a raw label `"positif"` (the Indonesian spelling) yields
`s1 = "POSITIF"`, outside the closed set — unknown spellings map to
`NEUTRAL` only for the IndoBERT model. -/
theorem analyze_dual_counterexample :
    (analyze_dual "Program makan bergizi gratis berjalan lancar." ""
        (fun _ => .ok ⟨"positif", 9 / 10⟩)
        (fun _ => .ok ⟨"positif", 8 / 10⟩)
        (fun _ => .ok (some ["Kebijakan"]))).1 = "POSITIF" ∧
    "POSITIF" ∉ (["POSITIVE", "NEGATIVE", "NEUTRAL"] : List String) := by
  refine ⟨by rfl, by decide⟩

/-- C9 (amended): the second (IndoBERT) label always lies in the closed
set `{POSITIVE, NEGATIVE, NEUTRAL}` (unknown spellings default to
`NEUTRAL`); too-short or empty content and every raised pipeline error
(including an empty zero-shot labels list) yield the fail-safe tuple
`("NEUTRAL", 0.0, "NEUTRAL", 0.0, "Lainnya")`; but the first (RoBERTa)
label is the raw model label merely upper-cased, with no closed-set
mapping. -/
theorem analyze_dual_amended :
    (∀ text judul rob ind top,
      (analyze_dual text judul rob ind top).2.2.1 = "POSITIVE" ∨
      (analyze_dual text judul rob ind top).2.2.1 = "NEGATIVE" ∨
      (analyze_dual text judul rob ind top).2.2.1 = "NEUTRAL") ∧
    (∀ text judul rob ind top,
      text = "" ∨ (pyStrip text.data).length < 15 →
      analyze_dual text judul rob ind top = sentimentDefault) ∧
    (∀ text judul rob ind top,
      rob ⟨text.data.take 512⟩ = .error () →
      analyze_dual text judul rob ind top = sentimentDefault) ∧
    (∀ text judul rob ind top,
      ind ⟨text.data.take 512⟩ = .error () →
      analyze_dual text judul rob ind top = sentimentDefault) ∧
    (∀ text judul rob ind top,
      top ⟨judul.data.take 200⟩ = .error () ∨
      top ⟨judul.data.take 200⟩ = .ok (some []) →
      analyze_dual text judul rob ind top = sentimentDefault) ∧
    (∀ text judul rob ind top r1 r2 ls l,
      ¬ (text = "" ∨ (pyStrip text.data).length < 15) →
      rob ⟨text.data.take 512⟩ = .ok r1 →
      ind ⟨text.data.take 512⟩ = .ok r2 →
      top ⟨judul.data.take 200⟩ = .ok (some (l :: ls)) →
      analyze_dual text judul rob ind top =
        (pyUpper r1.label, round4 r1.score,
         mapIndobert (pyLower r2.label), round4 r2.score, l)) := by
  refine ⟨?_, ?_, ?_, ?_, ?_, ?_⟩
  · intro text judul rob ind top
    rcases analyze_dual_cases text judul rob ind top with h | ⟨r1, r2, l, _, _, h⟩
    · rw [h]
      right; right; rfl
    · rw [h]
      exact mapIndobert_closed _
  · intro text judul rob ind top h
    unfold analyze_dual
    rw [if_pos h]
  · intro text judul rob ind top h
    unfold analyze_dual
    by_cases hs : text = "" ∨ (pyStrip text.data).length < 15
    · rw [if_pos hs]
    · rw [if_neg hs, h]
  · intro text judul rob ind top h
    unfold analyze_dual
    by_cases hs : text = "" ∨ (pyStrip text.data).length < 15
    · rw [if_pos hs]
    · rw [if_neg hs, h]
      rcases h1 : rob ⟨text.data.take 512⟩ with e | r1 <;> rfl
  · intro text judul rob ind top h
    unfold analyze_dual
    by_cases hs : text = "" ∨ (pyStrip text.data).length < 15
    · rw [if_pos hs]
    · rw [if_neg hs]
      rcases h with h | h <;> rw [h] <;>
        rcases h1 : rob ⟨text.data.take 512⟩ with e | r1 <;>
        rcases h2 : ind ⟨text.data.take 512⟩ with e2 | r2 <;> rfl
  · intro text judul rob ind top r1 r2 ls l hs h1 h2 h3
    unfold analyze_dual
    rw [if_neg hs, h1, h2, h3]

/-- C9 witness: the amended theorem instantiated with concrete oracle
outputs. -/
theorem analyze_dual_amended_witness :
    analyze_dual "x" "judul"
      (fun _ => .ok ⟨"positive", 1⟩) (fun _ => .ok ⟨"positive", 1⟩)
      (fun _ => .ok (some ["Anggaran"])) = sentimentDefault ∧
    analyze_dual "Program makan bergizi gratis berjalan lancar." "judul"
      (fun _ => .error ()) (fun _ => .ok ⟨"positive", 1⟩)
      (fun _ => .ok (some ["Anggaran"])) = sentimentDefault ∧
    analyze_dual "Program makan bergizi gratis berjalan lancar." "judul"
      (fun _ => .ok ⟨"positive", 1⟩) (fun _ => .ok ⟨"netral", 1 / 2⟩)
      (fun _ => .ok (some ["Anggaran"])) =
      (pyUpper "positive", round4 1, mapIndobert (pyLower "netral"),
       round4 (1 / 2), "Anggaran") :=
  ⟨analyze_dual_amended.2.1 "x" "judul" _ _ _ (by decide),
   analyze_dual_amended.2.2.1
      "Program makan bergizi gratis berjalan lancar." "judul" _ _ _ rfl,
   analyze_dual_amended.2.2.2.2.2
      "Program makan bergizi gratis berjalan lancar." "judul" _ _ _
      ⟨"positive", 1⟩ ⟨"netral", 1 / 2⟩ [] "Anggaran"
      (by decide) rfl rfl rfl⟩

/- ===================================================================
   Detail-phase orchestrator loops (claims C1 and C10): the detik
   `scrape_tag_news_to_csv` detail loop — with the `sources` local
   threaded explicitly, since Python binds it only after a successful
   fetch+parse and the except handler reads it — and the tribunnews
   `scrape_tribun_tag_to_csv` detail loop, whose handler only logs.
   Fetching+parsing one url is an oracle returning `.error ()` when it
   raises.  The constant `created_at` column is omitted.
   =================================================================== -/

/-- The detail-page dict of detik `parse_detail_page`, as the
orchestrator consumes it. -/
structure DetikDetail where
  title_detail : String
  published_time_iso : String
  content : String
  author : String
deriving DecidableEq, Repr

/-- The detail-page dict of tribunnews `parse_detail_page`, as the
orchestrator consumes it. -/
structure TribunDetail where
  title_detail : String
  published_final : String
  content : String
  author : String
deriving DecidableEq, Repr

/-- One output row (the csv columns, minus the constant
`created_at`). -/
structure OutRow where
  sumber : String
  tanggal : String
  judul : String
  content : String
  author : String
  url : String
deriving DecidableEq, Repr

/-- `base = next((x for x in list_rows if x["url"] == u), {})`, read
through `base.get("published_wib", "")` and
`base.get("title_list", "")`. -/
def baseFor (list_rows : List ListRow) (u : String) : String × String :=
  match list_rows.find? fun x => x.url = u with
  | some x => (x.published_wib, x.title_list)
  | none => ("", "")

/-- The detik list-date fallback pattern
`\b(\d{1,2}) (\w+) (\d{4}) (\d{2}):(\d{2}) WIB\b` (leading `\b` is the
searcher's boundary flag). -/
def detikTglListToks : List GTok :=
  [(some 1, RTok.cls Char.isDigit 1 (some 2) false),
   (none, RTok.lit ' '),
   (some 2, RTok.cls isWordChar 1 none false),
   (none, RTok.lit ' '),
   (some 3, RTok.cls Char.isDigit 4 (some 4) false),
   (none, RTok.lit ' '),
   (some 4, RTok.cls Char.isDigit 2 (some 2) false),
   (none, RTok.lit ':'),
   (some 5, RTok.cls Char.isDigit 2 (some 2) false),
   (none, RTok.lit ' '),
   (none, RTok.lit 'W'), (none, RTok.lit 'I'), (none, RTok.lit 'B'),
   (none, RTok.bnd)]

/-- The orchestrator's three-letter month table,
`bulan_map.get(bln[:3], "01")`. -/
def detikBulanMap : List (String × Nat) :=
  [("Jan", 1), ("Feb", 2), ("Mar", 3), ("Apr", 4), ("Mei", 5), ("Jun", 6),
   ("Jul", 7), ("Agu", 8), ("Sep", 9), ("Okt", 10), ("Nov", 11), ("Des", 12)]

def detikBulanNum (bln : String) : Nat :=
  ((detikBulanMap.find? fun kv => kv.1 = bln).map fun kv => kv.2).getD 1

/-- The detik `tanggal` computation: prefer the converted ISO meta time
(dropping the `" WIB"` suffix); otherwise re-parse the list-phase date,
where an out-of-range day/hour/minute makes the `datetime` constructor
raise (caught by the surrounding handler); an unmatched list date is
kept verbatim. -/
def detikTanggal (iso : String) (tgl_list : String) : Except Unit String :=
  if iso_to_wib iso = "" then
    match reSearch detikTglListToks true tgl_list.data with
    | none => .ok tgl_list
    | some us =>
      if validCivil (natOfDigits (getGrp us 3))
          (detikBulanNum ⟨(getGrp us 2).take 3⟩)
          (natOfDigits (getGrp us 1)) (natOfDigits (getGrp us 4))
          (natOfDigits (getGrp us 5)) 0 then
        .ok ⟨renderCanon ⟨(natOfDigits (getGrp us 3) : Int),
          detikBulanNum ⟨(getGrp us 2).take 3⟩,
          natOfDigits (getGrp us 1), natOfDigits (getGrp us 4),
          natOfDigits (getGrp us 5), 0⟩⟩
      else .error ()
  else .ok ((iso_to_wib iso).replace " WIB" "")

/-- The degraded record the detik except handler appends, with `s` the
current value of the `sources` variable. -/
def detikDegradedRow (list_rows : List ListRow) (s u : String) : OutRow :=
  ⟨s, py_or (baseFor list_rows u).1 "", py_or (baseFor list_rows u).2 "",
   "", "", u⟩

/-- The successful-iteration record of the detik detail loop. -/
def detikOkRow (list_rows : List ListRow) (u tanggal : String)
    (d : DetikDetail) : OutRow :=
  ⟨"detik", tanggal, py_or (baseFor list_rows u).2 "",
   (py_or d.content "").replace "SCROLL TO CONTINUE WITH CONTENT" "",
   py_or d.author "", u⟩

/-- The detik detail loop over the deduped urls, threading the binding
state of the `sources` local (`none` = not yet assigned): a fetch/parse
failure runs the handler, which reads `sources` — a `NameError`
(`.error ()`) when it was never bound; a failure after the assignment
appends the degraded record and continues. -/
def scrape_detik_details (list_rows : List ListRow)
    (fetch : String → Except Unit DetikDetail) :
    List String → Option String → Except Unit (List OutRow)
  | [], _ => .ok []
  | u :: rest, sources? =>
    match fetch u with
    | .ok d =>
      match detikTanggal d.published_time_iso (baseFor list_rows u).1 with
      | .ok tanggal =>
        match scrape_detik_details list_rows fetch rest (some "detik") with
        | .ok out => .ok (detikOkRow list_rows u tanggal d :: out)
        | .error e => .error e
      | .error _ =>
        match scrape_detik_details list_rows fetch rest (some "detik") with
        | .ok out => .ok (detikDegradedRow list_rows "detik" u :: out)
        | .error e => .error e
    | .error _ =>
      match sources? with
      | some s =>
        match scrape_detik_details list_rows fetch rest (some s) with
        | .ok out => .ok (detikDegradedRow list_rows s u :: out)
        | .error e => .error e
      | none => .error ()

/-- The detail phase of detik `scrape_tag_news_to_csv`: the loop starts
with `sources` unbound. -/
def scrape_tag_news_details (list_rows : List ListRow)
    (fetch : String → Except Unit DetikDetail) (urls : List String) :
    Except Unit (List OutRow) :=
  scrape_detik_details list_rows fetch urls none

/-- `.strip()`. -/
def pyStripStr (s : String) : String := ⟨pyStrip s.data⟩

/-- The successful-iteration record of the tribunnews detail loop. -/
def tribunRow (u : String) (d : TribunDetail) : OutRow :=
  ⟨"tribunnews", d.published_final,
   pyStripStr (d.title_detail.replace "Tribunnews.com" ""),
   pyStripStr (d.content.replace "Tribunnews.com" ""),
   d.author, u⟩

/-- The detail phase of tribunnews `scrape_tribun_tag_to_csv`: its
except handler only logs, so a failing url contributes nothing. -/
def scrape_tribun_details (fetch : String → Except Unit TribunDetail) :
    List String → List OutRow
  | [] => []
  | u :: rest =>
    match fetch u with
    | .ok d => tribunRow u d :: scrape_tribun_details fetch rest
    | .error _ => scrape_tribun_details fetch rest

/-- Once `sources` is bound, the detik detail loop always completes
with exactly one row per url, in order. -/
theorem scrape_detik_details_bound (list_rows : List ListRow)
    (fetch : String → Except Unit DetikDetail) :
    ∀ (urls : List String) (s : String), ∃ out,
      scrape_detik_details list_rows fetch urls (some s) = .ok out ∧
      out.map (fun r => r.url) = urls
  | [], s => ⟨[], rfl, rfl⟩
  | u :: rest, s => by
    rcases hf : fetch u with e | d
    · obtain ⟨out, ho, hm⟩ :=
        scrape_detik_details_bound list_rows fetch rest s
      exact ⟨detikDegradedRow list_rows s u :: out,
        by simp [scrape_detik_details, hf, ho],
        by simp [detikDegradedRow, hm]⟩
    · rcases ht : detikTanggal d.published_time_iso (baseFor list_rows u).1
        with e | t
      · obtain ⟨out, ho, hm⟩ :=
          scrape_detik_details_bound list_rows fetch rest "detik"
        exact ⟨detikDegradedRow list_rows "detik" u :: out,
          by simp [scrape_detik_details, hf, ht, ho],
          by simp [detikDegradedRow, hm]⟩
      · obtain ⟨out, ho, hm⟩ :=
          scrape_detik_details_bound list_rows fetch rest "detik"
        exact ⟨detikOkRow list_rows u t d :: out,
          by simp [scrape_detik_details, hf, ht, ho],
          by simp [detikOkRow, hm]⟩

/- ===================================================================
   Claim C1: degraded records vs dropped urls on detail failures
   =================================================================== -/

/-- C1 counterexample: a failing tribunnews detail fetch leaves no
record at all — the url is dropped, not degraded; and a failure on the
very first detik url aborts the whole detik run (the handler raises
`NameError` on the unbound `sources`). -/
theorem degraded_record_counterexample :
    scrape_tribun_details (fun _ => .error ())
      ["https://www.tribunnews.com/tag/mbg/x"] = [] ∧
    scrape_tag_news_details [] (fun _ => .error ())
      ["https://news.detik.com/d-1/x"] = .error () := ⟨rfl, rfl⟩

/-- C1 (amended): once one detik article has succeeded (`sources`
bound), a failing url yields exactly the degraded record — list-phase
date and title, empty content and author, the url preserved — and the
loop continues, completing with one row per url; but a failure on the
very first detik article aborts the run; and tribunnews never aborts
but contributes nothing for a failing url: its output rows are exactly
the successful fetches. -/
theorem degraded_record_amended :
    (∀ list_rows fetch (u : String) rest (s : String),
      fetch u = .error () →
      scrape_detik_details list_rows fetch (u :: rest) (some s) =
        (scrape_detik_details list_rows fetch rest (some s)).map
          (fun out => detikDegradedRow list_rows s u :: out)) ∧
    (∀ list_rows fetch (urls : List String) (s : String), ∃ out,
      scrape_detik_details list_rows fetch urls (some s) = .ok out ∧
      out.map (fun r => r.url) = urls) ∧
    (∀ list_rows fetch (u : String) rest,
      fetch u = .error () →
      scrape_tag_news_details list_rows fetch (u :: rest) = .error ()) ∧
    (∀ fetch (urls : List String) (u : String),
      fetch u = .error () →
      ∀ r ∈ scrape_tribun_details fetch urls, r.url ≠ u) ∧
    (∀ fetch (urls : List String) u d,
      u ∈ urls → fetch u = .ok d →
      tribunRow u d ∈ scrape_tribun_details fetch urls) ∧
    (∀ fetch (urls : List String),
      ∀ r ∈ scrape_tribun_details fetch urls,
        ∃ u ∈ urls, ∃ d, fetch u = .ok d ∧ r = tribunRow u d) := by
  refine ⟨?_, ?_, ?_, ?_, ?_, ?_⟩
  · intro list_rows fetch u rest s h
    rcases ho : scrape_detik_details list_rows fetch rest (some s)
      with e | out <;>
      simp [scrape_detik_details, h, ho, Except.map]
  · intro list_rows fetch urls s
    exact scrape_detik_details_bound list_rows fetch urls s
  · intro list_rows fetch u rest h
    unfold scrape_tag_news_details
    simp [scrape_detik_details, h]
  · intro fetch urls u hu
    induction urls with
    | nil => intro r hr; simp [scrape_tribun_details] at hr
    | cons v rest ih =>
      intro r hr
      rcases hv : fetch v with e | d
      · rw [show scrape_tribun_details fetch (v :: rest) =
          scrape_tribun_details fetch rest by
            simp [scrape_tribun_details, hv]] at hr
        exact ih r hr
      · rw [show scrape_tribun_details fetch (v :: rest) =
          tribunRow v d :: scrape_tribun_details fetch rest by
            simp [scrape_tribun_details, hv]] at hr
        rcases List.mem_cons.mp hr with rfl | hr
        · show v ≠ u
          intro he
          rw [he] at hv
          rw [hu] at hv
          cases hv
        · exact ih r hr
  · intro fetch urls u d hu hf
    induction urls with
    | nil => simp at hu
    | cons v rest ih =>
      rcases List.mem_cons.mp hu with rfl | hu2
      · rw [show scrape_tribun_details fetch (u :: rest) =
          tribunRow u d :: scrape_tribun_details fetch rest by
            simp [scrape_tribun_details, hf]]
        exact List.mem_cons_self _ _
      · rcases hv : fetch v with e | dv
        · rw [show scrape_tribun_details fetch (v :: rest) =
            scrape_tribun_details fetch rest by
              simp [scrape_tribun_details, hv]]
          exact ih hu2
        · rw [show scrape_tribun_details fetch (v :: rest) =
            tribunRow v dv :: scrape_tribun_details fetch rest by
              simp [scrape_tribun_details, hv]]
          exact List.mem_cons_of_mem _ (ih hu2)
  · intro fetch urls
    induction urls with
    | nil => intro r hr; simp [scrape_tribun_details] at hr
    | cons v rest ih =>
      intro r hr
      rcases hv : fetch v with e | d
      · rw [show scrape_tribun_details fetch (v :: rest) =
          scrape_tribun_details fetch rest by
            simp [scrape_tribun_details, hv]] at hr
        obtain ⟨u, hu, d, hf, he⟩ := ih r hr
        exact ⟨u, List.mem_cons_of_mem _ hu, d, hf, he⟩
      · rw [show scrape_tribun_details fetch (v :: rest) =
          tribunRow v d :: scrape_tribun_details fetch rest by
            simp [scrape_tribun_details, hv]] at hr
        rcases List.mem_cons.mp hr with rfl | hr
        · exact ⟨v, List.mem_cons_self _ _, d, hv, rfl⟩
        · obtain ⟨u, hu, d2, hf, he⟩ := ih r hr
          exact ⟨u, List.mem_cons_of_mem _ hu, d2, hf, he⟩

/-- C1 witness: the amended theorem instantiated with concrete fetch
oracles. -/
theorem degraded_record_amended_witness :
    scrape_detik_details
      [⟨"Rabu, 17 Des 2025 02:03 WIB", "Judul Satu",
        "https://news.detik.com/d-1/x"⟩]
      (fun _ => .error ()) ["https://news.detik.com/d-1/x"] (some "detik") =
      (scrape_detik_details
        [⟨"Rabu, 17 Des 2025 02:03 WIB", "Judul Satu",
          "https://news.detik.com/d-1/x"⟩]
        (fun _ => .error ()) [] (some "detik")).map
        (fun out => detikDegradedRow
          [⟨"Rabu, 17 Des 2025 02:03 WIB", "Judul Satu",
            "https://news.detik.com/d-1/x"⟩]
          "detik" "https://news.detik.com/d-1/x" :: out) ∧
    tribunRow "https://www.tribunnews.com/x"
        ⟨"Judul", "2025-12-17 08:00:00", "Isi artikel", "Penulis"⟩ ∈
      scrape_tribun_details
        (fun _ => .ok ⟨"Judul", "2025-12-17 08:00:00", "Isi artikel",
          "Penulis"⟩)
        ["https://www.tribunnews.com/x"] :=
  ⟨degraded_record_amended.1
      [⟨"Rabu, 17 Des 2025 02:03 WIB", "Judul Satu",
        "https://news.detik.com/d-1/x"⟩]
      (fun _ => .error ()) "https://news.detik.com/d-1/x" [] "detik" rfl,
   degraded_record_amended.2.2.2.2.1
      (fun _ => .ok ⟨"Judul", "2025-12-17 08:00:00", "Isi artikel",
        "Penulis"⟩)
      ["https://www.tribunnews.com/x"] "https://www.tribunnews.com/x"
      ⟨"Judul", "2025-12-17 08:00:00", "Isi artikel", "Penulis"⟩
      (List.mem_cons_self _ _) rfl⟩

/- ===================================================================
   Claim C10: the except handler's `sources` read
   =================================================================== -/

/-- C10: the detik except handler reads the `sources` variable, which
is assigned only after a successful fetch+parse; when the very first
url's fetch raises, `sources` is unbound and the handler itself raises
(`NameError`), aborting the run — whereas after any prior success the
handler works and appends the degraded record. -/
theorem detik_sources_unbound :
    (∀ list_rows fetch (u : String) rest,
      fetch u = .error () →
      scrape_tag_news_details list_rows fetch (u :: rest) = .error ()) ∧
    scrape_tag_news_details [] (fun _ => .error ())
      ["https://news.detik.com/d-1/a", "https://news.detik.com/d-2/b"] =
      .error () ∧
    (∀ list_rows fetch (u : String) (s : String),
      fetch u = .error () →
      scrape_detik_details list_rows fetch [u] (some s) =
        .ok [detikDegradedRow list_rows s u]) := by
  refine ⟨?_, rfl, ?_⟩
  · intro list_rows fetch u rest h
    unfold scrape_tag_news_details
    simp [scrape_detik_details, h]
  · intro list_rows fetch u s h
    simp [scrape_detik_details, h]

/-- C10 witness: the handler's `NameError` on a concrete first-url
failure, and its degraded record once `sources` is bound. -/
theorem detik_sources_unbound_witness :
    scrape_tag_news_details [] (fun _ => .error ())
      ["https://news.detik.com/d-9/x"] = .error () ∧
    scrape_detik_details [] (fun _ => .error ())
      ["https://news.detik.com/d-9/x"] (some "detik") =
      .ok [detikDegradedRow [] "detik" "https://news.detik.com/d-9/x"] :=
  ⟨detik_sources_unbound.1 [] (fun _ => .error ())
      "https://news.detik.com/d-9/x" [] rfl,
   detik_sources_unbound.2.2 [] (fun _ => .error ())
      "https://news.detik.com/d-9/x" "detik" rfl⟩

end Mbg
